import Mathlib

/-!
Verification of the combination-generation core of the nfttoll repository.

The TypeScript source (src/app/page.tsx, src/unnamed/part_000 and the color
utility module in src/unnamed/part_001) is shallowly embedded below:

* JavaScript numbers are modelled by the executable fraction type JsNum
  (an integer numerator over a natural denominator, not normalised); the
  arithmetic the generation core performs is exact on the values it actually
  computes, and a bridge to the rationals is provided for the proofs about
  scaleCountsToTotal.
* JavaScript strings are modelled as lists of characters (Str), and the
  template-literal rendering of a number as the decimal digit list natChars.
* The mutable refs of the React component (quotasRef, pairUsageRef,
  traitUsageStats, the generated-hash set, and the Math.random stream
  position) are an explicit state record St threaded through every function.
* Math.random is an oracle stream of numbers held in the context; every
  theorem about the generator holds for every stream.
* A JavaScript exception (the TypeError thrown when a property extraction
  returns undefined and toLowerCase is called on it) is modelled by the
  Except Unit layer of the return types.
-/

namespace NftGen

/-- Decidable equality of Except results, used to evaluate the embedded
functions on concrete inputs. -/
instance instDecEqExcept {e a : Type} [DecidableEq e] [DecidableEq a] :
    DecidableEq (Except e a) := fun x y =>
  match x, y with
  | Except.ok v, Except.ok w =>
    match decEq v w with
    | isTrue h => isTrue (by rw [h])
    | isFalse h => isFalse (fun hc => h (Except.ok.inj hc))
  | Except.error v, Except.error w =>
    match decEq v w with
    | isTrue h => isTrue (by rw [h])
    | isFalse h => isFalse (fun hc => h (Except.error.inj hc))
  | Except.ok _, Except.error _ => isFalse (fun hc => Except.noConfusion hc)
  | Except.error _, Except.ok _ => isFalse (fun hc => Except.noConfusion hc)

/-- Executable model of a JavaScript number: an integer numerator over a
natural denominator.  Values built by the embedded code always have a
nonzero denominator. -/
structure JsNum where
  num : Int
  den : Nat
  deriving DecidableEq, Repr

/-- Number zero. -/
def qZero : JsNum := ⟨0, 1⟩

/-- Number one. -/
def qOne : JsNum := ⟨1, 1⟩

/-- Injection of an integer. -/
def qInt (i : Int) : JsNum := ⟨i, 1⟩

/-- Injection of a natural number. -/
def qNat (n : Nat) : JsNum := ⟨(n : Int), 1⟩

/-- Addition of fraction values. -/
def qAdd (a b : JsNum) : JsNum := ⟨a.num * b.den + b.num * a.den, a.den * b.den⟩

/-- Subtraction of fraction values. -/
def qSub (a b : JsNum) : JsNum := ⟨a.num * b.den - b.num * a.den, a.den * b.den⟩

/-- Multiplication of fraction values. -/
def qMul (a b : JsNum) : JsNum := ⟨a.num * b.num, a.den * b.den⟩

/-- Division of fraction values; the sign is moved into the numerator so the
denominator stays a natural number.  Division by zero is never reached by the
embedded code (every division site is guarded). -/
def qDiv (a b : JsNum) : JsNum :=
  match b.num with
  | Int.ofNat 0 => qZero
  | Int.ofNat (n+1) => ⟨a.num * b.den, a.den * (n+1)⟩
  | Int.negSucc n => ⟨-(a.num * b.den), a.den * (n+1)⟩

/-- Value comparison a ≤ b (denominators are natural, so cross
multiplication keeps the order). -/
def qLeB (a b : JsNum) : Bool := a.num * b.den ≤ b.num * a.den

/-- Value comparison a < b. -/
def qLtB (a b : JsNum) : Bool := a.num * b.den < b.num * a.den

/-- Value equality, the model of the JavaScript === on numbers. -/
def qEqB (a b : JsNum) : Bool := a.num * b.den == b.num * a.den

/-- Model of Math.max on two numbers. -/
def qMax (a b : JsNum) : JsNum := if qLeB a b then b else a

/-- Model of Math.floor, by floor division of the numerator by the
denominator. -/
def jsFloor (a : JsNum) : Int := Int.fdiv a.num a.den

/-- Interpretation of a JsNum as a rational number. -/
def qVal (a : JsNum) : ℚ := (a.num : ℚ) / (a.den : ℚ)

theorem qVal_qZero : qVal qZero = 0 := by simp [qVal, qZero]

theorem qVal_qNat (n : Nat) : qVal (qNat n) = (n : ℚ) := by simp [qVal, qNat]

theorem qVal_qInt (i : Int) : qVal (qInt i) = (i : ℚ) := by simp [qVal, qInt]

theorem qAdd_den (a b : JsNum) : (qAdd a b).den = a.den * b.den := rfl

theorem qVal_qAdd (a b : JsNum) (ha : a.den ≠ 0) (hb : b.den ≠ 0) :
    qVal (qAdd a b) = qVal a + qVal b := by
  have ha' : (a.den : ℚ) ≠ 0 := Nat.cast_ne_zero.mpr ha
  have hb' : (b.den : ℚ) ≠ 0 := Nat.cast_ne_zero.mpr hb
  simp only [qVal, qAdd]
  push_cast
  field_simp
  try ring

theorem qVal_qSub (a b : JsNum) (ha : a.den ≠ 0) (hb : b.den ≠ 0) :
    qVal (qSub a b) = qVal a - qVal b := by
  have ha' : (a.den : ℚ) ≠ 0 := Nat.cast_ne_zero.mpr ha
  have hb' : (b.den : ℚ) ≠ 0 := Nat.cast_ne_zero.mpr hb
  simp only [qVal, qSub]
  push_cast
  field_simp
  try ring

theorem qVal_qMul (a b : JsNum) (ha : a.den ≠ 0) (hb : b.den ≠ 0) :
    qVal (qMul a b) = qVal a * qVal b := by
  have ha' : (a.den : ℚ) ≠ 0 := Nat.cast_ne_zero.mpr ha
  have hb' : (b.den : ℚ) ≠ 0 := Nat.cast_ne_zero.mpr hb
  simp only [qVal, qMul]
  push_cast
  field_simp
  try ring

theorem qVal_qDiv (a b : JsNum) (ha : a.den ≠ 0) (hb : b.den ≠ 0)
    (hbn : b.num ≠ 0) : qVal (qDiv a b) = qVal a / qVal b := by
  have ha' : (a.den : ℚ) ≠ 0 := Nat.cast_ne_zero.mpr ha
  have hb' : (b.den : ℚ) ≠ 0 := Nat.cast_ne_zero.mpr hb
  rcases b with ⟨bn, bd⟩
  match bn, hbn with
  | Int.ofNat (n+1), _ =>
    have hn : ((n : ℚ) + 1) ≠ 0 := by positivity
    simp only [qVal, qDiv]
    push_cast
    rw [div_div_div_eq]
    push_cast
    field_simp
    try ring
  | Int.negSucc n, _ =>
    simp only [qVal, qDiv]
    have hcast : ((Int.negSucc n : ℤ) : ℚ) = -((n : ℚ) + 1) := by
      push_cast [Int.negSucc_eq]
      ring
    rw [div_div_div_eq, hcast]
    push_cast
    rw [mul_neg, div_neg, ← neg_div]

theorem qEqB_iff (a b : JsNum) (ha : a.den ≠ 0) (hb : b.den ≠ 0) :
    qEqB a b = true ↔ qVal a = qVal b := by
  have ha' : (a.den : ℚ) ≠ 0 := Nat.cast_ne_zero.mpr ha
  have hb' : (b.den : ℚ) ≠ 0 := Nat.cast_ne_zero.mpr hb
  simp only [qEqB, beq_iff_eq, qVal, div_eq_div_iff ha' hb']
  constructor
  · intro h
    exact_mod_cast congrArg (fun i : Int => (i : ℚ)) h
  · intro h
    exact_mod_cast h

theorem qLeB_iff (a b : JsNum) (ha : a.den ≠ 0) (hb : b.den ≠ 0) :
    qLeB a b = true ↔ qVal a ≤ qVal b := by
  have ha' : (0 : ℚ) < (a.den : ℚ) := by
    exact_mod_cast Nat.pos_of_ne_zero ha
  have hb' : (0 : ℚ) < (b.den : ℚ) := by
    exact_mod_cast Nat.pos_of_ne_zero hb
  simp only [qLeB, decide_eq_true_eq, qVal, div_le_div_iff ha' hb']
  constructor
  · intro h
    exact_mod_cast h
  · intro h
    exact_mod_cast h

theorem qLtB_iff (a b : JsNum) (ha : a.den ≠ 0) (hb : b.den ≠ 0) :
    qLtB a b = true ↔ qVal a < qVal b := by
  have ha' : (0 : ℚ) < (a.den : ℚ) := by
    exact_mod_cast Nat.pos_of_ne_zero ha
  have hb' : (0 : ℚ) < (b.den : ℚ) := by
    exact_mod_cast Nat.pos_of_ne_zero hb
  simp only [qLtB, decide_eq_true_eq, qVal, div_lt_div_iff ha' hb']
  constructor
  · intro h
    exact_mod_cast h
  · intro h
    exact_mod_cast h

theorem jsFloor_eq_floor (a : JsNum) (ha : a.den ≠ 0) :
    jsFloor a = ⌊qVal a⌋ := by
  have hd : (0 : Int) ≤ (a.den : Int) := by positivity
  rw [jsFloor, Int.fdiv_eq_ediv _ hd, qVal, Rat.floor_intCast_div_natCast]

/-! ### Strings and decimal rendering -/

/-- JavaScript strings are modelled as lists of characters. -/
abbrev Str := List Char

/-- Character of a single decimal digit. -/
def digitChar (d : Nat) : Char := Char.ofNat (48 + d)

/-- The digit walk of the decimal rendering, driven by a fuel that bounds
the number so the recursion is structural. -/
def natCharsGo : Nat → Nat → List Char
  | 0, _ => []
  | fuel + 1, n =>
    if n < 10 then [digitChar n]
    else natCharsGo fuel (n / 10) ++ [digitChar (n % 10)]

/-- Decimal rendering of a natural number, the model of the template literal
interpolation of a nonnegative integer. -/
def natChars (n : Nat) : List Char := natCharsGo (n + 1) n

theorem natCharsGo_congr : ∀ (f1 : Nat) {f2 n : Nat}, n < f1 → n < f2 →
    natCharsGo f1 n = natCharsGo f2 n := by
  intro f1
  induction f1 with
  | zero => intro f2 n h _; omega
  | succ f ih =>
    intro f2 n h1 h2
    match f2, h2 with
    | f2 + 1, _ =>
      simp only [natCharsGo]
      split
      · rfl
      · rename_i hn
        congr 1
        have hd : n / 10 < n := Nat.div_lt_self (by omega) (by omega)
        exact ih (by omega) (by omega)

/-- The defining recurrence of the decimal rendering. -/
theorem natChars_eq (n : Nat) : natChars n =
    if n < 10 then [digitChar n]
    else natChars (n / 10) ++ [digitChar (n % 10)] := by
  show natCharsGo (n + 1) n = _
  simp only [natCharsGo]
  split
  · rfl
  · rename_i hn
    congr 1
    have hd : n / 10 < n := Nat.div_lt_self (by omega) (by omega)
    exact natCharsGo_congr n (by omega) (by omega)

/-- Decimal rendering of an integer. -/
def intChars (i : Int) : List Char :=
  match i with
  | Int.ofNat n => natChars n
  | Int.negSucc n => '-' :: natChars (n + 1)

theorem digitChar_toNat (d : Nat) (h : d < 10) : (digitChar d).toNat = 48 + d := by
  interval_cases d <;> decide

theorem natChars_ne_nil (n : Nat) : natChars n ≠ [] := by
  rw [natChars_eq]
  split
  · simp
  · simp

theorem natChars_digits (n : Nat) :
    ∀ c ∈ natChars n, 48 ≤ c.toNat ∧ c.toNat ≤ 57 := by
  induction n using Nat.strong_induction_on with
  | _ n ih =>
    intro c hc
    rw [natChars_eq] at hc
    split at hc
    · next h =>
      simp only [List.mem_singleton] at hc
      subst hc
      rw [digitChar_toNat _ h]
      omega
    · next h =>
      rcases List.mem_append.mp hc with h1 | h2
      · exact ih (n / 10) (Nat.div_lt_self (by omega) (by omega)) c h1
      · simp only [List.mem_singleton] at h2
        subst h2
        rw [digitChar_toNat _ (Nat.mod_lt _ (by omega))]
        omega

theorem colon_not_mem_natChars (n : Nat) : ':' ∉ natChars n := by
  intro h
  have h2 := natChars_digits n ':' h
  have h3 : (':').toNat = 58 := by decide
  omega

theorem bar_not_mem_natChars (n : Nat) : '|' ∉ natChars n := by
  intro h
  have h2 := natChars_digits n '|' h
  have h3 : ('|').toNat = 124 := by decide
  omega

/-- Reading a digit list back as a number. -/
def parseDigs (s : List Char) : Nat :=
  s.foldl (fun a c => a * 10 + (c.toNat - 48)) 0

theorem parseDigs_append_digit (s : List Char) (c : Char) :
    parseDigs (s ++ [c]) = parseDigs s * 10 + (c.toNat - 48) := by
  simp [parseDigs, List.foldl_append]

theorem parseDigs_natChars (n : Nat) : parseDigs (natChars n) = n := by
  induction n using Nat.strong_induction_on with
  | _ n ih =>
    rw [natChars_eq]
    split
    · next h =>
      simp [parseDigs, digitChar_toNat _ h]
    · next h =>
      rw [parseDigs_append_digit, ih (n / 10) (Nat.div_lt_self (by omega) (by omega)),
        digitChar_toNat _ (Nat.mod_lt _ (by omega))]
      omega

theorem natChars_inj {m n : Nat} (h : natChars m = natChars n) : m = n := by
  have := congrArg parseDigs h
  rwa [parseDigs_natChars, parseDigs_natChars] at this

/-- Splitting a separator-terminated concatenation is unambiguous when the
separator occurs in neither prefix. -/
theorem sep_append_inj (s : Char) :
    ∀ a b r1 r2 : List Char, s ∉ a → s ∉ b →
      a ++ s :: r1 = b ++ s :: r2 → a = b ∧ r1 = r2 := by
  intro a
  induction a with
  | nil =>
    intro b r1 r2 _ hb h
    cases b with
    | nil =>
      simpa using h
    | cons x xs =>
      simp only [List.nil_append, List.cons_append, List.cons.injEq] at h
      exact absurd (h.1 ▸ List.mem_cons_self x xs) hb
  | cons x xs ih =>
    intro b r1 r2 ha hb h
    cases b with
    | nil =>
      simp only [List.cons_append, List.nil_append, List.cons.injEq] at h
      exact absurd (h.1 ▸ List.mem_cons_self x xs) ha
    | cons y ys =>
      simp only [List.cons_append, List.cons.injEq] at h
      have hxs : s ∉ xs := fun hm => ha (List.mem_cons_of_mem _ hm)
      have hys : s ∉ ys := fun hm => hb (List.mem_cons_of_mem _ hm)
      obtain ⟨heq, hr⟩ := ih ys r1 r2 hxs hys h.2
      exact ⟨by rw [h.1, heq], hr⟩

/-- Encoding of one layer entry, the model of the template literal
rendering layerId, a colon, then itemId (used by both quotaKey and
createCombinationHash in the source). -/
def pairChars (k v : Nat) : List Char := natChars k ++ ':' :: natChars v

theorem pairChars_inj {k1 v1 k2 v2 : Nat}
    (h : pairChars k1 v1 = pairChars k2 v2) : k1 = k2 ∧ v1 = v2 := by
  obtain ⟨h1, h2⟩ :=
    sep_append_inj ':' (natChars k1) (natChars k2) (natChars v1) (natChars v2)
      (colon_not_mem_natChars k1) (colon_not_mem_natChars k2) h
  exact ⟨natChars_inj h1, natChars_inj h2⟩

theorem pairChars_ne_nil (k v : Nat) : pairChars k v ≠ [] := by
  have := natChars_ne_nil k
  cases h : natChars k with
  | nil => exact absurd h this
  | cons c cs => simp [pairChars, h]

theorem bar_not_mem_pairChars (k v : Nat) : '|' ∉ pairChars k v := by
  intro h
  rcases List.mem_append.mp h with h1 | h2
  · exact bar_not_mem_natChars k h1
  · rcases List.mem_cons.mp h2 with h3 | h4
    · simp at h3
    · exact bar_not_mem_natChars v h4

/-- Joining a list of strings with the bar separator, the model of the
JavaScript Array.join with a bar. -/
def joinBar : List (List Char) → List Char
  | [] => []
  | [x] => x
  | x :: y :: xs => x ++ '|' :: joinBar (y :: xs)

theorem joinBar_inj :
    ∀ l1 l2 : List (List Char),
      (∀ x ∈ l1, x ≠ [] ∧ '|' ∉ x) → (∀ x ∈ l2, x ≠ [] ∧ '|' ∉ x) →
      joinBar l1 = joinBar l2 → l1 = l2 := by
  intro l1
  induction l1 with
  | nil =>
    intro l2 _ h2 h
    cases l2 with
    | nil => rfl
    | cons y ys =>
      cases ys with
      | nil =>
        exact absurd h.symm (h2 y (List.mem_cons_self _ _)).1
      | cons z zs =>
        exfalso
        simp only [joinBar] at h
        have : (y : List Char) ≠ [] := (h2 y (List.mem_cons_self _ _)).1
        cases y with
        | nil => exact this rfl
        | cons c cs => simp at h
  | cons x xs ih =>
    intro l2 h1 h2 h
    cases xs with
    | nil =>
      cases l2 with
      | nil =>
        exact absurd h (h1 x (List.mem_cons_self _ _)).1
      | cons y ys =>
        cases ys with
        | nil =>
          simp only [joinBar] at h
          rw [h]
        | cons z zs =>
          exfalso
          simp only [joinBar] at h
          have hbar : '|' ∉ x := (h1 x (List.mem_cons_self _ _)).2
          apply hbar

          rw [h]
          exact List.mem_append.mpr (Or.inr (List.mem_cons_self _ _))
    | cons w ws =>
      cases l2 with
      | nil =>
        exfalso
        simp only [joinBar] at h
        have : (x : List Char) ≠ [] := (h1 x (List.mem_cons_self _ _)).1
        cases x with
        | nil => exact this rfl
        | cons c cs => simp at h
      | cons y ys =>
        cases ys with
        | nil =>
          exfalso
          simp only [joinBar] at h
          have hbar : '|' ∉ y := (h2 y (List.mem_cons_self _ _)).2
          apply hbar
          rw [← h]
          exact List.mem_append.mpr (Or.inr (List.mem_cons_self _ _))
        | cons z zs =>
          simp only [joinBar] at h
          obtain ⟨hx, hrest⟩ :=
            sep_append_inj '|' x y _ _
              (h1 x (List.mem_cons_self _ _)).2 (h2 y (List.mem_cons_self _ _)).2 h
          have := ih (z :: zs)
            (fun a ha => h1 a (List.mem_cons_of_mem _ ha))
            (fun a ha => h2 a (List.mem_cons_of_mem _ ha))
          rw [hx]
          have htail : (w :: ws) = (z :: zs) := by
            apply this
            exact hrest
          rw [htail]

/-! ### Word tokenisation and property extraction (src/app/page.tsx) -/

/-- Lowercasing of one character, model of toLowerCase (the names handled by
the application are ASCII). -/
def lowChar (c : Char) : Char :=
  if 65 ≤ c.toNat ∧ c.toNat ≤ 90 then Char.ofNat (c.toNat + 32) else c

/-- Lowercasing of a string. -/
def lowStr (s : Str) : Str := s.map lowChar

/-- Membership in the separator class of the split regex (whitespace, hyphen
or underscore). -/
def isSepChar (c : Char) : Bool :=
  c = ' ' || c = '\t' || c = '\n' || c = '\r' || c = '-' || c = '_'

/-- Splitting on single separator characters, producing the empty pieces that
the JavaScript split produces between consecutive separators (the callers
filter them away, which makes this equivalent to splitting on a run of
separators). -/
def splitAux (p : Char → Bool) : Str → Str → List Str
  | [], acc => [acc.reverse]
  | c :: cs, acc => if p c then acc.reverse :: splitAux p cs [] else splitAux p cs (c :: acc)

/-- Splitting a string at separators. -/
def splitSep (p : Char → Bool) (s : Str) : List Str := splitAux p s []

/-- Tokenisation used by extractProperty and the matching helpers:
lowercase, split on whitespace, hyphen and underscore, drop empty words. -/
def jsWords (name : Str) : List Str :=
  (splitSep isSepChar (lowStr name)).filter (fun w => w.length > 0)

/-- Test that a list starts with a pattern. -/
def seqStarts : List Char → List Char → Bool
  | [], _ => true
  | _ :: _, [] => false
  | p :: ps, c :: cs => p == c && seqStarts ps cs

/-- Substring containment, the model of String.prototype.includes. -/
def containsSub : List Char → List Char → Bool
  | [], pat => seqStarts pat []
  | c :: cs, pat => seqStarts pat (c :: cs) || containsSub cs pat

/-- The fixed color palette of extractProperty in src/app/page.tsx. -/
def extractColors : List Str :=
  ["red".data, "blue".data, "green".data, "yellow".data, "purple".data,
   "orange".data, "black".data, "white".data, "brown".data, "pink".data,
   "cyan".data, "magenta".data, "gray".data, "grey".data, "charcoal".data,
   "silver".data, "gold".data, "violet".data, "indigo".data, "turquoise".data,
   "lime".data, "navy".data, "maroon".data, "olive".data]

/-- Model of extractProperty: returns none exactly where the JavaScript
function returns undefined (a name tokenising to no words). -/
def extractProperty (itemName property : Str) : Option Str :=
  let words := jsWords itemName
  if lowStr property = "color".data then
    match words.find? (fun w => extractColors.contains w) with
    | some c => some c
    | none => words[0]?
  else
    match words.findIdx? (fun w => containsSub w (lowStr property)) with
    | some i => if i + 1 < words.length then words[i + 1]? else words[0]?
    | none => words[0]?

/-! ### Color families (src/unnamed/part_001) -/

/-- The FAMILY_SYNONYMS table of the color utility module. -/
def familySynonyms : List (Str × List Str) :=
  [("black".data, ["black".data]),
   ("white".data, ["white".data]),
   ("gray".data, ["gray".data, "grey".data, "charcoal".data, "silver".data,
     "ash".data, "slate".data]),
   ("brown".data, ["brown".data, "beige".data, "tan".data, "chocolate".data,
     "umber".data, "sepia".data, "khaki".data, "camel".data, "sand".data]),
   ("red".data, ["red".data, "maroon".data, "crimson".data, "burgundy".data,
     "scarlet".data, "ruby".data]),
   ("orange".data, ["orange".data, "amber".data, "tangerine".data,
     "apricot".data, "carrot".data]),
   ("yellow".data, ["yellow".data, "gold".data, "golden".data,
     "mustard".data, "lemon".data]),
   ("green".data, ["green".data, "olive".data, "lime".data,
     "chartreuse".data, "emerald".data, "jade".data, "mint".data]),
   ("teal".data, ["teal".data, "turquoise".data, "aqua".data, "cyan".data,
     "aquamarine".data]),
   ("blue".data, ["blue".data, "navy".data, "azure".data, "cobalt".data,
     "cerulean".data, "sapphire".data, "indigo".data]),
   ("purple".data, ["purple".data, "violet".data, "lavender".data,
     "plum".data, "lilac".data]),
   ("pink".data, ["pink".data, "magenta".data, "fuchsia".data, "rose".data,
     "salmon".data])]

/-- The derived ALIAS_TO_FAMILY map, in insertion order. -/
def aliasToFamily : List (Str × Str) :=
  familySynonyms.foldl (fun acc p => acc ++ p.2.map (fun w => (w, p.1))) []

/-- First-match lookup in a string-keyed association list. -/
def lookupStr (l : List (Str × Str)) (k : Str) : Option Str :=
  (l.find? (fun p => p.1 == k)).map (fun p => p.2)

/-- Membership in the character class kept by the tokenizer of the color
module (letters, digits, hyphen, underscore, whitespace; ASCII model of the
Unicode classes). -/
def isWordKeep (c : Char) : Bool :=
  c.isAlpha || c.isDigit || c = '-' || c = '_' || c = ' ' || c = '\t' ||
    c = '\n' || c = '\r'

/-- Tokenisation of the color module: lowercase, replace everything outside
the kept class with a space, split, drop empty words. -/
def colorTokenize (name : Str) : List Str :=
  (splitSep isSepChar
      ((lowStr name).map (fun c => if isWordKeep c then c else ' '))).filter
    (fun w => w.length > 0)

/-- Model of colorFamilyFromName: exact token match against the alias map
first, then substring containment in either direction, then none. -/
def colorFamilyFromName (name : Str) : Option Str :=
  let tokens := colorTokenize name
  match tokens.findSome? (fun t => lookupStr aliasToFamily t) with
  | some fam => some fam
  | none =>
    tokens.findSome? (fun t =>
      aliasToFamily.findSome? (fun p =>
        if containsSub t p.1 || containsSub p.1 t then some p.2 else none))

/-! ### Data model (src/app/page.tsx interfaces) -/

/-- One trait variant of a layer. -/
structure LayerItem where
  id : Nat
  name : Str
  dataUrl : Str := []
  rarity : Option JsNum := none
  count : Option JsNum := none
  deriving DecidableEq, Repr

/-- One image layer. -/
structure Layer where
  id : Nat
  name : Str
  items : List LayerItem
  zIndex : Int := 0
  exactCountMode : Bool := false
  deriving DecidableEq, Repr

/-- A cross-layer matching rule; the synthesized implicit head and body rule
carries id -1. -/
structure TraitMatchingRule where
  id : Int
  sourceLayerId : Nat
  targetLayerId : Nat
  sourceLayerName : Str := []
  targetLayerName : Str := []
  property : Str
  deriving DecidableEq, Repr

/-- An exclusion rule, either property based or a specific item pair. -/
structure TraitExclusionRule where
  id : Int
  sourceLayerId : Nat
  targetLayerId : Nat
  sourceLayerName : Str := []
  targetLayerName : Str := []
  sourceItemId : Option Nat := none
  targetItemId : Option Nat := none
  sourceItemName : Option Str := none
  targetItemName : Option Str := none
  property : Option Str := none
  deriving DecidableEq, Repr

/-- A hard manual source-item to target-item override. -/
structure ManualMapping where
  id : Int
  sourceLayerId : Nat
  sourceItemId : Nat
  targetLayerId : Nat
  targetItemId : Nat
  sourceLayerName : Str := []
  targetLayerName : Str := []
  sourceItemName : Str := []
  targetItemName : Str := []
  deriving DecidableEq, Repr

/-- The global rarity mode switch. -/
inductive RarityMode where
  | equal
  | weighted
  deriving DecidableEq, Repr

/-- Read-only generation context: catalog, rule set, rarity mode, and the
Math.random oracle stream. -/
structure Ctx where
  layers : List Layer
  traitMatchingRules : List TraitMatchingRule := []
  traitExclusionRules : List TraitExclusionRule := []
  manualMappings : List ManualMapping := []
  rarityMode : RarityMode := RarityMode.equal
  rand : Nat → JsNum

/-- A combination, the object mapping layer ids to chosen item ids; the
association list keeps at most one entry per key. -/
abbrev Combination := List (Nat × Nat)

/-- Lookup in a number-keyed association list, model of indexing a
JavaScript object (none is undefined). -/
def lookupNat {α : Type} (l : List (Nat × α)) (k : Nat) : Option α :=
  (l.find? (fun p => p.1 == k)).map (fun p => p.2)

/-- Reading one layer selection of a combination. -/
def getSel (c : Combination) (k : Nat) : Option Nat := lookupNat c k

/-- Writing one layer selection (assignment to an object property). -/
def insertSel (c : Combination) (k v : Nat) : Combination :=
  if (c.find? (fun p => p.1 == k)).isSome then
    c.map (fun p => if p.1 == k then (k, v) else p)
  else c ++ [(k, v)]

/-- JavaScript truthiness of a possibly absent numeric id: undefined and 0
are both falsy. -/
def truthyId (o : Option Nat) : Option Nat :=
  match o with
  | some v => if v = 0 then none else some v
  | none => none

/-- JavaScript truthiness of a possibly absent string: undefined and the
empty string are falsy. -/
def truthyStr (o : Option Str) : Option Str :=
  match o with
  | some s => if s = [] then none else some s
  | none => none

/-! ### Keys and the combination hash -/

/-- Model of quotaKey, the template rendering layerId, colon, itemId. -/
def quotaKey (layerId itemId : Nat) : Str := pairChars layerId itemId

theorem quotaKey_inj {a b c d : Nat} (h : quotaKey a b = quotaKey c d) :
    a = c ∧ b = d := pairChars_inj h

/-- Model of rulePairKey. -/
def rulePairKey (ruleId : Int) (sourceItemId targetLayerId targetItemId : Nat) : Str :=
  'R' :: '|' :: (intChars ruleId ++ '|' :: (natChars sourceItemId ++
    '|' :: (natChars targetLayerId ++ '|' :: natChars targetItemId)))

/-- Model of mapPairKey. -/
def mapPairKey (sourceItemId targetLayerId targetItemId : Nat) : Str :=
  'M' :: '|' :: (natChars sourceItemId ++
    '|' :: (natChars targetLayerId ++ '|' :: natChars targetItemId))

/-- Model of createCombinationHash: keys sorted numerically, each rendered
with its selection, joined with bars. -/
def createCombinationHash (c : Combination) : Str :=
  joinBar ((List.insertionSort (· ≤ ·) (c.map Prod.fst)).map
    (fun k => pairChars k ((getSel c k).getD 0)))

theorem lookupNat_none_iff {α : Type} (l : List (Nat × α)) (k : Nat) :
    lookupNat l k = none ↔ k ∉ l.map Prod.fst := by
  induction l with
  | nil => simp [lookupNat]
  | cons p t ih =>
    by_cases hk : p.1 = k
    · simp [lookupNat, List.find?, hk]
    · have hbeq : (p.1 == k) = false := beq_eq_false_iff_ne.mpr hk
      simp only [lookupNat, List.find?, hbeq, List.map_cons, List.mem_cons]
      rw [← lookupNat]
      rw [ih]
      constructor
      · intro hn hm
        rcases hm with hm | hm
        · exact hk hm.symm
        · exact hn hm
      · intro hn hm
        exact hn (Or.inr hm)

theorem lookupNat_some_iff {α : Type} {l : List (Nat × α)}
    (hnd : (l.map Prod.fst).Nodup) {k : Nat} {v : α} :
    lookupNat l k = some v ↔ (k, v) ∈ l := by
  induction l with
  | nil => simp [lookupNat]
  | cons p t ih =>
    simp only [List.map_cons, List.nodup_cons] at hnd
    by_cases hk : p.1 = k
    · have hbeq : (p.1 == k) = true := beq_iff_eq.mpr hk
      simp only [lookupNat, List.find?, hbeq, Option.map_some, List.mem_cons]
      constructor
      · intro hv
        left
        have hv2 : p.2 = v := Option.some.inj hv
        obtain ⟨p1, p2⟩ := p
        simp only at hk hv2
        rw [hk, hv2]
      · intro hm
        rcases hm with hm | hm
        · rw [← hm]
          rfl
        · exfalso
          apply hnd.1
          rw [hk]
          exact List.mem_map.mpr ⟨(k, v), hm, rfl⟩
    · have hbeq : (p.1 == k) = false := beq_eq_false_iff_ne.mpr hk
      simp only [lookupNat, List.find?, hbeq, List.mem_cons]
      rw [← lookupNat, ih hnd.2]
      constructor
      · intro hm
        exact Or.inr hm
      · intro hm
        rcases hm with hm | hm
        · exfalso
          apply hk
          rw [← hm]
        · exact hm

theorem lookupNat_of_perm {α : Type} {l1 l2 : List (Nat × α)}
    (hp : l1.Perm l2) (hnd : (l1.map Prod.fst).Nodup) (k : Nat) :
    lookupNat l1 k = lookupNat l2 k := by
  have hnd2 : (l2.map Prod.fst).Nodup := ((hp.map Prod.fst).nodup_iff).mp hnd
  cases heq : lookupNat l1 k with
  | none =>
    rw [lookupNat_none_iff] at heq
    symm
    rw [lookupNat_none_iff]
    intro hm
    apply heq
    exact ((hp.map Prod.fst).mem_iff).mpr hm
  | some v =>
    rw [lookupNat_some_iff hnd] at heq
    symm
    rw [lookupNat_some_iff hnd2]
    exact hp.mem_iff.mp heq

theorem mapped_pairChars_inj (g1 g2 : Nat → Nat) :
    ∀ s1 s2 : List Nat,
      s1.map (fun k => pairChars k (g1 k)) = s2.map (fun k => pairChars k (g2 k)) →
      s1 = s2 ∧ ∀ k ∈ s1, g1 k = g2 k := by
  intro s1
  induction s1 with
  | nil =>
    intro s2 h
    cases s2 with
    | nil => simp
    | cons y ys => simp at h
  | cons x xs ih =>
    intro s2 h
    cases s2 with
    | nil => simp at h
    | cons y ys =>
      simp only [List.map_cons, List.cons.injEq] at h
      obtain ⟨hk, hv⟩ := pairChars_inj h.1
      obtain ⟨ht, hg⟩ := ih ys h.2
      constructor
      · rw [hk, ht]
      · intro k hm
        rcases List.mem_cons.mp hm with hm | hm
        · rw [hm, hk]
          rw [hk] at hv
          exact hv
        · exact hg k hm

theorem createCombinationHash_perm {c1 c2 : Combination}
    (hp : c1.Perm c2) (hnd : (c1.map Prod.fst).Nodup) :
    createCombinationHash c1 = createCombinationHash c2 := by
  have hperm : (List.insertionSort (· ≤ ·) (c1.map Prod.fst)).Perm
      (List.insertionSort (· ≤ ·) (c2.map Prod.fst)) :=
    (List.perm_insertionSort _ _).trans
      ((hp.map Prod.fst).trans (List.perm_insertionSort _ _).symm)
  have hs1 := List.sorted_insertionSort (· ≤ ·) (c1.map Prod.fst)
  have hs2 := List.sorted_insertionSort (· ≤ ·) (c2.map Prod.fst)
  have hkeys := List.eq_of_perm_of_sorted hperm hs1 hs2
  unfold createCombinationHash
  rw [hkeys]
  congr 1
  apply List.map_congr_left
  intro k _
  rw [show getSel c1 k = getSel c2 k from lookupNat_of_perm hp hnd k]

theorem createCombinationHash_inj {c1 c2 : Combination}
    (h : createCombinationHash c1 = createCombinationHash c2) :
    ∀ k, getSel c1 k = getSel c2 k := by
  unfold createCombinationHash at h
  have hlist :
      (List.insertionSort (· ≤ ·) (c1.map Prod.fst)).map
          (fun k => pairChars k ((getSel c1 k).getD 0)) =
        (List.insertionSort (· ≤ ·) (c2.map Prod.fst)).map
          (fun k => pairChars k ((getSel c2 k).getD 0)) := by
    apply joinBar_inj _ _ _ _ h
    · intro x hx
      obtain ⟨k, _, hk⟩ := List.mem_map.mp hx
      rw [← hk]
      exact ⟨pairChars_ne_nil _ _, bar_not_mem_pairChars _ _⟩
    · intro x hx
      obtain ⟨k, _, hk⟩ := List.mem_map.mp hx
      rw [← hk]
      exact ⟨pairChars_ne_nil _ _, bar_not_mem_pairChars _ _⟩
  obtain ⟨hs, hv⟩ := mapped_pairChars_inj _ _ _ _ hlist
  intro k
  by_cases hm : k ∈ c1.map Prod.fst
  · have hm1 : k ∈ List.insertionSort (· ≤ ·) (c1.map Prod.fst) :=
      (List.mem_insertionSort _).mpr hm
    have hm2 : k ∈ c2.map Prod.fst := by
      have : k ∈ List.insertionSort (· ≤ ·) (c2.map Prod.fst) := hs ▸ hm1
      exact (List.mem_insertionSort _).mp this
    have hv1 : getSel c1 k ≠ none := by
      rw [Ne, getSel, lookupNat_none_iff]
      exact fun hc => hc hm
    have hv2 : getSel c2 k ≠ none := by
      rw [Ne, getSel, lookupNat_none_iff]
      exact fun hc => hc hm2
    obtain ⟨a, ha⟩ := Option.ne_none_iff_exists'.mp hv1
    obtain ⟨b, hb⟩ := Option.ne_none_iff_exists'.mp hv2
    have := hv k hm1
    rw [ha, hb] at this ⊢
    simp only [Option.getD_some] at this
    rw [this]
  · have hm2 : k ∉ c2.map Prod.fst := by
      intro hc
      apply hm
      have : k ∈ List.insertionSort (· ≤ ·) (c2.map Prod.fst) :=
        (List.mem_insertionSort _).mpr hc
      have := hs ▸ this
      exact (List.mem_insertionSort _).mp this
    rw [show getSel c1 k = none from (lookupNat_none_iff _ _).mpr hm,
      show getSel c2 k = none from (lookupNat_none_iff _ _).mpr hm2]

/-! ### Quota rescaling (scaleCountsToTotal and computeInitialQuotas) -/

/-- Model of the JavaScript coercion x or zero for a possibly absent
number. -/
def orZeroNum (o : Option JsNum) : JsNum :=
  match o with
  | none => qZero
  | some q => if q.num = 0 then qZero else q

/-- Model of the coercion x or one. -/
def orOneNum (o : Option JsNum) : JsNum :=
  match o with
  | none => qOne
  | some q => if q.num = 0 then qOne else q

/-- Pairing of list elements with their positions, the model of the index
argument of a JavaScript array map. -/
def idxFrom {α : Type} : Nat → List α → List (Nat × α)
  | _, [] => []
  | i, x :: xs => (i, x) :: idxFrom (i + 1) xs

theorem idxFrom_fst_lt {α : Type} :
    ∀ (l : List α) (i : Nat), ∀ p ∈ idxFrom i l, p.1 < i + l.length := by
  intro l
  induction l with
  | nil => intro i p hp; simp [idxFrom] at hp
  | cons x xs ih =>
    intro i p hp
    rcases List.mem_cons.mp hp with hp | hp
    · rw [hp]; simp
    · have := ih (i + 1) p hp
      simp only [List.length_cons]
      omega

theorem idxFrom_length {α : Type} :
    ∀ (l : List α) (i : Nat), (idxFrom i l).length = l.length := by
  intro l
  induction l with
  | nil => intro i; rfl
  | cons x xs ih => intro i; simp [idxFrom, ih]

/-- Increment of the entry at one position, the model of the in-place
floored at index plus one. -/
def incAt : List Int → Nat → List Int
  | [], _ => []
  | x :: xs, 0 => (x + 1) :: xs
  | x :: xs, n + 1 => x :: incAt xs n

theorem incAt_length (f : List Int) (i : Nat) : (incAt f i).length = f.length := by
  induction f generalizing i with
  | nil => rfl
  | cons x xs ih =>
    cases i with
    | zero => rfl
    | succ n => simp [incAt, ih]

theorem incAt_sum (f : List Int) (i : Nat) (h : i < f.length) :
    (incAt f i).sum = f.sum + 1 := by
  induction f generalizing i with
  | nil => simp at h
  | cons x xs ih =>
    cases i with
    | zero =>
      simp [incAt]
      ring
    | succ n =>
      have hn : n < xs.length := by simpa using h
      simp [incAt, ih n hn]
      ring

theorem incAt_nonneg (f : List Int) (i : Nat) (h : ∀ x ∈ f, 0 ≤ x) :
    ∀ x ∈ incAt f i, 0 ≤ x := by
  induction f generalizing i with
  | nil => intro x hx; simp [incAt] at hx
  | cons y ys ih =>
    cases i with
    | zero =>
      intro x hx
      rcases List.mem_cons.mp hx with hx | hx
      · have := h y (List.mem_cons_self _ _)
        omega
      · exact h x (List.mem_cons_of_mem _ hx)
    | succ n =>
      intro x hx
      rcases List.mem_cons.mp hx with hx | hx
      · rw [hx]; exact h y (List.mem_cons_self _ _)
      · exact ih n (fun z hz => h z (List.mem_cons_of_mem _ hz)) x hx

/-- The remainder distribution loop of scaleCountsToTotal: while the
remainder is positive and the index valid, add one to the entry at the next
position of the fractional-part ranking, wrapping the index. -/
def distWhile : Nat → JsNum → List Int → List Nat → Nat → List Int
  | 0, _, f, _, _ => f
  | fuel + 1, r, f, fracIdx, idx =>
    if qLtB qZero r ∧ idx < fracIdx.length then
      distWhile fuel (qSub r qOne) (incAt f (fracIdx.getD idx 0)) fracIdx
        (if idx + 1 ≥ fracIdx.length then 0 else idx + 1)
    else f

/-- Model of scaleCountsToTotal: proportional scale, floor, then distribute
the remainder to the entries with the largest fractional parts (largest
remainder method).  The loop fuel strictly exceeds the number of iterations
the loop condition allows, so the model exits by the condition exactly as
the source loop does. -/
def scaleCountsToTotal (counts : List JsNum) (total : JsNum) : List Int :=
  let sum := counts.foldl qAdd qZero
  if qEqB sum qZero then counts.map (fun _ => 0)
  else
    let raw := counts.map (fun c => qMul (qDiv c sum) total)
    let floored := raw.map jsFloor
    let remainder := qSub total (qInt (floored.foldl (· + ·) 0))
    let fracIdx := (List.insertionSort
        (fun a b : Nat × JsNum => qLeB b.2 a.2 = true)
        ((idxFrom 0 raw).map (fun p => (p.1, qSub p.2 (qInt (jsFloor p.2)))))).map
      (fun p => p.1)
    distWhile (remainder.num.toNat + 1) remainder floored fracIdx 0

theorem qSub_qInt_qOne (a : Int) : qSub (qInt a) qOne = qInt (a - 1) := by
  simp only [qSub, qInt, qOne]
  congr 1 <;> ring

theorem qLtB_qZero_qInt (a : Int) : qLtB qZero (qInt a) = decide (0 < a) := by
  simp [qLtB, qZero, qInt]

theorem distWhile_intSpec (fracIdx : List Nat) (hne : fracIdx ≠ []) (n : Nat) :
    ∀ (fuel : Nat) (f : List Int) (idx : Nat),
      n < fuel →
      (∀ j ∈ fracIdx, j < f.length) →
      idx < fracIdx.length →
      (distWhile fuel (qInt n) f fracIdx idx).sum = f.sum + n ∧
      ((∀ x ∈ f, 0 ≤ x) →
        ∀ x ∈ distWhile fuel (qInt n) f fracIdx idx, 0 ≤ x) ∧
      (distWhile fuel (qInt n) f fracIdx idx).length = f.length := by
  induction n with
  | zero =>
    intro fuel f idx hfuel _ _
    match fuel, hfuel with
    | m + 1, _ =>
      have hcond : qLtB qZero (qInt (0 : Nat)) = false := by decide
      simp only [distWhile, hcond, Bool.false_eq_true, false_and, if_false]
      refine ⟨by simp, fun h => h, by trivial⟩
  | succ n ih =>
    intro fuel f idx hfuel hbound hidx
    match fuel, hfuel with
    | m + 1, _ =>
      have hcond : qLtB qZero (qInt ((n + 1 : Nat) : Int)) = true := by
        rw [qLtB_qZero_qInt]
        simp
      have hstep : qSub (qInt ((n + 1 : Nat) : Int)) qOne = qInt (n : Nat) := by
        rw [qSub_qInt_qOne]
        congr 1
        push_cast
        ring
      have hj : fracIdx.getD idx 0 ∈ fracIdx := by
        rw [List.getD_eq_getElem?_getD, List.getElem?_eq_getElem hidx]
        exact List.getElem_mem _
      have hjlt : fracIdx.getD idx 0 < f.length := hbound _ hj
      have hidx2 : (if idx + 1 ≥ fracIdx.length then 0 else idx + 1) < fracIdx.length := by
        split
        · exact List.length_pos_of_ne_nil hne
        · omega
      have hm : n < m := by omega
      have hbound2 : ∀ j ∈ fracIdx, j < (incAt f (fracIdx.getD idx 0)).length := by
        intro j hjm
        rw [incAt_length]
        exact hbound j hjm
      obtain ⟨hsum, hnn, hlen⟩ := ih m (incAt f (fracIdx.getD idx 0)) _ hm hbound2 hidx2
      simp only [distWhile, hcond, hidx, and_self, if_true, true_and, hstep]
      refine ⟨?_, ?_, ?_⟩
      · rw [hsum, incAt_sum f _ hjlt]
        push_cast
        ring
      · intro hf
        exact hnn (incAt_nonneg f _ hf)
      · rw [hlen, incAt_length]

theorem foldl_qAdd_den (l : List JsNum) :
    ∀ acc : JsNum, acc.den ≠ 0 → (∀ c ∈ l, c.den ≠ 0) →
      (l.foldl qAdd acc).den ≠ 0 := by
  induction l with
  | nil => intro acc hacc _; exact hacc
  | cons c cs ih =>
    intro acc hacc hl
    apply ih
    · rw [qAdd_den]
      exact Nat.mul_ne_zero hacc (hl c (List.mem_cons_self _ _))
    · intro d hd
      exact hl d (List.mem_cons_of_mem _ hd)

theorem foldl_qAdd_val (l : List JsNum) :
    ∀ acc : JsNum, acc.den ≠ 0 → (∀ c ∈ l, c.den ≠ 0) →
      qVal (l.foldl qAdd acc) = qVal acc + (l.map qVal).sum := by
  induction l with
  | nil => intro acc _ _; simp
  | cons c cs ih =>
    intro acc hacc hl
    have hc : c.den ≠ 0 := hl c (List.mem_cons_self _ _)
    have hd : (qAdd acc c).den ≠ 0 := by
      rw [qAdd_den]
      exact Nat.mul_ne_zero hacc hc
    simp only [List.foldl_cons, List.map_cons, List.sum_cons]
    rw [ih (qAdd acc c) hd (fun d hdm => hl d (List.mem_cons_of_mem _ hdm)),
      qVal_qAdd acc c hacc hc]
    ring

theorem foldl_add_int (l : List Int) : ∀ acc : Int, l.foldl (· + ·) acc = acc + l.sum := by
  induction l with
  | nil => intro acc; simp
  | cons x xs ih =>
    intro acc
    simp only [List.foldl_cons, List.sum_cons, ih]
    ring

theorem qVal_num_ne_zero {a : JsNum} (h : qVal a ≠ 0) : a.num ≠ 0 := by
  intro hn
  apply h
  simp [qVal, hn]

theorem qDiv_den_ne_zero {a b : JsNum} (ha : a.den ≠ 0) (hb : b.num ≠ 0) :
    (qDiv a b).den ≠ 0 := by
  rcases b with ⟨bn, bd⟩
  match bn, hb with
  | Int.ofNat (n+1), _ =>
    simp only [qDiv]
    positivity
  | Int.negSucc n, _ =>
    simp only [qDiv]
    positivity

theorem qSub_qNat_qInt (a : Nat) (b : Int) :
    qSub (qNat a) (qInt b) = qInt ((a : Int) - b) := by
  simp only [qSub, qNat, qInt]
  congr 1 <;> ring

theorem intCast_listSum (l : List Int) :
    ((l.sum : Int) : ℚ) = (l.map (fun i : Int => (i : ℚ))).sum := by
  induction l with
  | nil => simp
  | cons x xs ih =>
    simp only [List.sum_cons, List.map_cons, Int.cast_add, ih]

/-- Behaviour of the else branch of scaleCountsToTotal, stated over the raw
scaled values. -/
theorem scaleBody_spec (raw : List JsNum) (T : Nat)
    (hrawden : ∀ r ∈ raw, r.den ≠ 0)
    (hrawnn : ∀ r ∈ raw, 0 ≤ qVal r)
    (hrawsum : (raw.map qVal).sum = (T : ℚ))
    (hlen : 0 < raw.length) :
    (distWhile
        ((qSub (qNat T) (qInt ((raw.map jsFloor).foldl (· + ·) 0))).num.toNat + 1)
        (qSub (qNat T) (qInt ((raw.map jsFloor).foldl (· + ·) 0)))
        (raw.map jsFloor)
        ((List.insertionSort (fun a b : Nat × JsNum => qLeB b.2 a.2 = true)
            ((idxFrom 0 raw).map (fun p => (p.1, qSub p.2 (qInt (jsFloor p.2)))))).map
          (fun p => p.1))
        0).sum = (T : Int) ∧
    ∀ x ∈ distWhile
        ((qSub (qNat T) (qInt ((raw.map jsFloor).foldl (· + ·) 0))).num.toNat + 1)
        (qSub (qNat T) (qInt ((raw.map jsFloor).foldl (· + ·) 0)))
        (raw.map jsFloor)
        ((List.insertionSort (fun a b : Nat × JsNum => qLeB b.2 a.2 = true)
            ((idxFrom 0 raw).map (fun p => (p.1, qSub p.2 (qInt (jsFloor p.2)))))).map
          (fun p => p.1))
        0, 0 ≤ x := by
  have hfold : (raw.map jsFloor).foldl (· + ·) 0 = (raw.map jsFloor).sum := by
    rw [foldl_add_int, zero_add]
  have hfloornn : ∀ x ∈ raw.map jsFloor, 0 ≤ x := by
    intro x hx
    obtain ⟨r, hr, hrx⟩ := List.mem_map.mp hx
    rw [← hrx, jsFloor_eq_floor r (hrawden r hr)]
    exact Int.floor_nonneg.mpr (hrawnn r hr)
  have hFnn : 0 ≤ (raw.map jsFloor).sum := List.sum_nonneg hfloornn
  have hFle : (raw.map jsFloor).sum ≤ (T : Int) := by
    have hcast : (((raw.map jsFloor).sum : Int) : ℚ) ≤ (T : ℚ) := by
      rw [intCast_listSum, List.map_map]
      have hmc : raw.map ((fun i : Int => (i : ℚ)) ∘ jsFloor) =
          raw.map (fun r => ((⌊qVal r⌋ : Int) : ℚ)) := by
        apply List.map_congr_left
        intro r hr
        simp only [Function.comp_apply]
        rw [jsFloor_eq_floor r (hrawden r hr)]
      rw [hmc, ← hrawsum]
      apply List.sum_le_sum
      intro r _
      exact Int.floor_le (qVal r)
    exact_mod_cast hcast
  have hsub : qSub (qNat T) (qInt ((raw.map jsFloor).foldl (· + ·) 0)) =
      qInt ((((T : Int) - (raw.map jsFloor).sum).toNat : Nat) : Int) := by
    rw [hfold, qSub_qNat_qInt]
    congr 1
    omega
  have hnum : (qInt ((((T : Int) - (raw.map jsFloor).sum).toNat : Nat) : Int)).num.toNat =
      ((T : Int) - (raw.map jsFloor).sum).toNat := by
    simp only [qInt, Int.toNat_natCast]
  have hfraclen :
      ((List.insertionSort (fun a b : Nat × JsNum => qLeB b.2 a.2 = true)
          ((idxFrom 0 raw).map (fun p => (p.1, qSub p.2 (qInt (jsFloor p.2)))))).map
        (fun p => p.1)).length = raw.length := by
    rw [List.length_map, List.length_insertionSort, List.length_map, idxFrom_length]
  have hfracne :
      ((List.insertionSort (fun a b : Nat × JsNum => qLeB b.2 a.2 = true)
          ((idxFrom 0 raw).map (fun p => (p.1, qSub p.2 (qInt (jsFloor p.2)))))).map
        (fun p => p.1)) ≠ [] := by
    apply List.ne_nil_of_length_pos
    rw [hfraclen]
    exact hlen
  have hfracbound : ∀ j ∈ ((List.insertionSort (fun a b : Nat × JsNum => qLeB b.2 a.2 = true)
      ((idxFrom 0 raw).map (fun p => (p.1, qSub p.2 (qInt (jsFloor p.2)))))).map
        (fun p => p.1)), j < (raw.map jsFloor).length := by
    intro j hj
    obtain ⟨p, hp, hpj⟩ := List.mem_map.mp hj
    have hp2 : p ∈ (idxFrom 0 raw).map
        (fun p => (p.1, qSub p.2 (qInt (jsFloor p.2)))) :=
      (List.mem_insertionSort _).mp hp
    obtain ⟨q, hq, hqp⟩ := List.mem_map.mp hp2
    have := idxFrom_fst_lt raw 0 q hq
    rw [List.length_map]
    rw [← hpj, ← hqp]
    simpa using this
  obtain ⟨hsum, hnn, _⟩ :=
    distWhile_intSpec _ hfracne ((T : Int) - (raw.map jsFloor).sum).toNat
      (((T : Int) - (raw.map jsFloor).sum).toNat + 1) (raw.map jsFloor) 0
      (by omega) hfracbound (by rw [hfraclen]; exact hlen)
  rw [hsub, hnum]
  constructor
  · rw [hsum]
    omega
  · exact hnn hfloornn

/-- Summary of one run of scaleCountsToTotal on counts with a positive sum:
the output sums to the requested total and stays entrywise nonnegative. -/
theorem scaleCountsToTotal_spec (counts : List JsNum) (T : Nat)
    (hden : ∀ c ∈ counts, c.den ≠ 0)
    (hnn : ∀ c ∈ counts, 0 ≤ qVal c)
    (hne : qVal (counts.foldl qAdd qZero) ≠ 0) :
    (scaleCountsToTotal counts (qNat T)).sum = (T : Int) ∧
    ∀ x ∈ scaleCountsToTotal counts (qNat T), 0 ≤ x := by
  have hzd : (qZero.den ≠ 0) := by decide
  have hSden : (counts.foldl qAdd qZero).den ≠ 0 := foldl_qAdd_den counts qZero hzd hden
  have hSval : qVal (counts.foldl qAdd qZero) = (counts.map qVal).sum := by
    rw [foldl_qAdd_val counts qZero hzd hden, qVal_qZero, zero_add]
  have hSnn : 0 ≤ qVal (counts.foldl qAdd qZero) := by
    rw [hSval]
    apply List.sum_nonneg
    intro x hx
    obtain ⟨c, hc, hcx⟩ := List.mem_map.mp hx
    rw [← hcx]
    exact hnn c hc
  have hSpos : 0 < qVal (counts.foldl qAdd qZero) := lt_of_le_of_ne hSnn (Ne.symm hne)
  have hSnum : (counts.foldl qAdd qZero).num ≠ 0 := qVal_num_ne_zero hne
  have hb : qEqB (counts.foldl qAdd qZero) qZero = false := by
    cases hqe : qEqB (counts.foldl qAdd qZero) qZero with
    | false => rfl
    | true =>
      exfalso
      apply hne
      have := (qEqB_iff _ _ hSden hzd).mp hqe
      rwa [qVal_qZero] at this
  have hcne : counts ≠ [] := by
    intro hcn
    apply hne
    rw [hSval, hcn]
    simp
  -- facts about the raw scaled values
  have hrawden : ∀ r ∈ counts.map
      (fun c => qMul (qDiv c (counts.foldl qAdd qZero)) (qNat T)), r.den ≠ 0 := by
    intro r hr
    obtain ⟨c, hc, hcr⟩ := List.mem_map.mp hr
    rw [← hcr]
    simp only [qMul, qNat]
    exact Nat.mul_ne_zero (qDiv_den_ne_zero (hden c hc) hSnum) one_ne_zero
  have hrawval : ∀ c ∈ counts,
      qVal (qMul (qDiv c (counts.foldl qAdd qZero)) (qNat T)) =
        qVal c * ((T : ℚ) / qVal (counts.foldl qAdd qZero)) := by
    intro c hc
    rw [qVal_qMul _ _ (qDiv_den_ne_zero (hden c hc) hSnum) Nat.one_ne_zero,
      qVal_qDiv _ _ (hden c hc) hSden hSnum, qVal_qNat]
    ring
  have hrawnn : ∀ r ∈ counts.map
      (fun c => qMul (qDiv c (counts.foldl qAdd qZero)) (qNat T)), 0 ≤ qVal r := by
    intro r hr
    obtain ⟨c, hc, hcr⟩ := List.mem_map.mp hr
    rw [← hcr, hrawval c hc]
    have ht : (0 : ℚ) ≤ (T : ℚ) := by positivity
    exact mul_nonneg (hnn c hc) (div_nonneg ht (le_of_lt hSpos))
  have hrawsum :
      ((counts.map (fun c => qMul (qDiv c (counts.foldl qAdd qZero)) (qNat T))).map
        qVal).sum = (T : ℚ) := by
    rw [List.map_map]
    have hmc : (counts.map
        (qVal ∘ fun c => qMul (qDiv c (counts.foldl qAdd qZero)) (qNat T))) =
        counts.map (fun c => qVal c * ((T : ℚ) / qVal (counts.foldl qAdd qZero))) := by
      apply List.map_congr_left
      intro c hc
      exact hrawval c hc
    rw [hmc, List.sum_map_mul_right, ← hSval, mul_div_assoc']
    exact mul_div_cancel_left₀ _ hne
  have hunfold : scaleCountsToTotal counts (qNat T) =
      distWhile
        ((qSub (qNat T)
            (qInt (((counts.map (fun c => qMul (qDiv c (counts.foldl qAdd qZero))
              (qNat T))).map jsFloor).foldl (· + ·) 0))).num.toNat + 1)
        (qSub (qNat T)
          (qInt (((counts.map (fun c => qMul (qDiv c (counts.foldl qAdd qZero))
            (qNat T))).map jsFloor).foldl (· + ·) 0)))
        ((counts.map (fun c => qMul (qDiv c (counts.foldl qAdd qZero))
          (qNat T))).map jsFloor)
        ((List.insertionSort (fun a b : Nat × JsNum => qLeB b.2 a.2 = true)
            ((idxFrom 0 (counts.map (fun c => qMul (qDiv c (counts.foldl qAdd qZero))
              (qNat T)))).map
              (fun p => (p.1, qSub p.2 (qInt (jsFloor p.2)))))).map
          (fun p => p.1))
        0 := by
    rw [scaleCountsToTotal]
    simp only [hb, Bool.false_eq_true, if_false]
  rw [hunfold]
  exact scaleBody_spec _ T hrawden hrawnn hrawsum
    (by rw [List.length_map]; exact List.length_pos_of_ne_nil hcne)

/-- Functional update of a string-keyed record. -/
def setKey (m : Str → Int) (k : Str) (v : Int) : Str → Int :=
  fun x => if x = k then v else m x

/-- Model of computeInitialQuotas: for every exact-count layer take the
floored, clamped item counts, rescale them when their sum disagrees with the
requested export total, and record them under quotaKey. -/
def computeInitialQuotas (ctx : Ctx) (totalExportCount : Nat) : Str → Int :=
  ctx.layers.foldl
    (fun result layer =>
      if !layer.exactCountMode then result
      else
        let counts := layer.items.map (fun it => max 0 (jsFloor (orZeroNum it.count)))
        let sum := counts.foldl (· + ·) 0
        let finalCounts :=
          if sum ≠ (totalExportCount : Int) then
            scaleCountsToTotal (counts.map qInt) (qNat totalExportCount)
          else counts
        (idxFrom 0 layer.items).foldl
          (fun res p => setKey res (quotaKey layer.id p.2.id) (finalCounts.getD p.1 0))
          result)
    (fun _ => 0)

/-! ### Generation state and randomness -/

/-- The mutable state of the generation core: the quota ref, the pair-usage
ref, the trait usage statistics, the global generated-hash set, and the
position inside the Math.random oracle stream. -/
structure St where
  quotas : Str → Int
  pairUsage : Str → Int
  usage : List (Nat × List (Nat × Int))
  generated : List Str
  rix : Nat

/-- One call of Math.random: the next value of the oracle stream. -/
def mathRandom (ctx : Ctx) (st : St) : JsNum × St :=
  (ctx.rand st.rix, { st with rix := st.rix + 1 })

/-- JavaScript array indexing with a possibly out-of-range integer index
(undefined outside the range). -/
def jsIndex {α : Type} (l : List α) (i : Int) : Option α :=
  if i < 0 then none else l[i.toNat]?

/-- JavaScript truthiness of a rarity field: undefined and 0 are falsy. -/
def rarityFalsy (o : Option JsNum) : Bool :=
  match o with
  | none => true
  | some q => q.num == 0

/-- The cumulative-threshold walk shared by every weighted sampling site:
subtract each weight from the running value and return the first element
where it drops to zero or below. -/
def cumGoW {α : Type} : List (α × JsNum) → JsNum → Option α
  | [], _ => none
  | (x, w) :: rest, r =>
    let r2 := qSub r w
    if qLeB r2 qZero then some x else cumGoW rest r2

/-- Cumulative pick with the last-element fallback the source uses for
floating point edge cases. -/
def cumPickW {α : Type} (pairs : List (α × JsNum)) (r0 : JsNum) : Option α :=
  match cumGoW pairs r0 with
  | some x => some x
  | none => (jsIndex pairs ((pairs.length : Int) - 1)).map (fun p => p.1)

/-- Increment of a value in a string-keyed counter record. -/
def bumpKey (m : Str → Int) (k : Str) : Str → Int :=
  fun x => if x = k then m k + 1 else m x

/-- Model of selectWeightedRandom: uniform draw in equal mode or when no
item carries a rarity, rarity-weighted draw otherwise, and in balanced mode
a score combining the rarity base weight with the usage multiplier. -/
def selectWeightedRandom (ctx : Ctx) (items : List LayerItem) (layerId : Nat)
    (forceBalance : Bool) (st : St) : Option LayerItem × St :=
  if items.length = 0 then (none, st)
  else if !forceBalance then
    if ctx.rarityMode = RarityMode.equal ∨ items.all (fun item => rarityFalsy item.rarity) then
      let (r, st1) := mathRandom ctx st
      (jsIndex items (jsFloor (qMul r (qNat items.length))), st1)
    else
      let totalWeight := items.foldl (fun sum item => qAdd sum (orZeroNum item.rarity)) qZero
      let (r, st1) := mathRandom ctx st
      (cumPickW (items.map (fun item => (item, orZeroNum item.rarity)))
        (qMul r totalWeight), st1)
  else
    let layerStats := (lookupNat st.usage layerId).getD []
    let totalUsageInLayer := (layerStats.map (fun p => p.2)).foldl (· + ·) 0
    let averageUsage :=
      if 0 < totalUsageInLayer then qDiv (qInt totalUsageInLayer) (qNat items.length)
      else qZero
    let scoredItems := items.map (fun item =>
      let usage := (lookupNat layerStats item.id).getD 0
      let usageMultiplier :=
        if usage = 0 then qNat 10
        else if qLtB qZero averageUsage ∧ qLtB (qInt usage) averageUsage then
          qAdd qOne (qMul (qDiv (qSub averageUsage (qInt usage)) averageUsage) (qNat 2))
        else qOne
      let baseWeight :=
        if ctx.rarityMode = RarityMode.weighted then orOneNum item.rarity else qOne
      (item, qMul baseWeight usageMultiplier))
    let totalScore := (scoredItems.map (fun p => p.2)).foldl qAdd qZero
    if qEqB totalScore qZero then
      let (r, st1) := mathRandom ctx st
      (jsIndex items (jsFloor (qMul r (qNat items.length))), st1)
    else
      let (r, st1) := mathRandom ctx st
      (cumPickW scoredItems (qMul r totalScore), st1)

/-- Model of selectWithQuota: restrict to items with remaining quota,
sample proportional to the remaining quota. -/
def selectWithQuota (ctx : Ctx) (layer : Layer) (st : St) : Option LayerItem × St :=
  let candidates := layer.items.filter (fun it => 0 < st.quotas (quotaKey layer.id it.id))
  if candidates.length = 0 then (none, st)
  else
    let weights := candidates.map (fun it => st.quotas (quotaKey layer.id it.id))
    let total := weights.foldl (· + ·) 0
    let (r, st1) := mathRandom ctx st
    (cumPickW (candidates.zip (weights.map qInt)) (qMul r (qInt total)), st1)

/-- Insertion into the nested usage record. -/
def insertUsage (u : List (Nat × List (Nat × Int))) (layerId : Nat)
    (v : List (Nat × Int)) : List (Nat × List (Nat × Int)) :=
  if (u.find? (fun p => p.1 == layerId)).isSome then
    u.map (fun p => if p.1 == layerId then (layerId, v) else p)
  else u ++ [(layerId, v)]

/-- Increment of one item count inside one layer record. -/
def bumpUsage (layerStats : List (Nat × Int)) (itemId : Nat) : List (Nat × Int) :=
  if (layerStats.find? (fun p => p.1 == itemId)).isSome then
    layerStats.map (fun p => if p.1 == itemId then (itemId, p.2 + 1) else p)
  else layerStats ++ [(itemId, 1)]

/-- Model of updateTraitUsage: bump the count of every selection of the
combination. -/
def updateTraitUsage (combination : Combination) (st : St) : St :=
  { st with
    usage := combination.foldl
      (fun u p => insertUsage u p.1 (bumpUsage ((lookupNat u p.1).getD []) p.2))
      st.usage }

/-! ### Head and body helpers -/

/-- Test of the head layer name pattern (head, face or skull, case
insensitive). -/
def testHeadName (name : Str) : Bool :=
  containsSub (lowStr name) "head".data || containsSub (lowStr name) "face".data ||
    containsSub (lowStr name) "skull".data

/-- Test of the body layer name pattern (body or torso, case insensitive). -/
def testBodyName (name : Str) : Bool :=
  containsSub (lowStr name) "body".data || containsSub (lowStr name) "torso".data

/-- Model of getHeadBodyLayers: the first layer matching each pattern. -/
def getHeadBodyLayers (ctx : Ctx) : Option Layer × Option Layer :=
  (ctx.layers.find? (fun l => testHeadName l.name),
   ctx.layers.find? (fun l => testBodyName l.name))

/-- Model of isHeadBodyCoherent: when the head and body layers exist, are
both selected, and both items resolve to a color family, the families must
agree; every other case imposes no constraint. -/
def isHeadBodyCoherent (ctx : Ctx) (combo : Combination) : Bool :=
  match getHeadBodyLayers ctx with
  | (some headLayer, some bodyLayer) =>
    match truthyId (getSel combo headLayer.id), truthyId (getSel combo bodyLayer.id) with
    | some headId, some bodyId =>
      match headLayer.items.find? (fun i => i.id == headId),
            bodyLayer.items.find? (fun i => i.id == bodyId) with
      | some headItem, some bodyItem =>
        match colorFamilyFromName headItem.name, colorFamilyFromName bodyItem.name with
        | some hf, some bf => hf == bf
        | _, _ => true
      | _, _ => true
    | _, _ => true
  | _ => true

/-! ### Matching helpers -/

/-- First name segment before a hyphen or underscore, lowercased and
trimmed, shared by the name-property matching sites. -/
def splitFirst (s : Str) : Str := s.takeWhile (fun c => !(c = '-' || c = '_'))

/-- Whitespace test for trim. -/
def isTrimChar (c : Char) : Bool := c = ' ' || c = '\t' || c = '\n' || c = '\r'

/-- Model of String.prototype.trim. -/
def trimStr (s : Str) : Str :=
  ((s.dropWhile isTrimChar).reverse.dropWhile isTrimChar).reverse

/-- The name prefix comparison key of the name matching branch. -/
def namePart (s : Str) : Str := trimStr (lowStr (splitFirst s))

/-- The word-after-keyword extraction shared by the keyword matching
branches (identical to the non-color branch of extractProperty). -/
def keywordProp (name property : Str) : Option Str :=
  let words := jsWords name
  match words.findIdx? (fun w => containsSub w (lowStr property)) with
  | some i => if i + 1 < words.length then words[i + 1]? else words[0]?
  | none => words[0]?

/-- Model of findMatchingItem of src/app/page.tsx: prefix match for name,
color family match with a random pick among members, otherwise keyword
match with a random pick. -/
def findMatchingItem (ctx : Ctx) (sourceItem : LayerItem)
    (targetItems : List LayerItem) (property : Str) (st : St) :
    Option LayerItem × St :=
  if property = "name".data then
    (targetItems.find? (fun item => namePart item.name == namePart sourceItem.name), st)
  else if lowStr property = "color".data then
    match colorFamilyFromName sourceItem.name with
    | none => (none, st)
    | some sourceFamily =>
      let colorMatches := targetItems.filter
        (fun t => colorFamilyFromName t.name == some sourceFamily)
      if colorMatches.length > 0 then
        let (r, st1) := mathRandom ctx st
        (jsIndex colorMatches (jsFloor (qMul r (qNat colorMatches.length))), st1)
      else (none, st)
  else
    let sourceProperty := keywordProp sourceItem.name property
    let matchingItems := targetItems.filter
      (fun item => keywordProp item.name property == sourceProperty)
    if matchingItems.length > 0 then
      let (r, st1) := mathRandom ctx st
      (jsIndex matchingItems (jsFloor (qMul r (qNat matchingItems.length))), st1)
    else (none, st)

/-! ### Exclusion checking -/

/-- Lowercasing of an extracted property value; calling toLowerCase on an
undefined extraction throws, modelled by the error case. -/
def lowerOrThrow (o : Option Str) : Except Unit Str :=
  match o with
  | none => Except.error ()
  | some s => Except.ok (lowStr s)

/-- Check of one exclusion rule against a combination, mirroring the loop
body shared by respectsExclusions, the final validation loop of
generateValidCombination, and the inline check of tryFixBodyToMatchHead
(the legacy file of src/unnamed/part_000 has the same loop with its own
extractProperty, so the extractor is a parameter).  The result is ok true
when the rule is not violated, ok false when it is, and an error when a
property extraction returns undefined. -/
def exRuleCheck (ctx : Ctx) (extract : Str → Str → Option Str)
    (c : Combination) (rule : TraitExclusionRule) : Except Unit Bool :=
  match truthyId (getSel c rule.sourceLayerId), truthyId (getSel c rule.targetLayerId) with
  | some sId, some tId =>
    match truthyId rule.sourceItemId, truthyId rule.targetItemId with
    | some rs, some rt => Except.ok (!(sId == rs && tId == rt))
    | _, _ =>
      match truthyStr rule.property with
      | some prop =>
        match ctx.layers.find? (fun l => l.id == rule.sourceLayerId),
              ctx.layers.find? (fun l => l.id == rule.targetLayerId) with
        | some sLayer, some tLayer =>
          match sLayer.items.find? (fun i => i.id == sId),
                tLayer.items.find? (fun i => i.id == tId) with
          | some sItem, some tItem =>
            match lowerOrThrow (extract sItem.name prop) with
            | Except.error e => Except.error e
            | Except.ok sp =>
              match lowerOrThrow (extract tItem.name prop) with
              | Except.error e => Except.error e
              | Except.ok tp => Except.ok (!(sp == tp))
          | _, _ => Except.ok true
        | _, _ => Except.ok true
      | none => Except.ok true
  | _, _ => Except.ok true

/-- Walk of the exclusion rules with the early exit of the source loops. -/
def exRulesGo (ctx : Ctx) (extract : Str → Str → Option Str) (c : Combination) :
    List TraitExclusionRule → Except Unit Bool
  | [] => Except.ok true
  | r :: rs =>
    match exRuleCheck ctx extract c r with
    | Except.error e => Except.error e
    | Except.ok false => Except.ok false
    | Except.ok true => exRulesGo ctx extract c rs

/-- Model of respectsExclusions (and of the two other identical loops of the
source). -/
def respectsExclusionsE (ctx : Ctx) (c : Combination) : Except Unit Bool :=
  exRulesGo ctx extractProperty c ctx.traitExclusionRules

/-- Model of tryFixBodyToMatchHead: replace the body selection with a color
matching candidate that passes quotas and exclusions; ok false when no such
candidate exists, which invalidates the attempt. -/
def tryFixBodyToMatchHead (ctx : Ctx) (combo : Combination) (respectQuotas : Bool)
    (st : St) : Except Unit (Bool × Combination) × St :=
  match getHeadBodyLayers ctx with
  | (some headLayer, some bodyLayer) =>
    match (match getSel combo headLayer.id with
           | some hid => headLayer.items.find? (fun i => i.id == hid)
           | none => none) with
    | none => (Except.ok (true, combo), st)
    | some headItem =>
      let (m, st1) := findMatchingItem ctx headItem bodyLayer.items "color".data st
      match m with
      | none => (Except.ok (false, combo), st1)
      | some mtch =>
        if (respectQuotas && bodyLayer.exactCountMode) &&
            st1.quotas (quotaKey bodyLayer.id mtch.id) ≤ 0 then
          (Except.ok (false, combo), st1)
        else
          let proposal := insertSel combo bodyLayer.id mtch.id
          match respectsExclusionsE ctx proposal with
          | Except.error e => (Except.error e, st1)
          | Except.ok false => (Except.ok (false, combo), st1)
          | Except.ok true => (Except.ok (true, proposal), st1)
  | _ => (Except.ok (true, combo), st)

/-! ### Effective rules and the constraint resolver -/

/-- Model of getEffectiveMatchingRules: stored rules plus the synthesized
implicit head-to-body color rule when no explicit one covers that triple;
the final comparator sort is a stable two-class partition placing the
implicit rule last. -/
def getEffectiveMatchingRules (ctx : Ctx) : List TraitMatchingRule :=
  let rules :=
    match getHeadBodyLayers ctx with
    | (some headLayer, some bodyLayer) =>
      if ctx.traitMatchingRules.any (fun r =>
          r.sourceLayerId == headLayer.id && r.targetLayerId == bodyLayer.id &&
            lowStr r.property == "color".data) then
        ctx.traitMatchingRules
      else
        ctx.traitMatchingRules ++
          [({ id := -1, sourceLayerId := headLayer.id, targetLayerId := bodyLayer.id,
              sourceLayerName := headLayer.name, targetLayerName := bodyLayer.name,
              property := "color".data } : TraitMatchingRule)]
    | _ => ctx.traitMatchingRules
  rules.filter (fun r => !(r.id == -1)) ++ rules.filter (fun r => r.id == -1)

/-- Model of getRuleCandidates: color family members, shared name prefix
members, or shared keyword property members. -/
def getRuleCandidates (rule : TraitMatchingRule) (sourceItem : LayerItem)
    (targetLayer : Layer) : List LayerItem :=
  if lowStr rule.property = "color".data then
    match colorFamilyFromName sourceItem.name with
    | none => []
    | some fam => targetLayer.items.filter (fun it => colorFamilyFromName it.name == some fam)
  else if rule.property = "name".data then
    targetLayer.items.filter (fun it => namePart it.name == namePart sourceItem.name)
  else
    let srcProp := keywordProp sourceItem.name rule.property
    targetLayer.items.filter (fun it => keywordProp it.name rule.property == srcProp)

/-- Model of chooseCandidateBalanced: score each candidate from remaining
quota, target layer usage boost and pair usage, then cumulative-threshold
sample over the scores. -/
def chooseCandidateBalanced (ctx : Ctx) (candidates : List LayerItem)
    (targetLayer : Layer) (rule : Option TraitMatchingRule)
    (sourceItemId : Option Nat) (respectQuotas : Bool) (st : St) :
    Option LayerItem × St :=
  if candidates.length = 0 then (none, st)
  else
    let weights := candidates.map (fun cand =>
      let quotaRem :=
        if respectQuotas && targetLayer.exactCountMode then
          qInt (max 0 (st.quotas (quotaKey targetLayer.id cand.id)))
        else qOne
      let pairUsed : Int :=
        match rule, sourceItemId with
        | some r, some sid => st.pairUsage (rulePairKey r.id sid targetLayer.id cand.id)
        | _, _ => 0
      let tLayerStats := (lookupNat st.usage targetLayer.id).getD []
      let tUsage : Int := (lookupNat tLayerStats cand.id).getD 0
      let avgT := qDiv (qInt ((tLayerStats.map (fun p => p.2)).foldl (· + ·) 0))
        (qNat (max 1 targetLayer.items.length))
      let usageBoost :=
        if qLtB qZero avgT ∧ qLtB (qInt tUsage) avgT then
          qAdd qOne (qMul (qDiv (qSub avgT (qInt tUsage)) avgT) ⟨3, 2⟩)
        else if tUsage = 0 then qNat 2 else qOne
      let score := qDiv (qMul (qMax ⟨1, 1000⟩ quotaRem) usageBoost)
        (qAdd qOne (qInt pairUsed))
      qMax ⟨1, 10000⟩ score)
    let total := weights.foldl qAdd qZero
    let (r, st1) := mathRandom ctx st
    (cumPickW (candidates.zip weights) (qMul r total), st1)

/-- The quota admissibility test of one manual mapping: quotas not enforced,
target layer not exact-count, or remaining quota for the target item. -/
def quotaCond (ctx : Ctx) (respectQuotas : Bool) (st : St) (m : ManualMapping) : Bool :=
  !respectQuotas ||
    !(((ctx.layers.find? (fun l => l.id == m.targetLayerId)).map
      (fun l => l.exactCountMode)).getD false) ||
    decide (0 < st.quotas (quotaKey m.targetLayerId m.targetItemId))

/-- The manual-mapping half of one resolver pass. -/
def manualFold (ctx : Ctx) (respectQuotas : Bool) :
    List ManualMapping → Combination → Bool → St →
    Except Unit (Combination × Bool) × St
  | [], c, ch, st => (Except.ok (c, ch), st)
  | m :: rest, c, ch, st =>
    if getSel c m.sourceLayerId == some m.sourceItemId then
      if (getSel c m.targetLayerId).isNone then
        if quotaCond ctx respectQuotas st m then
          let proposal := insertSel c m.targetLayerId m.targetItemId
          match respectsExclusionsE ctx proposal with
          | Except.error e => (Except.error e, st)
          | Except.ok true =>
            let key := mapPairKey m.sourceItemId m.targetLayerId m.targetItemId
            manualFold ctx respectQuotas rest proposal true
              { st with pairUsage := bumpKey st.pairUsage key }
          | Except.ok false => manualFold ctx respectQuotas rest c ch st
        else manualFold ctx respectQuotas rest c ch st
      else manualFold ctx respectQuotas rest c ch st
    else manualFold ctx respectQuotas rest c ch st

/-- The matching-rule half of one resolver pass. -/
def rulesFold (ctx : Ctx) (respectQuotas : Bool) :
    List TraitMatchingRule → Combination → Bool → St →
    Except Unit (Combination × Bool) × St
  | [], c, ch, st => (Except.ok (c, ch), st)
  | rule :: rest, c, ch, st =>
    match truthyId (getSel c rule.sourceLayerId) with
    | none => rulesFold ctx respectQuotas rest c ch st
    | some srcItemId =>
      if (getSel c rule.targetLayerId).isSome then rulesFold ctx respectQuotas rest c ch st
      else
        match ctx.layers.find? (fun l => l.id == rule.sourceLayerId),
              ctx.layers.find? (fun l => l.id == rule.targetLayerId) with
        | some srcLayer, some tgtLayer =>
          match srcLayer.items.find? (fun i => i.id == srcItemId) with
          | none => rulesFold ctx respectQuotas rest c ch st
          | some srcItem =>
            let candidatesRaw := getRuleCandidates rule srcItem tgtLayer
            if candidatesRaw.length = 0 then rulesFold ctx respectQuotas rest c ch st
            else
              let candidates := candidatesRaw.filter (fun cand =>
                !respectQuotas || !tgtLayer.exactCountMode ||
                  decide (0 < st.quotas (quotaKey tgtLayer.id cand.id)))
              if candidates.length = 0 then rulesFold ctx respectQuotas rest c ch st
              else
                match chooseCandidateBalanced ctx candidates tgtLayer (some rule)
                    (some srcItem.id) respectQuotas st with
                | (none, st1) => rulesFold ctx respectQuotas rest c ch st1
                | (some chosenItem, st1) =>
                  let proposal := insertSel c tgtLayer.id chosenItem.id
                  match respectsExclusionsE ctx proposal with
                  | Except.error e => (Except.error e, st1)
                  | Except.ok false => rulesFold ctx respectQuotas rest c ch st1
                  | Except.ok true =>
                    let key := rulePairKey rule.id srcItem.id tgtLayer.id chosenItem.id
                    rulesFold ctx respectQuotas rest proposal true
                      { st1 with pairUsage := bumpKey st1.pairUsage key }
        | _, _ => rulesFold ctx respectQuotas rest c ch st

/-- The fixpoint passes of applyAllMatching, capped at the given count. -/
def applyPasses (ctx : Ctx) (respectQuotas : Bool)
    (effectiveRules : List TraitMatchingRule) :
    Nat → Combination → Bool → St → Except Unit (Combination × Bool) × St
  | 0, c, changed, st => (Except.ok (c, changed), st)
  | n + 1, c, changed, st =>
    match manualFold ctx respectQuotas ctx.manualMappings c false st with
    | (Except.error e, st1) => (Except.error e, st1)
    | (Except.ok (c1, pc1), st1) =>
      match rulesFold ctx respectQuotas effectiveRules c1 pc1 st1 with
      | (Except.error e, st2) => (Except.error e, st2)
      | (Except.ok (c2, passChanged), st2) =>
        if passChanged then
          applyPasses ctx respectQuotas effectiveRules n c2 (changed || passChanged) st2
        else (Except.ok (c2, changed), st2)

/-- Model of applyAllMatching: manual mappings then matching rules, up to
three passes or until a pass changes nothing. -/
def applyAllMatching (ctx : Ctx) (c : Combination) (respectQuotas : Bool)
    (st : St) : Except Unit (Bool × Combination) × St :=
  match applyPasses ctx respectQuotas (getEffectiveMatchingRules ctx) 3 c false st with
  | (Except.error e, st1) => (Except.error e, st1)
  | (Except.ok (c2, changed), st1) => (Except.ok (changed, c2), st1)

/-! ### Quota checks -/

/-- Walk of the layers for combinationRespectsQuotas. -/
def quotasOkGo (q : Str → Int) (combo : Combination) : List Layer → Bool
  | [] => true
  | layer :: rest =>
    if !layer.exactCountMode then quotasOkGo q combo rest
    else
      match truthyId (getSel combo layer.id) with
      | none => false
      | some itemId =>
        if q (quotaKey layer.id itemId) ≤ 0 then false else quotasOkGo q combo rest

/-- Model of combinationRespectsQuotas: every exact-count layer is selected
and its selection has remaining quota. -/
def combinationRespectsQuotas (ctx : Ctx) (q : Str → Int) (combo : Combination) : Bool :=
  quotasOkGo q combo ctx.layers

/-- Walk of the layers for decrementQuotasForCombination. -/
def decQuotasGo (combo : Combination) : List Layer → (Str → Int) → (Str → Int)
  | [], q => q
  | layer :: rest, q =>
    if !layer.exactCountMode then decQuotasGo combo rest q
    else
      match truthyId (getSel combo layer.id) with
      | none => decQuotasGo combo rest q
      | some itemId =>
        let key := quotaKey layer.id itemId
        decQuotasGo combo rest (fun k => if k = key then max 0 (q key - 1) else q k)

/-- Model of decrementQuotasForCombination: clamped decrement of the quota
of every exact-count selection. -/
def decrementQuotasForCombination (ctx : Ctx) (combo : Combination) (st : St) : St :=
  { st with quotas := decQuotasGo combo ctx.layers st.quotas }

/-! ### The combination generator (src/app/page.tsx) -/

/-- Processing of the source layers: pick an item (quota aware for
exact-count layers when quotas are enforced) and run the resolver after
each assignment. -/
def genSourceLayersFold (ctx : Ctx) (useBalancing respectQuotas : Bool) :
    List Layer → Combination → St → Except Unit Combination × St
  | [], c, st => (Except.ok c, st)
  | layer :: rest, c, st =>
    match (if layer.exactCountMode && respectQuotas then selectWithQuota ctx layer st
           else selectWeightedRandom ctx layer.items layer.id useBalancing st) with
    | (none, st1) => genSourceLayersFold ctx useBalancing respectQuotas rest c st1
    | (some it, st1) =>
      match applyAllMatching ctx (insertSel c layer.id it.id) respectQuotas st1 with
      | (Except.error e, st2) => (Except.error e, st2)
      | (Except.ok (_, c2), st2) => genSourceLayersFold ctx useBalancing respectQuotas rest c2 st2

/-- Filling of the remaining free layers. -/
def genFreeFold (ctx : Ctx) (useBalancing respectQuotas : Bool) :
    List Layer → Combination → St → Combination × St
  | [], c, st => (c, st)
  | layer :: rest, c, st =>
    match (if layer.exactCountMode && respectQuotas then selectWithQuota ctx layer st
           else selectWeightedRandom ctx layer.items layer.id useBalancing st) with
    | (none, st1) => genFreeFold ctx useBalancing respectQuotas rest c st1
    | (some it, st1) =>
      genFreeFold ctx useBalancing respectQuotas rest (insertSel c layer.id it.id) st1

/-- One attempt of generateValidCombination: build, resolve, then validate
exclusions, quotas and head-body coherence; ok none is a discarded
attempt. -/
def genAttempt (ctx : Ctx) (useBalancing respectQuotas : Bool) (st : St) :
    Except Unit (Option Combination) × St :=
  let effectiveRules := getEffectiveMatchingRules ctx
  let sourceLayerIds := effectiveRules.map (fun r => r.sourceLayerId) ++
    ctx.manualMappings.map (fun m => m.sourceLayerId)
  let sourceLayers := List.insertionSort (fun a b : Layer => a.items.length ≤ b.items.length)
    (ctx.layers.filter (fun l => sourceLayerIds.contains l.id))
  match genSourceLayersFold ctx useBalancing respectQuotas sourceLayers [] st with
  | (Except.error e, st1) => (Except.error e, st1)
  | (Except.ok c1, st1) =>
    let freeLayers := ctx.layers.filter (fun l => (getSel c1 l.id).isNone)
    match genFreeFold ctx useBalancing respectQuotas freeLayers c1 st1 with
    | (c2, st2) =>
      match applyAllMatching ctx c2 respectQuotas st2 with
      | (Except.error e, st3) => (Except.error e, st3)
      | (Except.ok (_, c3), st3) =>
        match respectsExclusionsE ctx c3 with
        | Except.error e => (Except.error e, st3)
        | Except.ok false => (Except.ok none, st3)
        | Except.ok true =>
          if respectQuotas && !combinationRespectsQuotas ctx st3.quotas c3 then
            (Except.ok none, st3)
          else
            match tryFixBodyToMatchHead ctx c3 respectQuotas st3 with
            | (Except.error e, st4) => (Except.error e, st4)
            | (Except.ok (false, _), st4) => (Except.ok none, st4)
            | (Except.ok (true, c4), st4) =>
              if !isHeadBodyCoherent ctx c4 then (Except.ok none, st4)
              else (Except.ok (some c4), st4)

/-- The bounded retry loop of generateValidCombination; exhausting the
budget returns the empty combination. -/
def genLoop (ctx : Ctx) (useBalancing respectQuotas : Bool) :
    Nat → St → Except Unit Combination × St
  | 0, st => (Except.ok [], st)
  | fuel + 1, st =>
    match genAttempt ctx useBalancing respectQuotas st with
    | (Except.error e, st1) => (Except.error e, st1)
    | (Except.ok (some c), st1) => (Except.ok c, st1)
    | (Except.ok none, st1) => genLoop ctx useBalancing respectQuotas fuel st1

/-- Model of generateValidCombination of src/app/page.tsx, with its
maxAttempts of 400. -/
def generateValidCombination (ctx : Ctx) (useBalancing respectQuotas : Bool)
    (st : St) : Except Unit Combination × St :=
  genLoop ctx useBalancing respectQuotas 400 st

/-- Walk of the layers for generateRandomCombination. -/
def genRandomFold (ctx : Ctx) (useBalancing : Bool) :
    List Layer → Combination → St → Combination × St
  | [], c, st => (c, st)
  | layer :: rest, c, st =>
    if layer.items.length > 0 then
      match selectWeightedRandom ctx layer.items layer.id useBalancing st with
      | (some it, st1) => genRandomFold ctx useBalancing rest (insertSel c layer.id it.id) st1
      | (none, st1) => genRandomFold ctx useBalancing rest c st1
    else genRandomFold ctx useBalancing rest c st

/-- Model of generateRandomCombination: one unconstrained pick per layer
with items. -/
def generateRandomCombination (ctx : Ctx) (useBalancing : Bool) (st : St) :
    Combination × St :=
  genRandomFold ctx useBalancing ctx.layers [] st

/-! ### Batch generation (src/app/page.tsx generateBatchCombinations) -/

/-- The no-rules builder of the batch loop: quota-aware or balanced picks
for every layer, then a non-blocking resolver pass. -/
def batchNoRulesBuild (ctx : Ctx) : List Layer → Combination → St → Combination × St
  | [], c, st => (c, st)
  | layer :: rest, c, st =>
    match (if layer.exactCountMode then selectWithQuota ctx layer st
           else selectWeightedRandom ctx layer.items layer.id true st) with
    | (some it, st1) => batchNoRulesBuild ctx rest (insertSel c layer.id it.id) st1
    | (none, st1) => batchNoRulesBuild ctx rest c st1

/-- One generation step of the batch loop: the rule-respecting generator
when rules are on, otherwise the direct quota-aware build followed by one
non-blocking resolver pass; a caught generation error inside the try block
yields no candidate and the loop continues. -/
def batchGenOne (ctx : Ctx) (useRules : Bool) (st : St) : Option Combination × St :=
  if useRules then
    match generateValidCombination ctx true true st with
    | (Except.error _, s) => ((none : Option Combination), s)
    | (Except.ok c, s) => (some c, s)
  else
    match batchNoRulesBuild ctx ctx.layers [] st with
    | (c0, s0) =>
      match applyAllMatching ctx c0 true s0 with
      | (Except.error _, s1) => (none, s1)
      | (Except.ok (_, c1), s1) => (some c1, s1)

/-- The batch acceptance loop.  The abort signal is a predicate of the
attempt counter; a tripped signal is the thrown cancellation.  Progress
reporting and the cooperative yield are scheduling concerns of the host and
are not modelled. -/
def batchLoop (ctx : Ctx) (batchSize : Nat) (useRules : Bool) (signal : Nat → Bool) :
    Nat → Nat → List Combination → List Str → St →
    Except Unit (List Combination × List Str) × St
  | 0, _, combinations, batchHashes, st => (Except.ok (combinations, batchHashes), st)
  | fuel + 1, attempts, combinations, batchHashes, st =>
    if combinations.length ≥ batchSize then (Except.ok (combinations, batchHashes), st)
    else if signal attempts then (Except.error (), st)
    else
      match batchGenOne ctx useRules st with
      | (none, st1) =>
        batchLoop ctx batchSize useRules signal fuel (attempts + 1) combinations batchHashes st1
      | (some combination, st1) =>
        if combination.length = 0 then
          batchLoop ctx batchSize useRules signal fuel (attempts + 1) combinations batchHashes st1
        else
          let hash := createCombinationHash combination
          if !(batchHashes.contains hash) && !(st1.generated.contains hash) then
            if combinationRespectsQuotas ctx st1.quotas combination then
              let st2 := decrementQuotasForCombination ctx combination
                (updateTraitUsage combination st1)
              batchLoop ctx batchSize useRules signal fuel (attempts + 1)
                (combinations ++ [combination]) (batchHashes ++ [hash]) st2
            else
              batchLoop ctx batchSize useRules signal fuel (attempts + 1) combinations batchHashes st1
          else
            batchLoop ctx batchSize useRules signal fuel (attempts + 1) combinations batchHashes st1

/-- Model of generateBatchCombinations: run the loop with the attempt
budget of thirty per requested combination, then merge the batch hashes
into the global generated set (the session snapshot write is persistence
plumbing outside this core). -/
def generateBatchCombinations (ctx : Ctx) (batchSize : Nat) (useRules : Bool)
    (signal : Nat → Bool) (st : St) : Except Unit (List Combination) × St :=
  match batchLoop ctx batchSize useRules signal (batchSize * 30) 0 [] [] st with
  | (Except.error e, st1) => (Except.error e, st1)
  | (Except.ok (combinations, batchHashes), st1) =>
    (Except.ok combinations, { st1 with generated := st1.generated ++ batchHashes })

/-! ### Export session restore (src/app/page.tsx) -/

/-- Status of an export session. -/
inductive ExportStatus where
  | generating
  | ready
  | downloading
  | completed
  | paused
  deriving DecidableEq, Repr

/-- One persisted batch payload. -/
structure BatchData where
  combinations : List Combination := []
  batchNumber : Nat := 1
  collectionName : Str := []
  imageSize : Nat := 0
  startingNumber : Nat := 1
  deriving DecidableEq, Repr

/-- The persisted export session snapshot. -/
structure ExportSession where
  id : Str := []
  totalCount : Nat := 0
  batchSize : Nat := 0
  collectionName : Str := []
  imageSize : Nat := 0
  useRules : Bool := false
  currentBatch : Nat := 1
  totalBatches : Nat := 1
  completedBatches : List Nat := []
  generatedCombinations : List Str := []
  timestamp : Int := 0
  status : ExportStatus
  currentBatchData : Option BatchData := none
  autoDownload : Bool := false
  quotas : List (Str × Int) := []
  pairUsage : List (Str × Int) := []
  deriving DecidableEq, Repr

/-- Model of loadExportSession: a parsed saved blob is returned only while
it is under the 24 hour TTL, otherwise it is discarded. -/
def loadExportSession (saved : Option ExportSession) (now : Int) :
    Option ExportSession :=
  match saved with
  | none => none
  | some session =>
    if now - session.timestamp < 24 * 60 * 60 * 1000 then some session else none

/-- Model of the status assignment of the session-restore effect: a saved
generating status is restored as paused, every other status is restored
unchanged. -/
def restoredBatchStatus (status : ExportStatus) : ExportStatus :=
  if status = ExportStatus.generating then ExportStatus.paused else status

/-- The batch status visible after a reload that finds a live session. -/
def restoreSessionStatus (saved : Option ExportSession) (now : Int) :
    Option ExportStatus :=
  (loadExportSession saved now).map (fun s => restoredBatchStatus s.status)

/-! ### Legacy generator (src/unnamed/part_000)

The file src/unnamed/part_000 is an earlier revision of the page component.
Its selectWeightedRandom, updateTraitUsage and generateRandomCombination are
identical to the current ones and are reused; its extractProperty carries a
shorter fifteen-color palette, its rule application is the older
applyMatchingRules, and its generateValidCombination caps at 200 attempts
and falls back to generateRandomCombination on exhaustion. -/

/-- The fifteen-color palette of the legacy extractProperty. -/
def extractColorsLegacy : List Str :=
  ["red".data, "blue".data, "green".data, "yellow".data, "purple".data,
   "orange".data, "black".data, "white".data, "brown".data, "pink".data,
   "cyan".data, "magenta".data, "gray".data, "grey".data, "charcoal".data]

/-- Model of the legacy extractProperty of src/unnamed/part_000. -/
def extractPropertyLegacy (itemName property : Str) : Option Str :=
  let words := jsWords itemName
  if lowStr property = "color".data then
    match words.find? (fun w => extractColorsLegacy.contains w) with
    | some c => some c
    | none => words[0]?
  else keywordProp itemName property

/-- Model of the extractColor helper inside the legacy findMatchingItem:
first exact palette word, then substring containment either way. -/
def extractColorLegacy (itemName : Str) : Option Str :=
  let words := jsWords itemName
  match words.filter (fun w => extractColors.contains w) with
  | c :: _ => some c
  | [] =>
    words.findSome? (fun word => extractColors.findSome? (fun color =>
      if containsSub word color || containsSub color word then some color else none))

/-- Model of the legacy findMatchingItem of src/unnamed/part_000. -/
def findMatchingItemLegacy (ctx : Ctx) (sourceItem : LayerItem)
    (targetItems : List LayerItem) (property : Str) (st : St) :
    Option LayerItem × St :=
  if property = "name".data then
    (targetItems.find? (fun item => namePart item.name == namePart sourceItem.name), st)
  else if lowStr property = "color".data then
    match extractColorLegacy sourceItem.name with
    | none => (none, st)
    | some sourceColor =>
      let matchingItems := targetItems.filter (fun item =>
        let targetColor := extractColorLegacy item.name
        targetColor == some sourceColor ||
          (sourceColor == "grey".data && targetColor == some "gray".data) ||
          (sourceColor == "gray".data && targetColor == some "grey".data))
      if matchingItems.length > 0 then
        let (r, st1) := mathRandom ctx st
        (jsIndex matchingItems (jsFloor (qMul r (qNat matchingItems.length))), st1)
      else (none, st)
  else
    let sourceProperty := keywordProp sourceItem.name property
    let matchingItems := targetItems.filter
      (fun item => keywordProp item.name property == sourceProperty)
    if matchingItems.length > 0 then
      let (r, st1) := mathRandom ctx st
      (jsIndex matchingItems (jsFloor (qMul r (qNat matchingItems.length))), st1)
    else (none, st)

/-- The lenient color fallback scan of the legacy applyMatchingRules: walk
the source words and pick randomly among target items sharing a word by
containment. -/
def lenientColorScan (ctx : Ctx) (targetItems : List LayerItem) :
    List Str → St → Option LayerItem × St
  | [], st => (none, st)
  | sourceWord :: rest, st =>
    let colorMatches := targetItems.filter (fun item =>
      (jsWords item.name).any (fun tw =>
        tw == sourceWord || containsSub tw sourceWord || containsSub sourceWord tw))
    if colorMatches.length > 0 then
      let (r, st1) := mathRandom ctx st
      (jsIndex colorMatches (jsFloor (qMul r (qNat colorMatches.length))), st1)
    else lenientColorScan ctx targetItems rest st

/-- The exclusion test of one target item inside the legacy fallback of
applyMatchingRules (the some over the exclusion rules); ok true means some
rule forbids the item. -/
def legacyItemForbidden (ctx : Ctx) (sourceLayerId targetLayerId sourceItemId : Nat)
    (sourceItem item : LayerItem) : List TraitExclusionRule → Except Unit Bool
  | [] => Except.ok false
  | ex :: rest =>
    if ex.sourceLayerId == sourceLayerId && ex.targetLayerId == targetLayerId then
      match truthyId ex.sourceItemId, truthyId ex.targetItemId with
      | some rs, some rt =>
        if rs == sourceItemId && rt == item.id then Except.ok true
        else legacyItemForbidden ctx sourceLayerId targetLayerId sourceItemId sourceItem item rest
      | _, _ =>
        match truthyStr ex.property with
        | some prop =>
          match lowerOrThrow (extractPropertyLegacy sourceItem.name prop) with
          | Except.error e => Except.error e
          | Except.ok sp =>
            match lowerOrThrow (extractPropertyLegacy item.name prop) with
            | Except.error e => Except.error e
            | Except.ok tp =>
              if sp == tp then Except.ok true
              else legacyItemForbidden ctx sourceLayerId targetLayerId sourceItemId sourceItem item rest
        | none =>
          legacyItemForbidden ctx sourceLayerId targetLayerId sourceItemId sourceItem item rest
    else legacyItemForbidden ctx sourceLayerId targetLayerId sourceItemId sourceItem item rest

/-- The valid-items filter of the legacy non-color fallback. -/
def legacyValidItems (ctx : Ctx) (sourceLayerId targetLayerId sourceItemId : Nat)
    (sourceItem : LayerItem) : List LayerItem → Except Unit (List LayerItem)
  | [] => Except.ok []
  | item :: rest =>
    match legacyItemForbidden ctx sourceLayerId targetLayerId sourceItemId sourceItem item
        ctx.traitExclusionRules with
    | Except.error e => Except.error e
    | Except.ok true => legacyValidItems ctx sourceLayerId targetLayerId sourceItemId sourceItem rest
    | Except.ok false =>
      match legacyValidItems ctx sourceLayerId targetLayerId sourceItemId sourceItem rest with
      | Except.error e => Except.error e
      | Except.ok tail => Except.ok (item :: tail)

/-- The rule walk of the legacy applyMatchingRules. -/
def legacyRulesFold (ctx : Ctx) (sourceLayerId sourceItemId : Nat)
    (sourceItem : LayerItem) :
    List TraitMatchingRule → Combination → St → Except Unit Combination × St
  | [], selected, st => (Except.ok selected, st)
  | rule :: rest, selected, st =>
    match ctx.layers.find? (fun l => l.id == rule.targetLayerId) with
    | none => legacyRulesFold ctx sourceLayerId sourceItemId sourceItem rest selected st
    | some targetLayer =>
      match findMatchingItemLegacy ctx sourceItem targetLayer.items rule.property st with
      | (some matchingItem, st1) =>
        legacyRulesFold ctx sourceLayerId sourceItemId sourceItem rest
          (insertSel selected rule.targetLayerId matchingItem.id) st1
      | (none, st1) =>
        if lowStr rule.property = "color".data then
          match lenientColorScan ctx targetLayer.items (jsWords sourceItem.name) st1 with
          | (some fm, st2) =>
            legacyRulesFold ctx sourceLayerId sourceItemId sourceItem rest
              (insertSel selected rule.targetLayerId fm.id) st2
          | (none, st2) =>
            legacyRulesFold ctx sourceLayerId sourceItemId sourceItem rest selected st2
        else
          match legacyValidItems ctx sourceLayerId rule.targetLayerId sourceItemId sourceItem
              targetLayer.items with
          | Except.error e => (Except.error e, st1)
          | Except.ok validItems =>
            if validItems.length > 0 then
              let (r, st2) := mathRandom ctx st1
              match jsIndex validItems (jsFloor (qMul r (qNat validItems.length))) with
              | some fallbackItem =>
                legacyRulesFold ctx sourceLayerId sourceItemId sourceItem rest
                  (insertSel selected rule.targetLayerId fallbackItem.id) st2
              | none => (Except.error (), st2)
            else legacyRulesFold ctx sourceLayerId sourceItemId sourceItem rest selected st1

/-- Model of the legacy applyMatchingRules: matching rules with fallbacks,
then manual mappings applied unconditionally. -/
def applyMatchingRulesLegacy (ctx : Ctx) (sourceLayerId sourceItemId : Nat)
    (selected : Combination) (st : St) : Except Unit Combination × St :=
  match (ctx.layers.find? (fun l => l.id == sourceLayerId)).bind
      (fun sl => sl.items.find? (fun i => i.id == sourceItemId)) with
  | none => (Except.ok selected, st)
  | some sourceItem =>
    match legacyRulesFold ctx sourceLayerId sourceItemId sourceItem
        (ctx.traitMatchingRules.filter (fun r => r.sourceLayerId == sourceLayerId))
        selected st with
    | (Except.error e, st1) => (Except.error e, st1)
    | (Except.ok selected2, st1) =>
      (Except.ok ((ctx.manualMappings.filter (fun m =>
          m.sourceLayerId == sourceLayerId && m.sourceItemId == sourceItemId)).foldl
        (fun sel m => insertSel sel m.targetLayerId m.targetItemId) selected2), st1)

/-- The source-layer walk of the legacy generateValidCombination, with its
processed-layer set. -/
def legacySourceFold (ctx : Ctx) (useBalancing : Bool) :
    List Layer → Combination → List Nat → St →
    Except Unit (Combination × List Nat) × St
  | [], c, processed, st => (Except.ok (c, processed), st)
  | layer :: rest, c, processed, st =>
    if processed.contains layer.id then
      legacySourceFold ctx useBalancing rest c processed st
    else
      match selectWeightedRandom ctx layer.items layer.id useBalancing st with
      | (none, st1) => legacySourceFold ctx useBalancing rest c processed st1
      | (some it, st1) =>
        match applyMatchingRulesLegacy ctx layer.id it.id (insertSel c layer.id it.id) st1 with
        | (Except.error e, st2) => (Except.error e, st2)
        | (Except.ok c2, st2) =>
          legacySourceFold ctx useBalancing rest c2
            ((processed ++ [layer.id]) ++
              (ctx.traitMatchingRules.filter (fun r => r.sourceLayerId == layer.id)).map
                (fun r => r.targetLayerId) ++
              (ctx.manualMappings.filter (fun m => m.sourceLayerId == layer.id)).map
                (fun m => m.targetLayerId)) st2

/-- The free-layer walk of the legacy generateValidCombination. -/
def legacyFreeFold (ctx : Ctx) (useBalancing : Bool) :
    List Layer → Combination → St → Combination × St
  | [], c, st => (c, st)
  | layer :: rest, c, st =>
    match selectWeightedRandom ctx layer.items layer.id useBalancing st with
    | (some it, st1) => legacyFreeFold ctx useBalancing rest (insertSel c layer.id it.id) st1
    | (none, st1) => legacyFreeFold ctx useBalancing rest c st1

/-- One attempt of the legacy generateValidCombination. -/
def legacyAttempt (ctx : Ctx) (useBalancing : Bool) (st : St) :
    Except Unit (Option Combination) × St :=
  let sourceLayerIds := ctx.traitMatchingRules.map (fun r => r.sourceLayerId) ++
    ctx.manualMappings.map (fun m => m.sourceLayerId)
  let sourceLayers := List.insertionSort (fun a b : Layer => a.items.length ≤ b.items.length)
    (ctx.layers.filter (fun l => sourceLayerIds.contains l.id))
  match legacySourceFold ctx useBalancing sourceLayers [] [] st with
  | (Except.error e, st1) => (Except.error e, st1)
  | (Except.ok (c1, processed), st1) =>
    match legacyFreeFold ctx useBalancing
        (ctx.layers.filter (fun l => !(processed.contains l.id))) c1 st1 with
    | (c2, st2) =>
      match exRulesGo ctx extractPropertyLegacy c2 ctx.traitExclusionRules with
      | Except.error e => (Except.error e, st2)
      | Except.ok false => (Except.ok none, st2)
      | Except.ok true => (Except.ok (some c2), st2)

/-- The legacy retry loop: exhausting its 200 attempts falls back to a
plain generateRandomCombination (not validated against the exclusion
rules). -/
def legacyGenLoop (ctx : Ctx) (useBalancing : Bool) :
    Nat → St → Except Unit Combination × St
  | 0, st =>
    match generateRandomCombination ctx useBalancing st with
    | (c, st1) => (Except.ok c, st1)
  | fuel + 1, st =>
    match legacyAttempt ctx useBalancing st with
    | (Except.error e, st1) => (Except.error e, st1)
    | (Except.ok (some c), st1) => (Except.ok c, st1)
    | (Except.ok none, st1) => legacyGenLoop ctx useBalancing fuel st1

/-- Model of generateValidCombination of src/unnamed/part_000, with its
maxAttempts of 200. -/
def generateValidCombinationLegacy (ctx : Ctx) (useBalancing : Bool) (st : St) :
    Except Unit Combination × St :=
  legacyGenLoop ctx useBalancing 200 st

/-! ### Concrete catalogs used by the claim witnesses and counterexamples -/

theorem pair_eq {α β : Type} {p : α × β} {a : α} (h : p.1 = a) : p = (a, p.2) := by
  cases p
  cases h
  rfl

/-- The constant zero Math.random stream. -/
def rngZero : Nat → JsNum := fun _ => qZero

/-- The empty starting state. -/
def st0 : St :=
  { quotas := fun _ => 0, pairUsage := fun _ => 0, usage := [], generated := [],
    rix := 0 }

/-- Two singleton layers whose only combination trips the stored pair
exclusion. -/
def ctxC1 : Ctx :=
  { layers := [
      { id := 1, name := "Alpha".data, items := [{ id := 1, name := "Hat A".data }] },
      { id := 2, name := "Beta".data, items := [{ id := 2, name := "Shirt B".data }] }],
    traitExclusionRules := [
      { id := 1, sourceLayerId := 1, targetLayerId := 2,
        sourceItemId := some 1, targetItemId := some 2 }],
    rand := rngZero }

/-- The stored pair exclusion that the only combination does not trip. -/
def ruleC1w : TraitExclusionRule :=
  { id := 1, sourceLayerId := 1, targetLayerId := 2,
    sourceItemId := some 1, targetItemId := some 3 }

/-- The catalog of ctxC1 with the harmless exclusion. -/
def ctxC1w : Ctx :=
  { layers := [
      { id := 1, name := "Alpha".data, items := [{ id := 1, name := "Hat A".data }] },
      { id := 2, name := "Beta".data, items := [{ id := 2, name := "Shirt B".data }] }],
    traitExclusionRules := [ruleC1w],
    rand := rngZero }

/-- A single exact-count layer. -/
def layerC2 : Layer :=
  { id := 1, name := "Alpha".data, items := [{ id := 1, name := "Hat A".data }],
    exactCountMode := true }

/-- An exact-count catalog. -/
def ctxC2 : Ctx := { layers := [layerC2], rand := rngZero }

/-- A state granting one unit of quota to every key. -/
def stq1 : St :=
  { quotas := fun _ => 1, pairUsage := fun _ => 0, usage := [], generated := [],
    rix := 0 }

/-- The red head item. -/
def itemC5h : LayerItem := { id := 1, name := "Red Head".data }

/-- The red body item. -/
def itemC5b : LayerItem := { id := 2, name := "Red Body".data }

/-- The head layer. -/
def layerC5h : Layer := { id := 1, name := "Head".data, items := [itemC5h] }

/-- The body layer. -/
def layerC5b : Layer := { id := 2, name := "Body".data, items := [itemC5b] }

/-- A head and a body layer with one red item each. -/
def ctxC5 : Ctx := { layers := [layerC5h, layerC5b], rand := rngZero }

/-- The first manual mapping of the overwrite example. -/
def mapC8a : ManualMapping :=
  { id := 1, sourceLayerId := 1, sourceItemId := 1, targetLayerId := 2,
    targetItemId := 2 }

/-- The second manual mapping of the overwrite example, sharing source item
and target layer with the first. -/
def mapC8b : ManualMapping :=
  { id := 2, sourceLayerId := 1, sourceItemId := 1, targetLayerId := 2,
    targetItemId := 3 }

/-- A catalog with two manual mappings fighting over one target layer. -/
def ctxC8 : Ctx :=
  { layers := [
      { id := 1, name := "Alpha".data, items := [{ id := 1, name := "One".data }] },
      { id := 2, name := "Beta".data,
        items := [{ id := 2, name := "Two".data }, { id := 3, name := "Three".data }] }],
    manualMappings := [mapC8a, mapC8b],
    rand := rngZero }

/-- A persisted session interrupted while generating. -/
def sessionGenerating : ExportSession := { status := ExportStatus.generating }

/-- A persisted session interrupted while downloading. -/
def sessionDownloading : ExportSession := { status := ExportStatus.downloading }

/-- An item whose name tokenises to no words. -/
def itemBad : LayerItem := { id := 1, name := "_-_".data }

/-- A normally named target item. -/
def itemC10b : LayerItem := { id := 2, name := "Blue Shirt".data }

/-- The source layer holding the wordless item. -/
def layerC10a : Layer := { id := 1, name := "A".data, items := [itemBad] }

/-- The target layer of the property rule. -/
def layerC10b : Layer := { id := 2, name := "B".data, items := [itemC10b] }

/-- The color property exclusion over the wordless item. -/
def ruleC10 : TraitExclusionRule :=
  { id := 1, sourceLayerId := 1, targetLayerId := 2, property := some "color".data }

/-- The catalog of the wordless extraction example. -/
def ctxC10 : Ctx :=
  { layers := [layerC10a, layerC10b], traitExclusionRules := [ruleC10],
    rand := rngZero }

/-! ### Lookup and insertion lemmas -/

theorem lookupNat_cons {α : Type} (p : Nat × α) (t : List (Nat × α)) (k : Nat) :
    lookupNat (p :: t) k = if p.1 == k then some p.2 else lookupNat t k := by
  by_cases h : p.1 = k
  · have hb : (p.1 == k) = true := beq_iff_eq.mpr h
    simp [lookupNat, List.find?, hb]
  · have hb : (p.1 == k) = false := beq_eq_false_iff_ne.mpr h
    simp [lookupNat, List.find?, hb]

theorem findKey_isSome_iff {α : Type} (c : List (Nat × α)) (k : Nat) :
    (c.find? (fun p => p.1 == k)).isSome = true ↔ k ∈ c.map Prod.fst := by
  rw [List.find?_isSome]
  constructor
  · rintro ⟨x, hx, hpx⟩
    exact List.mem_map.mpr ⟨x, hx, beq_iff_eq.mp hpx⟩
  · intro hm
    obtain ⟨x, hx, hk⟩ := List.mem_map.mp hm
    exact ⟨x, hx, beq_iff_eq.mpr hk⟩

theorem lookup_mapReplace_mem {α : Type} (c : List (Nat × α)) (k : Nat) (v : α)
    (h : k ∈ c.map Prod.fst) :
    lookupNat (c.map (fun p => if p.1 == k then (k, v) else p)) k = some v := by
  induction c with
  | nil => simp at h
  | cons p t ih =>
    by_cases hk : p.1 = k
    · have hb : (p.1 == k) = true := beq_iff_eq.mpr hk
      rw [List.map_cons, if_pos hb, lookupNat_cons, if_pos (beq_self_eq_true k)]
    · have hb : (p.1 == k) = false := beq_eq_false_iff_ne.mpr hk
      rw [List.map_cons, if_neg (by simp [hb]), lookupNat_cons, if_neg (by simp [hb])]
      apply ih
      rw [List.map_cons] at h
      rcases List.mem_cons.mp h with hm | hm
      · exact absurd hm.symm hk
      · exact hm

theorem lookup_not_mem {α : Type} (c : List (Nat × α)) (k : Nat)
    (h : k ∉ c.map Prod.fst) : lookupNat c k = none := by
  rw [lookupNat_none_iff]
  exact h

theorem lookup_append_single {α : Type} (c : List (Nat × α)) (k : Nat) (v : α) :
    lookupNat (c ++ [(k, v)]) k = some v ∨
      ∃ w, lookupNat (c ++ [(k, v)]) k = some w ∧ (k, w) ∈ c := by
  induction c with
  | nil =>
    left
    rw [List.nil_append, lookupNat_cons, if_pos (beq_self_eq_true k)]
  | cons p t ih =>
    by_cases hk : p.1 = k
    · right
      have hb : (p.1 == k) = true := beq_iff_eq.mpr hk
      refine ⟨p.2, ?_, ?_⟩
      · rw [List.cons_append, lookupNat_cons, if_pos hb]
      · have : (k, p.2) = p := by
          obtain ⟨p1, p2⟩ := p
          simp only at hk
          rw [hk]
        rw [this]
        exact List.mem_cons_self _ _
    · have hb : (p.1 == k) = false := beq_eq_false_iff_ne.mpr hk
      rcases ih with hih | ⟨w, hw, hwm⟩
      · left
        rw [List.cons_append, lookupNat_cons, if_neg (by simp [hb])]
        exact hih
      · right
        refine ⟨w, ?_, List.mem_cons_of_mem _ hwm⟩
        rw [List.cons_append, lookupNat_cons, if_neg (by simp [hb])]
        exact hw

theorem lookup_append_single_not_mem {α : Type} (c : List (Nat × α)) (k : Nat) (v : α)
    (h : k ∉ c.map Prod.fst) : lookupNat (c ++ [(k, v)]) k = some v := by
  induction c with
  | nil =>
    rw [List.nil_append, lookupNat_cons, if_pos (beq_self_eq_true k)]
  | cons p t ih =>
    have hk : p.1 ≠ k := by
      intro hc
      exact h (by simp [← hc])
    have hb : (p.1 == k) = false := beq_eq_false_iff_ne.mpr hk
    rw [List.cons_append, lookupNat_cons, if_neg (by simp [hb])]
    exact ih (fun hc => h (List.mem_cons_of_mem _ hc))

theorem lookup_append_single_ne {α : Type} (c : List (Nat × α)) (k k2 : Nat) (v : α)
    (hk : k2 ≠ k) : lookupNat (c ++ [(k, v)]) k2 = lookupNat c k2 := by
  induction c with
  | nil =>
    have hb : (k == k2) = false := beq_eq_false_iff_ne.mpr (Ne.symm hk)
    rw [List.nil_append, lookupNat_cons, if_neg (by simp [hb])]
  | cons p t ih =>
    rw [List.cons_append, lookupNat_cons, lookupNat_cons]
    split
    · rfl
    · exact ih

theorem lookup_mapReplace_ne {α : Type} (c : List (Nat × α)) (k k2 : Nat) (v : α)
    (hk : k2 ≠ k) :
    lookupNat (c.map (fun p => if p.1 == k then (k, v) else p)) k2 = lookupNat c k2 := by
  induction c with
  | nil => simp [lookupNat]
  | cons p t ih =>
    by_cases hpk : p.1 = k
    · have hb : (p.1 == k) = true := beq_iff_eq.mpr hpk
      have hb2 : (p.1 == k2) = false := beq_eq_false_iff_ne.mpr (by omega)
      have hb3 : (k == k2) = false := beq_eq_false_iff_ne.mpr (Ne.symm hk)
      rw [List.map_cons, if_pos hb, lookupNat_cons, if_neg (by simp [hb3]), ih,
        lookupNat_cons, if_neg (by simp [hb2])]
    · have hb : (p.1 == k) = false := beq_eq_false_iff_ne.mpr hpk
      rw [List.map_cons, if_neg (by simp [hb]), lookupNat_cons, lookupNat_cons]
      split
      · rfl
      · exact ih

theorem getSel_insertSel_self_of (c : Combination) (k v : Nat) :
    getSel (insertSel c k v) k = some v ∨
      ∃ w, getSel (insertSel c k v) k = some w ∧ (k, w) ∈ c := by
  unfold insertSel getSel
  split
  · next h =>
    left
    rw [lookup_mapReplace_mem]
    exact (findKey_isSome_iff c k).mp h
  · next h =>
    exact lookup_append_single c k v

theorem getSel_insertSel_self (c : Combination) (k v : Nat) :
    getSel (insertSel c k v) k = some v := by
  unfold insertSel getSel
  split
  · next h =>
    rw [lookup_mapReplace_mem]
    exact (findKey_isSome_iff c k).mp h
  · next h =>
    apply lookup_append_single_not_mem
    intro hm
    exact h ((findKey_isSome_iff c k).mpr hm)

theorem getSel_insertSel_ne (c : Combination) (k k2 v : Nat) (hk : k2 ≠ k) :
    getSel (insertSel c k v) k2 = getSel c k2 := by
  unfold insertSel getSel
  split
  · exact lookup_mapReplace_ne c k k2 v hk
  · exact lookup_append_single_ne c k k2 v hk

theorem jsIndex_mem {α : Type} {l : List α} {i : Int} {x : α}
    (h : jsIndex l i = some x) : x ∈ l := by
  unfold jsIndex at h
  split at h
  · exact absurd h (by simp)
  · exact List.getElem?_mem h

theorem cumGoW_mem {α : Type} :
    ∀ (pairs : List (α × JsNum)) (r : JsNum) (x : α),
      cumGoW pairs r = some x → ∃ w, (x, w) ∈ pairs := by
  intro pairs
  induction pairs with
  | nil => intro r x h; simp [cumGoW] at h
  | cons p t ih =>
    intro r x h
    obtain ⟨a, w⟩ := p
    rw [cumGoW] at h
    split at h
    · obtain rfl := Option.some.inj h
      exact ⟨w, List.mem_cons_self _ _⟩
    · obtain ⟨w2, hw2⟩ := ih _ x h
      exact ⟨w2, List.mem_cons_of_mem _ hw2⟩

theorem cumPickW_mem {α : Type} {pairs : List (α × JsNum)} {r : JsNum} {x : α}
    (h : cumPickW pairs r = some x) : ∃ w, (x, w) ∈ pairs := by
  unfold cumPickW at h
  split at h
  · next y hy =>
    obtain rfl := Option.some.inj h
    exact cumGoW_mem pairs r _ hy
  · next hy =>
    obtain ⟨p, hp, hpx⟩ := Option.map_eq_some'.mp h
    exact ⟨p.2, by rw [← hpx]; exact jsIndex_mem hp⟩

/-! ### Frame lemmas: quotas and the generated set are read-only for the
whole generation pipeline (quotas change only in
decrementQuotasForCombination, the generated set only at the end of a
batch). -/

/-- Quotas and generated set unchanged between two states. -/
def QGEq (s t : St) : Prop := t.quotas = s.quotas ∧ t.generated = s.generated

theorem qgeq_refl (s : St) : QGEq s s := ⟨rfl, rfl⟩

theorem qgeq_trans {a b c : St} (h1 : QGEq a b) (h2 : QGEq b c) : QGEq a c :=
  ⟨h2.1.trans h1.1, h2.2.trans h1.2⟩

theorem qg_mathRandom (ctx : Ctx) (st : St) : QGEq st (mathRandom ctx st).2 :=
  ⟨rfl, rfl⟩

theorem qg_selectWeightedRandom (ctx : Ctx) (items : List LayerItem)
    (layerId : Nat) (fb : Bool) (st : St) :
    QGEq st (selectWeightedRandom ctx items layerId fb st).2 := by
  simp only [selectWeightedRandom, mathRandom]
  repeat' split
  all_goals exact ⟨rfl, rfl⟩

theorem qg_selectWeightedRandom_eq {ctx : Ctx} {items : List LayerItem}
    {layerId : Nat} {fb : Bool} {st : St} {o : Option LayerItem} {st' : St}
    (h : selectWeightedRandom ctx items layerId fb st = (o, st')) : QGEq st st' := by
  have hq := qg_selectWeightedRandom ctx items layerId fb st
  rw [h] at hq
  exact hq

theorem qg_selectWithQuota (ctx : Ctx) (layer : Layer) (st : St) :
    QGEq st (selectWithQuota ctx layer st).2 := by
  simp only [selectWithQuota, mathRandom]
  repeat' split
  all_goals exact ⟨rfl, rfl⟩

theorem qg_selectWithQuota_eq {ctx : Ctx} {layer : Layer} {st : St}
    {o : Option LayerItem} {st' : St}
    (h : selectWithQuota ctx layer st = (o, st')) : QGEq st st' := by
  have hq := qg_selectWithQuota ctx layer st
  rw [h] at hq
  exact hq

theorem qg_pick_eq {c : Prop} [Decidable c] {ctx : Ctx} {layer : Layer}
    {items : List LayerItem} {lid : Nat} {ub : Bool} {o : Option LayerItem}
    {st st' : St}
    (h : (if c then selectWithQuota ctx layer st
          else selectWeightedRandom ctx items lid ub st) = (o, st')) :
    QGEq st st' := by
  split at h
  · exact qg_selectWithQuota_eq h
  · exact qg_selectWeightedRandom_eq h

theorem qg_findMatchingItem (ctx : Ctx) (sourceItem : LayerItem)
    (targetItems : List LayerItem) (property : Str) (st : St) :
    QGEq st (findMatchingItem ctx sourceItem targetItems property st).2 := by
  simp only [findMatchingItem, mathRandom]
  repeat' split
  all_goals exact ⟨rfl, rfl⟩

theorem qg_findMatchingItem_eq {ctx : Ctx} {sourceItem : LayerItem}
    {targetItems : List LayerItem} {property : Str} {st : St}
    {o : Option LayerItem} {st' : St}
    (h : findMatchingItem ctx sourceItem targetItems property st = (o, st')) :
    QGEq st st' := by
  have hq := qg_findMatchingItem ctx sourceItem targetItems property st
  rw [h] at hq
  exact hq

theorem qg_chooseCandidateBalanced (ctx : Ctx) (candidates : List LayerItem)
    (targetLayer : Layer) (rule : Option TraitMatchingRule)
    (sourceItemId : Option Nat) (rq : Bool) (st : St) :
    QGEq st (chooseCandidateBalanced ctx candidates targetLayer rule sourceItemId rq st).2 := by
  simp only [chooseCandidateBalanced, mathRandom]
  repeat' split
  all_goals exact ⟨rfl, rfl⟩

theorem qg_chooseCandidateBalanced_eq {ctx : Ctx} {candidates : List LayerItem}
    {targetLayer : Layer} {rule : Option TraitMatchingRule}
    {sourceItemId : Option Nat} {rq : Bool} {st : St} {o : Option LayerItem} {st' : St}
    (h : chooseCandidateBalanced ctx candidates targetLayer rule sourceItemId rq st = (o, st')) :
    QGEq st st' := by
  have hq := qg_chooseCandidateBalanced ctx candidates targetLayer rule sourceItemId rq st
  rw [h] at hq
  exact hq

theorem qg_tryFixBodyToMatchHead (ctx : Ctx) (combo : Combination) (rq : Bool)
    (st : St) : QGEq st (tryFixBodyToMatchHead ctx combo rq st).2 := by
  simp only [tryFixBodyToMatchHead]
  repeat' split
  all_goals
    first
    | exact ⟨rfl, rfl⟩
    | exact qg_findMatchingItem ctx _ _ _ st
    | exact qg_findMatchingItem_eq (by assumption)

theorem qg_tryFixBodyToMatchHead_eq {ctx : Ctx} {combo : Combination} {rq : Bool}
    {st : St} {o : Except Unit (Bool × Combination)} {st' : St}
    (h : tryFixBodyToMatchHead ctx combo rq st = (o, st')) : QGEq st st' := by
  have hq := qg_tryFixBodyToMatchHead ctx combo rq st
  rw [h] at hq
  exact hq

theorem qg_manualFold (ctx : Ctx) (rq : Bool) :
    ∀ (ms : List ManualMapping) (c : Combination) (ch : Bool) (st : St),
      QGEq st (manualFold ctx rq ms c ch st).2 := by
  intro ms
  induction ms with
  | nil => intro c ch st; exact ⟨rfl, rfl⟩
  | cons m rest ih =>
    intro c ch st
    simp only [manualFold]
    repeat' split
    all_goals
      first
      | exact ⟨rfl, rfl⟩
      | exact ih _ _ _
      | exact qgeq_trans (⟨rfl, rfl⟩ : QGEq st _) (ih _ _ _)

theorem qg_manualFold_eq {ctx : Ctx} {rq : Bool} {ms : List ManualMapping}
    {c : Combination} {ch : Bool} {st : St} {o : Except Unit (Combination × Bool)}
    {st' : St} (h : manualFold ctx rq ms c ch st = (o, st')) : QGEq st st' := by
  have hq := qg_manualFold ctx rq ms c ch st
  rw [h] at hq
  exact hq

theorem qg_rulesFold (ctx : Ctx) (rq : Bool) :
    ∀ (rs : List TraitMatchingRule) (c : Combination) (ch : Bool) (st : St),
      QGEq st (rulesFold ctx rq rs c ch st).2 := by
  intro rs
  induction rs with
  | nil => intro c ch st; exact ⟨rfl, rfl⟩
  | cons rule rest ih =>
    intro c ch st
    simp only [rulesFold]
    split
    · exact ih _ _ _
    · split
      · exact ih _ _ _
      · split
        · split
          · exact ih _ _ _
          · split
            · exact ih _ _ _
            · split
              · exact ih _ _ _
              · split
                · next x st1 heq =>
                  exact qgeq_trans (qg_chooseCandidateBalanced_eq heq) (ih _ _ _)
                · next x chosenItem st1 heq =>
                  split
                  · exact qg_chooseCandidateBalanced_eq heq
                  · exact qgeq_trans (qg_chooseCandidateBalanced_eq heq) (ih _ _ _)
                  · exact qgeq_trans (qg_chooseCandidateBalanced_eq heq)
                      (qgeq_trans (⟨rfl, rfl⟩ : QGEq st1 _) (ih _ _ _))
        · exact ih _ _ _

theorem qg_rulesFold_eq {ctx : Ctx} {rq : Bool} {rs : List TraitMatchingRule}
    {c : Combination} {ch : Bool} {st : St} {o : Except Unit (Combination × Bool)}
    {st' : St} (h : rulesFold ctx rq rs c ch st = (o, st')) : QGEq st st' := by
  have hq := qg_rulesFold ctx rq rs c ch st
  rw [h] at hq
  exact hq

theorem qg_applyPasses (ctx : Ctx) (rq : Bool) (rules : List TraitMatchingRule) :
    ∀ (n : Nat) (c : Combination) (ch : Bool) (st : St),
      QGEq st (applyPasses ctx rq rules n c ch st).2 := by
  intro n
  induction n with
  | zero => intro c ch st; exact ⟨rfl, rfl⟩
  | succ n ih =>
    intro c ch st
    simp only [applyPasses]
    repeat' split
    all_goals
      first
      | exact qg_manualFold_eq (by assumption)
      | exact qgeq_trans (qg_manualFold_eq (by assumption))
          (qg_rulesFold_eq (by assumption))
      | exact qgeq_trans (qgeq_trans (qg_manualFold_eq (by assumption))
          (qg_rulesFold_eq (by assumption))) (ih _ _ _)

theorem qg_applyPasses_eq {ctx : Ctx} {rq : Bool} {rules : List TraitMatchingRule}
    {n : Nat} {c : Combination} {ch : Bool} {st : St}
    {o : Except Unit (Combination × Bool)} {st' : St}
    (h : applyPasses ctx rq rules n c ch st = (o, st')) : QGEq st st' := by
  have hq := qg_applyPasses ctx rq rules n c ch st
  rw [h] at hq
  exact hq

theorem qg_applyAllMatching (ctx : Ctx) (c : Combination) (rq : Bool) (st : St) :
    QGEq st (applyAllMatching ctx c rq st).2 := by
  simp only [applyAllMatching]
  repeat' split
  all_goals exact qg_applyPasses_eq (by assumption)

theorem qg_applyAllMatching_eq {ctx : Ctx} {c : Combination} {rq : Bool} {st : St}
    {o : Except Unit (Bool × Combination)} {st' : St}
    (h : applyAllMatching ctx c rq st = (o, st')) : QGEq st st' := by
  have hq := qg_applyAllMatching ctx c rq st
  rw [h] at hq
  exact hq

theorem qg_genSourceLayersFold (ctx : Ctx) (ub rq : Bool) :
    ∀ (ls : List Layer) (c : Combination) (st : St),
      QGEq st (genSourceLayersFold ctx ub rq ls c st).2 := by
  intro ls
  induction ls with
  | nil => intro c st; exact ⟨rfl, rfl⟩
  | cons layer rest ih =>
    intro c st
    simp only [genSourceLayersFold]
    repeat' split
    all_goals
      first
      | exact qg_pick_eq (by assumption)
      | exact qgeq_trans (qg_pick_eq (by assumption)) (ih _ _)
      | exact qgeq_trans (qg_pick_eq (by assumption))
          (qg_applyAllMatching_eq (by assumption))
      | exact qgeq_trans (qgeq_trans (qg_pick_eq (by assumption))
          (qg_applyAllMatching_eq (by assumption))) (ih _ _)

theorem qg_genSourceLayersFold_eq {ctx : Ctx} {ub rq : Bool} {ls : List Layer}
    {c : Combination} {st : St} {o : Except Unit Combination} {st' : St}
    (h : genSourceLayersFold ctx ub rq ls c st = (o, st')) : QGEq st st' := by
  have hq := qg_genSourceLayersFold ctx ub rq ls c st
  rw [h] at hq
  exact hq

theorem qg_genFreeFold (ctx : Ctx) (ub rq : Bool) :
    ∀ (ls : List Layer) (c : Combination) (st : St),
      QGEq st (genFreeFold ctx ub rq ls c st).2 := by
  intro ls
  induction ls with
  | nil => intro c st; exact ⟨rfl, rfl⟩
  | cons layer rest ih =>
    intro c st
    simp only [genFreeFold]
    repeat' split
    all_goals exact qgeq_trans (qg_pick_eq (by assumption)) (ih _ _)

theorem qg_genFreeFold_eq {ctx : Ctx} {ub rq : Bool} {ls : List Layer}
    {c : Combination} {st : St} {c' : Combination} {st' : St}
    (h : genFreeFold ctx ub rq ls c st = (c', st')) : QGEq st st' := by
  have hq := qg_genFreeFold ctx ub rq ls c st
  rw [h] at hq
  exact hq

theorem qg_genAttempt (ctx : Ctx) (ub rq : Bool) (st : St) :
    QGEq st (genAttempt ctx ub rq st).2 := by
  simp only [genAttempt]
  split
  · rename_i heq
    exact qg_genSourceLayersFold_eq heq
  · rename_i c1 st1 heq
    have h12 : QGEq st (genFreeFold ctx ub rq
        (List.filter (fun l => (getSel c1 l.id).isNone) ctx.layers) c1 st1).2 :=
      qgeq_trans (qg_genSourceLayersFold_eq heq) (qg_genFreeFold ctx ub rq _ c1 st1)
    split
    · rename_i heq3
      exact qgeq_trans h12 (qg_applyAllMatching_eq heq3)
    · rename_i heq3
      have h123 := qgeq_trans h12 (qg_applyAllMatching_eq heq3)
      split
      · exact h123
      · exact h123
      · split
        · exact h123
        · split
          · rename_i heq4
            exact qgeq_trans h123 (qg_tryFixBodyToMatchHead_eq heq4)
          · rename_i heq4
            exact qgeq_trans h123 (qg_tryFixBodyToMatchHead_eq heq4)
          · rename_i heq4
            split
            · exact qgeq_trans h123 (qg_tryFixBodyToMatchHead_eq heq4)
            · exact qgeq_trans h123 (qg_tryFixBodyToMatchHead_eq heq4)

theorem qg_genAttempt_eq {ctx : Ctx} {ub rq : Bool} {st : St}
    {o : Except Unit (Option Combination)} {st' : St}
    (h : genAttempt ctx ub rq st = (o, st')) : QGEq st st' := by
  have hq := qg_genAttempt ctx ub rq st
  rw [h] at hq
  exact hq

theorem qg_genLoop (ctx : Ctx) (ub rq : Bool) :
    ∀ (fuel : Nat) (st : St), QGEq st (genLoop ctx ub rq fuel st).2 := by
  intro fuel
  induction fuel with
  | zero => intro st; exact ⟨rfl, rfl⟩
  | succ n ih =>
    intro st
    simp only [genLoop]
    repeat' split
    all_goals
      first
      | exact qg_genAttempt_eq (by assumption)
      | exact qgeq_trans (qg_genAttempt_eq (by assumption)) (ih _)

theorem qg_generateValidCombination (ctx : Ctx) (ub rq : Bool) (st : St) :
    QGEq st (generateValidCombination ctx ub rq st).2 :=
  qg_genLoop ctx ub rq 400 st

theorem qg_generateValidCombination_eq {ctx : Ctx} {ub rq : Bool} {st : St}
    {o : Except Unit Combination} {st' : St}
    (h : generateValidCombination ctx ub rq st = (o, st')) : QGEq st st' := by
  have hq := qg_generateValidCombination ctx ub rq st
  rw [h] at hq
  exact hq

theorem qg_batchNoRulesBuild (ctx : Ctx) :
    ∀ (ls : List Layer) (c : Combination) (st : St),
      QGEq st (batchNoRulesBuild ctx ls c st).2 := by
  intro ls
  induction ls with
  | nil => intro c st; exact ⟨rfl, rfl⟩
  | cons layer rest ih =>
    intro c st
    simp only [batchNoRulesBuild]
    repeat' split
    all_goals exact qgeq_trans (qg_pick_eq (by assumption)) (ih _ _)

theorem qg_batchNoRulesBuild_eq {ctx : Ctx} {ls : List Layer} {c : Combination}
    {st : St} {c' : Combination} {st' : St}
    (h : batchNoRulesBuild ctx ls c st = (c', st')) : QGEq st st' := by
  have hq := qg_batchNoRulesBuild ctx ls c st
  rw [h] at hq
  exact hq

/-! ### Exclusion walk characterisation and membership of sampled items -/

theorem exRulesGo_ok_true_iff (ctx : Ctx) (ex : Str → Str → Option Str)
    (c : Combination) (rs : List TraitExclusionRule) :
    exRulesGo ctx ex c rs = Except.ok true ↔
      ∀ r ∈ rs, exRuleCheck ctx ex c r = Except.ok true := by
  induction rs with
  | nil => simp [exRulesGo]
  | cons r rs ih =>
    cases h : exRuleCheck ctx ex c r with
    | error e =>
      simp only [exRulesGo, h]
      constructor
      · intro hfalse
        exact Except.noConfusion hfalse
      · intro hall
        have hr := hall r (List.mem_cons_self r rs)
        rw [h] at hr
        exact Except.noConfusion hr
    | ok b =>
      cases b with
      | false =>
        simp only [exRulesGo, h]
        constructor
        · intro hfalse
          exact absurd (Except.ok.inj hfalse) (by decide)
        · intro hall
          have hr := hall r (List.mem_cons_self r rs)
          rw [h] at hr
          exact absurd (Except.ok.inj hr) (by decide)
      | true =>
        simp only [exRulesGo, h]
        rw [ih]
        constructor
        · intro hall r2 hr2
          rcases List.mem_cons.mp hr2 with hr2 | hr2
          · rw [hr2]
            exact h
          · exact hall r2 hr2
        · intro hall r2 hr2
          exact hall r2 (List.mem_cons_of_mem r hr2)

theorem findMatchingItem_mem {ctx : Ctx} {sourceItem : LayerItem}
    {targetItems : List LayerItem} {property : Str} {st : St} {m : LayerItem}
    (h : (findMatchingItem ctx sourceItem targetItems property st).1 = some m) :
    m ∈ targetItems := by
  simp only [findMatchingItem, mathRandom] at h
  repeat' split at h
  all_goals
    first
    | exact List.mem_of_find?_eq_some h
    | exact Except.noConfusion h
    | exact Option.noConfusion h
    | exact List.mem_of_mem_filter (jsIndex_mem h)

/-! ### Quota walk lemmas -/

theorem quotasOkGo_pos {q : Str → Int} {combo : Combination} :
    ∀ {layers : List Layer}, quotasOkGo q combo layers = true →
      ∀ l ∈ layers, l.exactCountMode = true →
        ∀ i, truthyId (getSel combo l.id) = some i → 0 < q (quotaKey l.id i) := by
  intro layers
  induction layers with
  | nil => intro _ l hl; exact absurd hl (List.not_mem_nil l)
  | cons layer rest ih =>
    intro h l hl hex i hti
    simp only [quotasOkGo] at h
    split at h
    · rcases List.mem_cons.mp hl with hl | hl
      · rename_i hne
        rw [hl] at hex
        rw [hex] at hne
        simp at hne
      · exact ih h l hl hex i hti
    · split at h
      · exact Bool.noConfusion h
      · rename_i itemId heq
        split at h
        · exact Bool.noConfusion h
        · rename_i hle
          rcases List.mem_cons.mp hl with hl | hl
          · rw [hl] at hti
            rw [hti] at heq
            obtain rfl := Option.some.inj heq
            rw [hl]
            omega
          · exact ih h l hl hex i hti

theorem quotasOkGo_insertSel {q : Str → Int} {combo : Combination}
    {bodyId itemId : Nat} (hnz : itemId ≠ 0) :
    ∀ {layers : List Layer}, quotasOkGo q combo layers = true →
      (∀ l ∈ layers, l.id = bodyId → l.exactCountMode = true →
        0 < q (quotaKey bodyId itemId)) →
      quotasOkGo q (insertSel combo bodyId itemId) layers = true := by
  intro layers
  induction layers with
  | nil => intro h _; exact h
  | cons layer rest ih =>
    intro h hq
    simp only [quotasOkGo] at h ⊢
    by_cases hb : (!layer.exactCountMode) = true
    · rw [if_pos hb] at h ⊢
      exact ih h (fun l hl => hq l (List.mem_cons_of_mem layer hl))
    · rw [if_neg hb] at h ⊢
      have hexl : layer.exactCountMode = true := by
        cases hec : layer.exactCountMode with
        | false => rw [hec] at hb; simp at hb
        | true => rfl
      by_cases hid : layer.id = bodyId
      · have hsel : getSel (insertSel combo bodyId itemId) layer.id = some itemId := by
          rw [hid]
          exact getSel_insertSel_self combo bodyId itemId
        have htr : truthyId (getSel (insertSel combo bodyId itemId) layer.id) =
            some itemId := by
          rw [hsel]
          simp [truthyId, hnz]
        rw [htr]
        have hpos := hq layer (List.mem_cons_self layer rest) hid hexl
        rw [hid]
        have hnle : ¬(q (quotaKey bodyId itemId) ≤ 0) := by omega
        show (if q (quotaKey bodyId itemId) ≤ 0 then false
          else quotasOkGo q (insertSel combo bodyId itemId) rest) = true
        rw [if_neg hnle]
        split at h
        · exact Bool.noConfusion h
        · split at h
          · exact Bool.noConfusion h
          · exact ih h (fun l hl => hq l (List.mem_cons_of_mem layer hl))
      · have hsel : getSel (insertSel combo bodyId itemId) layer.id =
            getSel combo layer.id := getSel_insertSel_ne combo bodyId layer.id itemId hid
        rw [hsel]
        split at h
        · exact Bool.noConfusion h
        · rename_i i0 heq0
          split at h
          · exact Bool.noConfusion h
          · rename_i hle0
            rw [if_neg hle0]
            exact ih h (fun l hl => hq l (List.mem_cons_of_mem layer hl))

/-! ### Validity of accepted attempts -/

theorem tryFix_ok_true {ctx : Ctx} {combo : Combination} {rq : Bool} {st : St}
    {c4 : Combination} {st4 : St}
    (h : tryFixBodyToMatchHead ctx combo rq st = (Except.ok (true, c4), st4))
    (hex : respectsExclusionsE ctx combo = Except.ok true)
    (hq : rq = true → combinationRespectsQuotas ctx st.quotas combo = true) :
    respectsExclusionsE ctx c4 = Except.ok true ∧
    (rq = true → (∀ l ∈ ctx.layers, ∀ i ∈ l.items, i.id ≠ 0) →
      (ctx.layers.map Layer.id).Nodup →
      combinationRespectsQuotas ctx st.quotas c4 = true) := by
  simp only [tryFixBodyToMatchHead] at h
  split at h
  · rename_i headLayer bodyLayer hhb
    split at h
    · simp only [Prod.mk.injEq, Except.ok.injEq, true_and] at h
      obtain ⟨h1, h2⟩ := h
      subst h1
      exact ⟨hex, fun hrq _ _ => hq hrq⟩
    · rename_i headItem hfindh
      split at h
      · simp at h
      · rename_i mtch hm
        split at h
        · simp at h
        · rename_i hqc
          split at h
          · simp at h
          · simp at h
          · rename_i hexc
            simp only [Prod.mk.injEq, Except.ok.injEq, true_and] at h
            obtain ⟨hc4, hst4⟩ := h
            subst hc4
            refine ⟨hexc, ?_⟩
            intro hrq hids hnodup
            have hfb : ctx.layers.find? (fun l => testBodyName l.name) = some bodyLayer :=
              congrArg Prod.snd hhb
            have hbmem : bodyLayer ∈ ctx.layers := List.mem_of_find?_eq_some hfb
            have hmmem : mtch ∈ bodyLayer.items := findMatchingItem_mem hm
            have hnz : mtch.id ≠ 0 := hids bodyLayer hbmem mtch hmmem
            have hok : quotasOkGo st.quotas combo ctx.layers = true := hq hrq
            show quotasOkGo st.quotas (insertSel combo bodyLayer.id mtch.id)
              ctx.layers = true
            apply quotasOkGo_insertSel hnz hok
            intro l hl hlid hlex
            have hlb : l = bodyLayer :=
              List.inj_on_of_nodup_map hnodup hl hbmem (by rw [hlid])
            have hbex : bodyLayer.exactCountMode = true := by
              rw [← hlb]
              exact hlex
            rw [hrq, hbex] at hqc
            have hfq : ((findMatchingItem ctx headItem bodyLayer.items
                "color".data st).2).quotas = st.quotas :=
              (qg_findMatchingItem ctx headItem bodyLayer.items _ st).1
            have hnle : ¬((findMatchingItem ctx headItem bodyLayer.items
                "color".data st).2.quotas (quotaKey bodyLayer.id mtch.id) ≤ 0) := by
              simpa using hqc
            rw [hfq] at hnle
            omega
  all_goals
    simp only [Prod.mk.injEq, Except.ok.injEq, true_and] at h
    obtain ⟨h1, h2⟩ := h
    subst h1
    exact ⟨hex, fun hrq _ _ => hq hrq⟩

theorem genAttempt_ok_some {ctx : Ctx} {ub rq : Bool} {st : St} {c : Combination}
    {st' : St} (h : genAttempt ctx ub rq st = (Except.ok (some c), st')) :
    respectsExclusionsE ctx c = Except.ok true ∧
    isHeadBodyCoherent ctx c = true ∧
    (rq = true → (∀ l ∈ ctx.layers, ∀ i ∈ l.items, i.id ≠ 0) →
      (ctx.layers.map Layer.id).Nodup →
      combinationRespectsQuotas ctx st.quotas c = true) := by
  simp only [genAttempt] at h
  split at h
  · simp at h
  · rename_i c1 st1 heq
    split at h
    · simp at h
    · rename_i b3 c3 st3 heq3
      split at h
      · simp at h
      · simp at h
      · rename_i hexcl
        split at h
        · simp at h
        · rename_i hqc
          split at h
          · simp at h
          · simp at h
          · rename_i c4 st4 heq4
            split at h
            · simp at h
            · rename_i hcohb
              simp only [Prod.mk.injEq, Except.ok.injEq, Option.some.injEq] at h
              obtain ⟨hc, hst⟩ := h
              subst hc
              have hq1 : QGEq st st1 := qg_genSourceLayersFold_eq heq
              have hq2 : QGEq st1 (genFreeFold ctx ub rq
                  (List.filter (fun l => (getSel c1 l.id).isNone) ctx.layers)
                  c1 st1).2 := qg_genFreeFold ctx ub rq _ c1 st1
              have hq3 := qg_applyAllMatching_eq heq3
              have hst3 : st3.quotas = st.quotas :=
                (qgeq_trans (qgeq_trans hq1 hq2) hq3).1
              have hq0 : rq = true →
                  combinationRespectsQuotas ctx st3.quotas c3 = true := by
                intro hrq
                rw [hrq] at hqc
                simpa using hqc
              have htf := tryFix_ok_true heq4 hexcl hq0
              have hco : isHeadBodyCoherent ctx c4 = true := by simpa using hcohb
              refine ⟨htf.1, hco, ?_⟩
              intro hrq hids hnodup
              have hqf := htf.2 hrq hids hnodup
              rwa [hst3] at hqf

theorem genLoop_ok {ctx : Ctx} {ub rq : Bool} :
    ∀ (fuel : Nat) (st : St) (c : Combination) (st' : St),
      genLoop ctx ub rq fuel st = (Except.ok c, st') →
      c = [] ∨
        (respectsExclusionsE ctx c = Except.ok true ∧
         isHeadBodyCoherent ctx c = true ∧
         (rq = true → (∀ l ∈ ctx.layers, ∀ i ∈ l.items, i.id ≠ 0) →
           (ctx.layers.map Layer.id).Nodup →
           combinationRespectsQuotas ctx st.quotas c = true)) := by
  intro fuel
  induction fuel with
  | zero =>
    intro st c st' h
    left
    simp only [genLoop, Prod.mk.injEq, Except.ok.injEq] at h
    exact h.1.symm
  | succ n ih =>
    intro st c st' h
    simp only [genLoop] at h
    split at h
    · simp at h
    · rename_i c0 st1 heq
      simp only [Prod.mk.injEq, Except.ok.injEq] at h
      obtain ⟨hc, hst⟩ := h
      subst hc
      right
      exact genAttempt_ok_some heq
    · rename_i st1 heq
      rcases ih st1 c st' h with hr | hr
      · exact Or.inl hr
      · right
        refine ⟨hr.1, hr.2.1, ?_⟩
        intro hrq hids hnodup
        have hqr := hr.2.2 hrq hids hnodup
        rwa [(qg_genAttempt_eq heq).1] at hqr

theorem generateValidCombination_ok {ctx : Ctx} {ub rq : Bool} {st : St}
    {c : Combination} {st' : St}
    (h : generateValidCombination ctx ub rq st = (Except.ok c, st')) :
    c = [] ∨
      (respectsExclusionsE ctx c = Except.ok true ∧
       isHeadBodyCoherent ctx c = true ∧
       (rq = true → (∀ l ∈ ctx.layers, ∀ i ∈ l.items, i.id ≠ 0) →
         (ctx.layers.map Layer.id).Nodup →
         combinationRespectsQuotas ctx st.quotas c = true)) :=
  genLoop_ok 400 st c st' h

/-! ### Preservation of existing selections by the resolver -/

theorem manualFold_preserves {ctx : Ctx} {rq : Bool} :
    ∀ (ms : List ManualMapping) (c : Combination) (ch : Bool) (st : St)
      (c' : Combination) (ch' : Bool) (st' : St),
      manualFold ctx rq ms c ch st = (Except.ok (c', ch'), st') →
      ∀ k v, getSel c k = some v → getSel c' k = some v := by
  intro ms
  induction ms with
  | nil =>
    intro c ch st c' ch' st' h k v hkv
    simp only [manualFold, Prod.mk.injEq, Except.ok.injEq] at h
    obtain ⟨⟨hc, _⟩, _⟩ := h
    rw [← hc]
    exact hkv
  | cons m rest ih =>
    intro c ch st c' ch' st' h k v hkv
    simp only [manualFold] at h
    split at h
    · split at h
      · rename_i hb1 hb2
        split at h
        · split at h
          · simp at h
          · have hkt : k ≠ m.targetLayerId := by
              intro hk
              rw [hk] at hkv
              rw [hkv] at hb2
              simp at hb2
            refine ih _ _ _ _ _ _ h k v ?_
            rw [getSel_insertSel_ne c m.targetLayerId k m.targetItemId hkt]
            exact hkv
          · exact ih _ _ _ _ _ _ h k v hkv
        · exact ih _ _ _ _ _ _ h k v hkv
      · exact ih _ _ _ _ _ _ h k v hkv
    · exact ih _ _ _ _ _ _ h k v hkv

theorem rulesFold_preserves {ctx : Ctx} {rq : Bool} :
    ∀ (rs : List TraitMatchingRule) (c : Combination) (ch : Bool) (st : St)
      (c' : Combination) (ch' : Bool) (st' : St),
      rulesFold ctx rq rs c ch st = (Except.ok (c', ch'), st') →
      ∀ k v, getSel c k = some v → getSel c' k = some v := by
  intro rs
  induction rs with
  | nil =>
    intro c ch st c' ch' st' h k v hkv
    simp only [rulesFold, Prod.mk.injEq, Except.ok.injEq] at h
    obtain ⟨⟨hc, _⟩, _⟩ := h
    rw [← hc]
    exact hkv
  | cons rule rest ih =>
    intro c ch st c' ch' st' h k v hkv
    simp only [rulesFold] at h
    split at h
    · exact ih _ _ _ _ _ _ h k v hkv
    · split at h
      · exact ih _ _ _ _ _ _ h k v hkv
      · rename_i htgt
        split at h
        · rename_i sLayer tLayer hfs hft
          split at h
          · exact ih _ _ _ _ _ _ h k v hkv
          · split at h
            · exact ih _ _ _ _ _ _ h k v hkv
            · split at h
              · exact ih _ _ _ _ _ _ h k v hkv
              · split at h
                · exact ih _ _ _ _ _ _ h k v hkv
                · split at h
                  · simp at h
                  · exact ih _ _ _ _ _ _ h k v hkv
                  · rename_i chosenItem st1 hchoose xe hexc
                    have htid2 : tLayer.id = rule.targetLayerId := by
                      simpa using List.find?_some hft
                    have hkt : k ≠ tLayer.id := by
                      intro hk
                      rw [hk, htid2] at hkv
                      rw [hkv] at htgt
                      simp at htgt
                    refine ih _ _ _ _ _ _ h k v ?_
                    rw [getSel_insertSel_ne c tLayer.id k chosenItem.id hkt]
                    exact hkv
        · exact ih _ _ _ _ _ _ h k v hkv

theorem applyPasses_preserves {ctx : Ctx} {rq : Bool}
    {rules : List TraitMatchingRule} :
    ∀ (n : Nat) (c : Combination) (ch : Bool) (st : St)
      (c' : Combination) (ch' : Bool) (st' : St),
      applyPasses ctx rq rules n c ch st = (Except.ok (c', ch'), st') →
      ∀ k v, getSel c k = some v → getSel c' k = some v := by
  intro n
  induction n with
  | zero =>
    intro c ch st c' ch' st' h k v hkv
    simp only [applyPasses, Prod.mk.injEq, Except.ok.injEq] at h
    obtain ⟨⟨hc, _⟩, _⟩ := h
    rw [← hc]
    exact hkv
  | succ n ih =>
    intro c ch st c' ch' st' h k v hkv
    simp only [applyPasses] at h
    split at h
    · simp at h
    · rename_i c1 pc1 st1 hmf
      split at h
      · simp at h
      · rename_i c2 pc2 st2 hrf
        have h1 := manualFold_preserves _ _ _ _ _ _ _ hmf k v hkv
        have h2 := rulesFold_preserves _ _ _ _ _ _ _ hrf k v h1
        split at h
        · exact ih _ _ _ _ _ _ h k v h2
        · simp only [Prod.mk.injEq, Except.ok.injEq] at h
          obtain ⟨⟨hc, _⟩, _⟩ := h
          rw [← hc]
          exact h2

theorem applyAllMatching_preserves {ctx : Ctx} {c : Combination} {rq : Bool}
    {st : St} {chg : Bool} {c' : Combination} {st' : St}
    (h : applyAllMatching ctx c rq st = (Except.ok (chg, c'), st')) :
    ∀ k v, getSel c k = some v → getSel c' k = some v := by
  simp only [applyAllMatching] at h
  split at h
  · simp at h
  · rename_i c2 ch2 st1 hap
    simp only [Prod.mk.injEq, Except.ok.injEq] at h
    obtain ⟨⟨_, hc⟩, _⟩ := h
    intro k v hkv
    rw [← hc]
    exact applyPasses_preserves _ _ _ _ _ _ _ hap k v hkv

/-! ### Application and skipping of manual mappings -/

/-- A manual mapping fires on a combination when its source item is the
current selection of its source layer, its target layer is unassigned, and
it passes the quota test. -/
def firesOn (ctx : Ctx) (rq : Bool) (st : St) (c : Combination)
    (m : ManualMapping) : Prop :=
  (getSel c m.sourceLayerId == some m.sourceItemId) = true ∧
  (getSel c m.targetLayerId).isNone = true ∧
  quotaCond ctx rq st m = true

instance (ctx : Ctx) (rq : Bool) (st : St) (c : Combination) (m : ManualMapping) :
    Decidable (firesOn ctx rq st c m) := by
  unfold firesOn
  infer_instance

theorem manualFold_applies {ctx : Ctx} {rq : Bool} (m : ManualMapping) :
    ∀ (pre post : List ManualMapping) (c : Combination) (ch : Bool) (st : St)
      (c' : Combination) (ch' : Bool) (st' : St),
      (∀ m2 ∈ pre, ¬firesOn ctx rq st c m2) →
      getSel c m.sourceLayerId = some m.sourceItemId →
      getSel c m.targetLayerId = none →
      quotaCond ctx rq st m = true →
      respectsExclusionsE ctx (insertSel c m.targetLayerId m.targetItemId) =
        Except.ok true →
      manualFold ctx rq (pre ++ m :: post) c ch st = (Except.ok (c', ch'), st') →
      getSel c' m.targetLayerId = some m.targetItemId := by
  intro pre
  induction pre with
  | nil =>
    intro post c ch st c' ch' st' hpre hsrc htgt hqc hexc h
    simp only [List.nil_append, manualFold, hsrc, htgt, hqc, hexc, beq_self_eq_true,
      Option.isNone_none, if_true] at h
    exact manualFold_preserves _ _ _ _ _ _ _ h m.targetLayerId m.targetItemId
      (getSel_insertSel_self c m.targetLayerId m.targetItemId)
  | cons m2 pre ih =>
    intro post c ch st c' ch' st' hpre hsrc htgt hqc hexc h
    have hm2 := hpre m2 (List.mem_cons_self m2 pre)
    have hrest : ∀ m3 ∈ pre, ¬firesOn ctx rq st c m3 :=
      fun m3 hm3 => hpre m3 (List.mem_cons_of_mem m2 hm3)
    simp only [List.cons_append, manualFold] at h
    by_cases hb1 : (getSel c m2.sourceLayerId == some m2.sourceItemId) = true
    · rw [if_pos hb1] at h
      by_cases hb2 : (getSel c m2.targetLayerId).isNone = true
      · rw [if_pos hb2] at h
        by_cases hb3 : quotaCond ctx rq st m2 = true
        · exact absurd ⟨hb1, hb2, hb3⟩ hm2
        · rw [if_neg hb3] at h
          exact ih post c ch st c' ch' st' hrest hsrc htgt hqc hexc h
      · rw [if_neg hb2] at h
        exact ih post c ch st c' ch' st' hrest hsrc htgt hqc hexc h
    · rw [if_neg hb1] at h
      exact ih post c ch st c' ch' st' hrest hsrc htgt hqc hexc h

theorem manualFold_skips {ctx : Ctx} {rq : Bool} (m : ManualMapping) :
    ∀ (pre post : List ManualMapping) (c : Combination) (ch : Bool) (st : St),
      (∀ m2 ∈ pre, ¬firesOn ctx rq st c m2) →
      getSel c m.sourceLayerId = some m.sourceItemId →
      getSel c m.targetLayerId = none →
      quotaCond ctx rq st m = true →
      respectsExclusionsE ctx (insertSel c m.targetLayerId m.targetItemId) =
        Except.ok false →
      manualFold ctx rq (pre ++ m :: post) c ch st =
        manualFold ctx rq post c ch st := by
  intro pre
  induction pre with
  | nil =>
    intro post c ch st hpre hsrc htgt hqc hexc
    simp only [List.nil_append, manualFold, hsrc, htgt, hqc, hexc, beq_self_eq_true,
      Option.isNone_none, if_true]
  | cons m2 pre ih =>
    intro post c ch st hpre hsrc htgt hqc hexc
    have hm2 := hpre m2 (List.mem_cons_self m2 pre)
    have hrest : ∀ m3 ∈ pre, ¬firesOn ctx rq st c m3 :=
      fun m3 hm3 => hpre m3 (List.mem_cons_of_mem m2 hm3)
    simp only [List.cons_append, manualFold]
    by_cases hb1 : (getSel c m2.sourceLayerId == some m2.sourceItemId) = true
    · rw [if_pos hb1]
      by_cases hb2 : (getSel c m2.targetLayerId).isNone = true
      · rw [if_pos hb2]
        by_cases hb3 : quotaCond ctx rq st m2 = true
        · exact absurd ⟨hb1, hb2, hb3⟩ hm2
        · rw [if_neg hb3]
          exact ih post c ch st hrest hsrc htgt hqc hexc
      · rw [if_neg hb2]
        exact ih post c ch st hrest hsrc htgt hqc hexc
    · rw [if_neg hb1]
      exact ih post c ch st hrest hsrc htgt hqc hexc

theorem applyPasses_manual_first {ctx : Ctx} {rq : Bool}
    {rules : List TraitMatchingRule} (m : ManualMapping)
    (pre post : List ManualMapping) (n : Nat) {c : Combination} {st : St}
    {c2 : Combination} {ch2 : Bool} {st1 : St}
    (hsplit : ctx.manualMappings = pre ++ m :: post)
    (hpre : ∀ m2 ∈ pre, ¬firesOn ctx rq st c m2)
    (hsrc : getSel c m.sourceLayerId = some m.sourceItemId)
    (htgt : getSel c m.targetLayerId = none)
    (hqc : quotaCond ctx rq st m = true)
    (hexc : respectsExclusionsE ctx (insertSel c m.targetLayerId m.targetItemId) =
      Except.ok true)
    (hap : applyPasses ctx rq rules (n + 1) c false st = (Except.ok (c2, ch2), st1)) :
    getSel c2 m.targetLayerId = some m.targetItemId := by
  simp only [applyPasses] at hap
  split at hap
  · simp at hap
  · rename_i c1 pc1 st1a hmf
    split at hap
    · simp at hap
    · rename_i c2a pc2 st2a hrf
      rw [hsplit] at hmf
      have hc1 : getSel c1 m.targetLayerId = some m.targetItemId :=
        manualFold_applies m pre post c false st c1 pc1 st1a hpre hsrc htgt hqc
          hexc hmf
      have hc2a : getSel c2a m.targetLayerId = some m.targetItemId :=
        rulesFold_preserves _ _ _ _ _ _ _ hrf _ _ hc1
      split at hap
      · exact applyPasses_preserves _ _ _ _ _ _ _ hap _ _ hc2a
      · simp only [Prod.mk.injEq, Except.ok.injEq] at hap
        obtain ⟨⟨hcc, _⟩, _⟩ := hap
        rw [← hcc]
        exact hc2a

theorem applyAllMatching_manual_first {ctx : Ctx} {rq : Bool} {c : Combination}
    {st : St} {chg : Bool} {c' : Combination} {st' : St} (m : ManualMapping)
    (pre post : List ManualMapping)
    (hsplit : ctx.manualMappings = pre ++ m :: post)
    (hpre : ∀ m2 ∈ pre, ¬firesOn ctx rq st c m2)
    (hsrc : getSel c m.sourceLayerId = some m.sourceItemId)
    (htgt : getSel c m.targetLayerId = none)
    (hqc : quotaCond ctx rq st m = true)
    (hexc : respectsExclusionsE ctx (insertSel c m.targetLayerId m.targetItemId) =
      Except.ok true)
    (h : applyAllMatching ctx c rq st = (Except.ok (chg, c'), st')) :
    getSel c' m.targetLayerId = some m.targetItemId := by
  simp only [applyAllMatching] at h
  split at h
  · simp at h
  · rename_i c2 ch2 st1 hap
    simp only [Prod.mk.injEq, Except.ok.injEq] at h
    obtain ⟨⟨_, hc⟩, _⟩ := h
    rw [← hc]
    exact applyPasses_manual_first m pre post 2 hsplit hpre hsrc htgt hqc hexc hap

/-! ### Quota decrement lemmas and the batch quota invariant -/

theorem qg_batchGenOne (ctx : Ctx) (ur : Bool) (st : St) :
    QGEq st (batchGenOne ctx ur st).2 := by
  simp only [batchGenOne]
  split
  · split
    · rename_i heq
      exact qg_generateValidCombination_eq heq
    · rename_i heq
      exact qg_generateValidCombination_eq heq
  · split
    · rename_i heq
      exact qgeq_trans (qg_batchNoRulesBuild ctx ctx.layers [] st)
        (qg_applyAllMatching_eq heq)
    · rename_i heq
      exact qgeq_trans (qg_batchNoRulesBuild ctx ctx.layers [] st)
        (qg_applyAllMatching_eq heq)

theorem qg_batchGenOne_eq {ctx : Ctx} {ur : Bool} {st : St}
    {o : Option Combination} {st' : St}
    (h : batchGenOne ctx ur st = (o, st')) : QGEq st st' := by
  have hq := qg_batchGenOne ctx ur st
  rw [h] at hq
  exact hq

theorem batchGenOne_true_some {ctx : Ctx} {st : St} {c : Combination} {st' : St}
    (h : batchGenOne ctx true st = (some c, st')) :
    generateValidCombination ctx true true st = (Except.ok c, st') := by
  simp only [batchGenOne, if_true] at h
  split at h
  · simp at h
  · rename_i c0 s0 heq
    simp only [Prod.mk.injEq, Option.some.injEq] at h
    obtain ⟨hc, hs⟩ := h
    rw [← hc, ← hs]
    exact heq

theorem decQuotasGo_pointwise {combo : Combination} :
    ∀ (layers : List Layer) (q : Str → Int),
      (∀ k, 0 ≤ q k) →
      ∀ k, 0 ≤ decQuotasGo combo layers q k ∧ decQuotasGo combo layers q k ≤ q k := by
  intro layers
  induction layers with
  | nil => intro q hnn k; exact ⟨hnn k, le_refl _⟩
  | cons layer rest ih =>
    intro q hnn k
    simp only [decQuotasGo]
    split
    · exact ih q hnn k
    · cases htr : truthyId (getSel combo layer.id) with
      | none =>
        simp only [htr]
        exact ih q hnn k
      | some itemId =>
        simp only [htr]
        have hq' : ∀ k2, 0 ≤ (fun k3 => if k3 = quotaKey layer.id itemId then
            max 0 (q (quotaKey layer.id itemId) - 1) else q k3) k2 := by
          intro k2
          show 0 ≤ if k2 = quotaKey layer.id itemId then
            max 0 (q (quotaKey layer.id itemId) - 1) else q k2
          split
          · omega
          · exact hnn k2
        obtain ⟨h1, h2⟩ := ih _ hq' k
        refine ⟨h1, le_trans h2 ?_⟩
        show (if k = quotaKey layer.id itemId then
          max 0 (q (quotaKey layer.id itemId) - 1) else q k) ≤ q k
        split
        · rename_i hk
          rw [hk]
          have := hnn (quotaKey layer.id itemId)
          omega
        · exact le_refl _

theorem decQuotasGo_untouched {combo : Combination} {key : Str} :
    ∀ (layers : List Layer) (q : Str → Int),
      (∀ l ∈ layers, l.exactCountMode = true →
        ∀ i, truthyId (getSel combo l.id) = some i → quotaKey l.id i ≠ key) →
      decQuotasGo combo layers q key = q key := by
  intro layers
  induction layers with
  | nil => intro q _; rfl
  | cons layer rest ih =>
    intro q hno
    have hno' : ∀ l ∈ rest, l.exactCountMode = true →
        ∀ i, truthyId (getSel combo l.id) = some i → quotaKey l.id i ≠ key :=
      fun l hl => hno l (List.mem_cons_of_mem layer hl)
    simp only [decQuotasGo]
    split
    · exact ih q hno'
    · rename_i hnb
      have hexl : layer.exactCountMode = true := by
        cases hec : layer.exactCountMode with
        | false => rw [hec] at hnb; simp at hnb
        | true => rfl
      cases htr : truthyId (getSel combo layer.id) with
      | none =>
        simp only [htr]
        exact ih q hno'
      | some itemId =>
        simp only [htr]
        have hne := hno layer (List.mem_cons_self layer rest) hexl itemId htr
        rw [ih _ hno']
        show (if key = quotaKey layer.id itemId then
          max 0 (q (quotaKey layer.id itemId) - 1) else q key) = q key
        rw [if_neg (fun he => hne he.symm)]

theorem decQuotasGo_at_key {combo : Combination} {L : Layer} {I : Nat}
    (hexL : L.exactCountMode = true) :
    ∀ (layers : List Layer), (layers.map Layer.id).Nodup → L ∈ layers →
      ∀ (q : Str → Int),
      (truthyId (getSel combo L.id) = some I →
        decQuotasGo combo layers q (quotaKey L.id I) =
          max 0 (q (quotaKey L.id I) - 1)) ∧
      (truthyId (getSel combo L.id) ≠ some I →
        decQuotasGo combo layers q (quotaKey L.id I) = q (quotaKey L.id I)) := by
  intro layers
  induction layers with
  | nil => intro _ hL; exact absurd hL (List.not_mem_nil L)
  | cons layer rest ih =>
    intro hnodup hL q
    simp only [List.map_cons] at hnodup
    obtain ⟨hhead, htail⟩ := List.nodup_cons.mp hnodup
    rcases List.mem_cons.mp hL with hLeq | hLmem
    · subst hLeq
      have hrest : ∀ l ∈ rest, l.exactCountMode = true →
          ∀ i, truthyId (getSel combo l.id) = some i →
            quotaKey l.id i ≠ quotaKey L.id I := by
        intro l hl _ i _ he
        have hid := (quotaKey_inj he).1
        exact hhead (hid ▸ List.mem_map_of_mem Layer.id hl)
      constructor
      · intro htr
        simp only [decQuotasGo, hexL, Bool.not_true, Bool.false_eq_true, if_false,
          htr]
        rw [decQuotasGo_untouched rest _ hrest]
        show (if quotaKey L.id I = quotaKey L.id I then
          max 0 (q (quotaKey L.id I) - 1) else q (quotaKey L.id I)) =
          max 0 (q (quotaKey L.id I) - 1)
        rw [if_pos rfl]
      · intro hntr
        cases htr : truthyId (getSel combo L.id) with
        | none =>
          simp only [decQuotasGo, hexL, Bool.not_true, Bool.false_eq_true, if_false,
            htr]
          exact decQuotasGo_untouched rest q hrest
        | some i0 =>
          have hi0 : i0 ≠ I := by
            intro he
            rw [he] at htr
            exact hntr htr
          simp only [decQuotasGo, hexL, Bool.not_true, Bool.false_eq_true, if_false,
            htr]
          rw [decQuotasGo_untouched rest _ hrest]
          show (if quotaKey L.id I = quotaKey L.id i0 then
            max 0 (q (quotaKey L.id i0) - 1) else q (quotaKey L.id I)) =
            q (quotaKey L.id I)
          rw [if_neg (fun he => hi0 (quotaKey_inj he).2.symm)]
    · have hidne : layer.id ≠ L.id := by
        intro he
        exact hhead (he ▸ List.mem_map_of_mem Layer.id hLmem)
      simp only [decQuotasGo]
      split
      · exact ih htail hLmem q
      · cases htr0 : truthyId (getSel combo layer.id) with
        | none =>
          simp only [htr0]
          exact ih htail hLmem q
        | some i0 =>
          simp only [htr0]
          have hkne : ¬(quotaKey L.id I = quotaKey layer.id i0) :=
            fun he => hidne ((quotaKey_inj he).1.symm)
          obtain ⟨ih1, ih2⟩ := ih htail hLmem (fun k => if k = quotaKey layer.id i0
            then max 0 (q (quotaKey layer.id i0) - 1) else q k)
          constructor
          · intro htr
            rw [ih1 htr]
            simp [hkne]
          · intro hntr
            rw [ih2 hntr]
            simp [hkne]

/-- The number of combinations in a list whose (truthy) selection of a layer
is a given item. -/
def countSel (combos : List Combination) (lid iid : Nat) : Nat :=
  (combos.filter (fun c => truthyId (getSel c lid) == some iid)).length

theorem countSel_append_pos {combos : List Combination} {c : Combination}
    {lid iid : Nat} (h : truthyId (getSel c lid) = some iid) :
    countSel (combos ++ [c]) lid iid = countSel combos lid iid + 1 := by
  have hb : (truthyId (getSel c lid) == some iid) = true := beq_iff_eq.mpr h
  simp [countSel, List.filter_append, List.filter, hb]

theorem countSel_append_neg {combos : List Combination} {c : Combination}
    {lid iid : Nat} (h : truthyId (getSel c lid) ≠ some iid) :
    countSel (combos ++ [c]) lid iid = countSel combos lid iid := by
  have hb : (truthyId (getSel c lid) == some iid) = false := beq_eq_false_iff_ne.mpr h
  simp [countSel, List.filter_append, List.filter, hb]

theorem batchLoop_quota {ctx : Ctx} {bs : Nat} {ur : Bool} {signal : Nat → Bool}
    (L : Layer) (I : Nat) (hnodup : (ctx.layers.map Layer.id).Nodup)
    (hL : L ∈ ctx.layers) (hex : L.exactCountMode = true) :
    ∀ (fuel attempts : Nat) (combos : List Combination) (hashes : List Str)
      (st : St) (out : List Combination) (outH : List Str) (st' : St),
      (∀ k, 0 ≤ st.quotas k) →
      batchLoop ctx bs ur signal fuel attempts combos hashes st =
        (Except.ok (out, outH), st') →
      (∀ k, 0 ≤ st'.quotas k ∧ st'.quotas k ≤ st.quotas k) ∧
      countSel out L.id I + (st'.quotas (quotaKey L.id I)).toNat ≤
        countSel combos L.id I + (st.quotas (quotaKey L.id I)).toNat := by
  intro fuel
  induction fuel with
  | zero =>
    intro attempts combos hashes st out outH st' hnn h
    simp only [batchLoop, Prod.mk.injEq, Except.ok.injEq] at h
    obtain ⟨⟨hout, _⟩, hst⟩ := h
    subst hout
    subst hst
    exact ⟨fun k => ⟨hnn k, le_refl _⟩, le_refl _⟩
  | succ n ih =>
    intro attempts combos hashes st out outH st' hnn h
    simp only [batchLoop] at h
    split at h
    · simp only [Prod.mk.injEq, Except.ok.injEq] at h
      obtain ⟨⟨hout, _⟩, hst⟩ := h
      subst hout
      subst hst
      exact ⟨fun k => ⟨hnn k, le_refl _⟩, le_refl _⟩
    · split at h
      · simp at h
      · split at h
        · rename_i st1 heq
          have hfr : st1.quotas = st.quotas := (qg_batchGenOne_eq heq).1
          have hnn1 : ∀ k, 0 ≤ st1.quotas k := fun k => by rw [hfr]; exact hnn k
          obtain ⟨hb, hc⟩ := ih (attempts + 1) combos hashes st1 out outH st' hnn1 h
          refine ⟨fun k => ?_, ?_⟩
          · have hk := hb k
            rw [hfr] at hk
            exact hk
          · rw [hfr] at hc
            exact hc
        · rename_i combination st1 heq
          have hfr : st1.quotas = st.quotas := (qg_batchGenOne_eq heq).1
          have hnn1 : ∀ k, 0 ≤ st1.quotas k := fun k => by rw [hfr]; exact hnn k
          split at h
          · obtain ⟨hb, hc⟩ := ih (attempts + 1) combos hashes st1 out outH st' hnn1 h
            refine ⟨fun k => ?_, ?_⟩
            · have hk := hb k
              rw [hfr] at hk
              exact hk
            · rw [hfr] at hc
              exact hc
          · split at h
            · split at h
              · rename_i hqok
                have hst2 : (decrementQuotasForCombination ctx combination
                    (updateTraitUsage combination st1)).quotas =
                    decQuotasGo combination ctx.layers st1.quotas := rfl
                have hnn2 : ∀ k, 0 ≤ (decrementQuotasForCombination ctx combination
                    (updateTraitUsage combination st1)).quotas k := by
                  intro k
                  rw [hst2]
                  exact (decQuotasGo_pointwise ctx.layers st1.quotas hnn1 k).1
                obtain ⟨hb, hc⟩ := ih (attempts + 1) (combos ++ [combination])
                  (hashes ++ [createCombinationHash combination]) _ out outH st'
                  hnn2 h
                have hdp : ∀ k, 0 ≤ decQuotasGo combination ctx.layers st1.quotas k ∧
                    decQuotasGo combination ctx.layers st1.quotas k ≤ st1.quotas k :=
                  decQuotasGo_pointwise ctx.layers st1.quotas hnn1
                refine ⟨fun k => ?_, ?_⟩
                · have hk := hb k
                  rw [hst2] at hk
                  exact ⟨hk.1, le_trans hk.2 (le_trans (hdp k).2
                    (le_of_eq (congrFun hfr k)))⟩
                · by_cases hsel : truthyId (getSel combination L.id) = some I
                  · rw [countSel_append_pos hsel] at hc
                    have hdec := (decQuotasGo_at_key hex ctx.layers hnodup hL
                      st1.quotas).1 hsel
                    have hpos : 0 < st1.quotas (quotaKey L.id I) :=
                      quotasOkGo_pos hqok L hL hex I hsel
                    rw [hst2, hdec] at hc
                    rw [hfr] at hc hpos
                    omega
                  · rw [countSel_append_neg hsel] at hc
                    have hdec := (decQuotasGo_at_key hex ctx.layers hnodup hL
                      st1.quotas).2 hsel
                    rw [hst2, hdec] at hc
                    rw [hfr] at hc
                    omega
              · obtain ⟨hb, hc⟩ := ih (attempts + 1) combos hashes st1 out outH st'
                  hnn1 h
                refine ⟨fun k => ?_, ?_⟩
                · have hk := hb k
                  rw [hfr] at hk
                  exact hk
                · rw [hfr] at hc
                  exact hc
            · obtain ⟨hb, hc⟩ := ih (attempts + 1) combos hashes st1 out outH st'
                hnn1 h
              refine ⟨fun k => ?_, ?_⟩
              · have hk := hb k
                rw [hfr] at hk
                exact hk
              · rw [hfr] at hc
                exact hc

theorem generateBatchCombinations_quota {ctx : Ctx} {bs : Nat} {ur : Bool}
    {signal : Nat → Bool} {st : St} {out : List Combination} {st' : St}
    {L : Layer} {I : Nat} (hnodup : (ctx.layers.map Layer.id).Nodup)
    (hL : L ∈ ctx.layers) (hex : L.exactCountMode = true)
    (hnn : ∀ k, 0 ≤ st.quotas k)
    (h : generateBatchCombinations ctx bs ur signal st = (Except.ok out, st')) :
    (∀ k, 0 ≤ st'.quotas k ∧ st'.quotas k ≤ st.quotas k) ∧
    countSel out L.id I ≤ (st.quotas (quotaKey L.id I)).toNat := by
  simp only [generateBatchCombinations] at h
  split at h
  · simp at h
  · rename_i combinations batchHashes st1 heq
    simp only [Prod.mk.injEq, Except.ok.injEq] at h
    obtain ⟨hout, hst⟩ := h
    subst hout
    obtain ⟨hb, hc⟩ := batchLoop_quota L I hnodup hL hex _ _ _ _ _ _ _ _ hnn heq
    have hq : st'.quotas = st1.quotas := by rw [← hst]
    constructor
    · intro k
      rw [hq]
      exact hb k
    · have h0 : countSel ([] : List Combination) L.id I = 0 := rfl
      rw [h0] at hc
      have := (hb (quotaKey L.id I)).1
      omega

/-! ### The batch hash invariant and predicate transport -/

theorem not_mem_of_contains_eq_false {α : Type} [BEq α] [LawfulBEq α]
    {l : List α} {a : α} (h : l.contains a = false) : a ∉ l := by
  intro hm
  rw [List.contains_eq_any_beq] at h
  have ha : l.any (fun x => a == x) = true :=
    List.any_eq_true.mpr ⟨a, hm, beq_self_eq_true a⟩
  rw [ha] at h
  exact Bool.noConfusion h

theorem batchLoop_hashes {ctx : Ctx} {bs : Nat} {ur : Bool} {signal : Nat → Bool} :
    ∀ (fuel attempts : Nat) (combos : List Combination) (hashes : List Str)
      (st : St) (out : List Combination) (outH : List Str) (st' : St),
      batchLoop ctx bs ur signal fuel attempts combos hashes st =
        (Except.ok (out, outH), st') →
      hashes = combos.map createCombinationHash →
      hashes.Nodup →
      outH = out.map createCombinationHash ∧ outH.Nodup ∧
        (∀ x ∈ outH, x ∈ hashes ∨ x ∉ st.generated) ∧
        st'.generated = st.generated := by
  intro fuel
  induction fuel with
  | zero =>
    intro attempts combos hashes st out outH st' h hmap hnd
    simp only [batchLoop, Prod.mk.injEq, Except.ok.injEq] at h
    obtain ⟨⟨hout, houtH⟩, hst⟩ := h
    subst hout
    subst houtH
    subst hst
    exact ⟨hmap, hnd, fun x hx => Or.inl hx, rfl⟩
  | succ n ih =>
    intro attempts combos hashes st out outH st' h hmap hnd
    simp only [batchLoop] at h
    split at h
    · simp only [Prod.mk.injEq, Except.ok.injEq] at h
      obtain ⟨⟨hout, houtH⟩, hst⟩ := h
      subst hout
      subst houtH
      subst hst
      exact ⟨hmap, hnd, fun x hx => Or.inl hx, rfl⟩
    · split at h
      · simp at h
      · split at h
        · rename_i st1 heq
          have hfr : st1.generated = st.generated := (qg_batchGenOne_eq heq).2
          obtain ⟨h1, h2, h3, h4⟩ := ih (attempts + 1) combos hashes st1 out outH
            st' h hmap hnd
          refine ⟨h1, h2, ?_, h4.trans hfr⟩
          intro x hx
          rcases h3 x hx with hx2 | hx2
          · exact Or.inl hx2
          · rw [hfr] at hx2
            exact Or.inr hx2
        · rename_i combination st1 heq
          have hfr : st1.generated = st.generated := (qg_batchGenOne_eq heq).2
          split at h
          · obtain ⟨h1, h2, h3, h4⟩ := ih (attempts + 1) combos hashes st1 out outH
              st' h hmap hnd
            refine ⟨h1, h2, ?_, h4.trans hfr⟩
            intro x hx
            rcases h3 x hx with hx2 | hx2
            · exact Or.inl hx2
            · rw [hfr] at hx2
              exact Or.inr hx2
          · split at h
            · rename_i hnew
              have hnew2 : createCombinationHash combination ∉ hashes ∧
                  createCombinationHash combination ∉ st1.generated := by
                have hb := hnew
                simp only [Bool.and_eq_true, Bool.not_eq_true'] at hb
                exact ⟨not_mem_of_contains_eq_false hb.1,
                  not_mem_of_contains_eq_false hb.2⟩
              split at h
              · have hst2 : (decrementQuotasForCombination ctx combination
                    (updateTraitUsage combination st1)).generated =
                    st1.generated := rfl
                have hmap2 : hashes ++ [createCombinationHash combination] =
                    (combos ++ [combination]).map createCombinationHash := by
                  rw [List.map_append, hmap]
                  rfl
                have hnd2 : (hashes ++ [createCombinationHash combination]).Nodup := by
                  simp [List.nodup_append, hnd, hnew2.1]
                obtain ⟨h1, h2, h3, h4⟩ := ih (attempts + 1) (combos ++ [combination])
                  (hashes ++ [createCombinationHash combination]) _ out outH st' h
                  hmap2 hnd2
                refine ⟨h1, h2, ?_, (h4.trans hst2).trans hfr⟩
                intro x hx
                rcases h3 x hx with hx2 | hx2
                · rcases List.mem_append.mp hx2 with hx3 | hx3
                  · exact Or.inl hx3
                  · have hxh : x = createCombinationHash combination := by
                      simpa using hx3
                    rw [hxh]
                    rw [hfr] at hnew2
                    exact Or.inr hnew2.2
                · rw [hst2, hfr] at hx2
                  exact Or.inr hx2
              · obtain ⟨h1, h2, h3, h4⟩ := ih (attempts + 1) combos hashes st1 out
                  outH st' h hmap hnd
                refine ⟨h1, h2, ?_, h4.trans hfr⟩
                intro x hx
                rcases h3 x hx with hx2 | hx2
                · exact Or.inl hx2
                · rw [hfr] at hx2
                  exact Or.inr hx2
            · obtain ⟨h1, h2, h3, h4⟩ := ih (attempts + 1) combos hashes st1 out
                outH st' h hmap hnd
              refine ⟨h1, h2, ?_, h4.trans hfr⟩
              intro x hx
              rcases h3 x hx with hx2 | hx2
              · exact Or.inl hx2
              · rw [hfr] at hx2
                exact Or.inr hx2

theorem generateBatchCombinations_hashes {ctx : Ctx} {bs : Nat} {ur : Bool}
    {signal : Nat → Bool} {st : St} {out : List Combination} {st' : St}
    (h : generateBatchCombinations ctx bs ur signal st = (Except.ok out, st')) :
    (out.map createCombinationHash).Nodup ∧
    (∀ x ∈ out.map createCombinationHash, x ∉ st.generated) ∧
    st'.generated = st.generated ++ out.map createCombinationHash := by
  simp only [generateBatchCombinations] at h
  split at h
  · simp at h
  · rename_i combinations batchHashes st1 heq
    simp only [Prod.mk.injEq, Except.ok.injEq] at h
    obtain ⟨hout, hst⟩ := h
    subst hout
    obtain ⟨h1, h2, h3, h4⟩ := batchLoop_hashes _ _ _ _ _ _ _ _ heq rfl List.nodup_nil
    subst h1
    refine ⟨h2, ?_, ?_⟩
    · intro x hx
      rcases h3 x hx with hx2 | hx2
      · exact absurd hx2 (List.not_mem_nil x)
      · exact hx2
    · rw [← hst]
      show st1.generated ++ combinations.map createCombinationHash =
        st.generated ++ combinations.map createCombinationHash
      rw [h4]

theorem batchLoop_pred {ctx : Ctx} {bs : Nat} {signal : Nat → Bool}
    (P : Combination → Prop)
    (hgen : ∀ (st : St) (c : Combination) (st' : St),
      generateValidCombination ctx true true st = (Except.ok c, st') → c ≠ [] → P c) :
    ∀ (fuel attempts : Nat) (combos : List Combination) (hashes : List Str)
      (st : St) (out : List Combination) (outH : List Str) (st' : St),
      batchLoop ctx bs true signal fuel attempts combos hashes st =
        (Except.ok (out, outH), st') →
      (∀ c ∈ combos, P c) → ∀ c ∈ out, P c := by
  intro fuel
  induction fuel with
  | zero =>
    intro attempts combos hashes st out outH st' h hall
    simp only [batchLoop, Prod.mk.injEq, Except.ok.injEq] at h
    obtain ⟨⟨hout, _⟩, _⟩ := h
    subst hout
    exact hall
  | succ n ih =>
    intro attempts combos hashes st out outH st' h hall
    simp only [batchLoop] at h
    split at h
    · simp only [Prod.mk.injEq, Except.ok.injEq] at h
      obtain ⟨⟨hout, _⟩, _⟩ := h
      subst hout
      exact hall
    · split at h
      · simp at h
      · split at h
        · exact ih _ _ _ _ _ _ _ h hall
        · rename_i combination st1 heq
          split at h
          · exact ih _ _ _ _ _ _ _ h hall
          · rename_i hlen
            have hne : combination ≠ [] := by
              intro he
              rw [he] at hlen
              exact hlen rfl
            have hP : P combination :=
              hgen st combination st1 (batchGenOne_true_some heq) hne
            have hall2 : ∀ c ∈ combos ++ [combination], P c := by
              intro c hc
              rcases List.mem_append.mp hc with hc2 | hc2
              · exact hall c hc2
              · have : c = combination := by simpa using hc2
                rw [this]
                exact hP
            split at h
            · split at h
              · exact ih _ _ _ _ _ _ _ h hall2
              · exact ih _ _ _ _ _ _ _ h hall
            · exact ih _ _ _ _ _ _ _ h hall

theorem generateBatchCombinations_pred {ctx : Ctx} {bs : Nat} {signal : Nat → Bool}
    {st : St} {out : List Combination} {st' : St} (P : Combination → Prop)
    (hgen : ∀ (st : St) (c : Combination) (st' : St),
      generateValidCombination ctx true true st = (Except.ok c, st') → c ≠ [] → P c)
    (h : generateBatchCombinations ctx bs true signal st = (Except.ok out, st')) :
    ∀ c ∈ out, P c := by
  simp only [generateBatchCombinations] at h
  split at h
  · simp at h
  · rename_i combinations batchHashes st1 heq
    simp only [Prod.mk.injEq, Except.ok.injEq] at h
    obtain ⟨hout, _⟩ := h
    subst hout
    exact batchLoop_pred P hgen _ _ _ _ _ _ _ _ heq (fun c hc =>
      absurd hc (List.not_mem_nil c))

/-! ### Head and body coherence unfolding and wordless extraction -/

theorem isHeadBodyCoherent_families {ctx : Ctx} {c : Combination}
    (h : isHeadBodyCoherent ctx c = true)
    {headLayer bodyLayer : Layer}
    (hhb : getHeadBodyLayers ctx = (some headLayer, some bodyLayer))
    {headId bodyId : Nat}
    (hh : truthyId (getSel c headLayer.id) = some headId)
    (hb : truthyId (getSel c bodyLayer.id) = some bodyId)
    {headItem bodyItem : LayerItem}
    (hfh : headLayer.items.find? (fun i => i.id == headId) = some headItem)
    (hfb : bodyLayer.items.find? (fun i => i.id == bodyId) = some bodyItem)
    {hf bf : Str}
    (hcf : colorFamilyFromName headItem.name = some hf)
    (hcb : colorFamilyFromName bodyItem.name = some bf) : hf = bf := by
  simp only [isHeadBodyCoherent, hhb, hh, hb, hfh, hfb, hcf, hcb] at h
  exact eq_of_beq h

theorem extractProperty_of_no_words {itemName : Str} (p : Str)
    (hw : jsWords itemName = []) : extractProperty itemName p = none := by
  simp only [extractProperty, hw]
  split
  · simp
  · simp

theorem exRuleCheck_error_of_no_words {ctx : Ctx} {c : Combination}
    {rule : TraitExclusionRule} {sId tId : Nat} {p : Str}
    {sLayer tLayer : Layer} {sItem tItem : LayerItem}
    (hs : truthyId (getSel c rule.sourceLayerId) = some sId)
    (ht : truthyId (getSel c rule.targetLayerId) = some tId)
    (hsi : truthyId rule.sourceItemId = none)
    (hp : truthyStr rule.property = some p)
    (hfs : ctx.layers.find? (fun l => l.id == rule.sourceLayerId) = some sLayer)
    (hft : ctx.layers.find? (fun l => l.id == rule.targetLayerId) = some tLayer)
    (hfsi : sLayer.items.find? (fun i => i.id == sId) = some sItem)
    (hfti : tLayer.items.find? (fun i => i.id == tId) = some tItem)
    (hname : jsWords sItem.name = []) :
    exRuleCheck ctx extractProperty c rule = Except.error () := by
  have he : extractProperty sItem.name p = none := extractProperty_of_no_words p hname
  simp only [exRuleCheck, hs, ht, hsi, hp, hfs, hft, hfsi, hfti, he, lowerOrThrow]

theorem qg_updateTraitUsage (combo : Combination) (st : St) :
    QGEq st (updateTraitUsage combo st) := ⟨rfl, rfl⟩

theorem gen_decrementQuotas (ctx : Ctx) (combo : Combination) (st : St) :
    (decrementQuotasForCombination ctx combo st).generated = st.generated := rfl

/-! ### The claims -/

/-- C1 (amended): every non-empty combination returned by
generateValidCombination, and every combination pushed by
generateBatchCombinations when useRules is true, satisfies every stored
exclusion rule; the useRules false path of the batch loop runs no exclusion
validation and the amendment drops it (see the counterexample). -/
theorem exclusions_hold_for_rule_checked_output :
    (∀ (ctx : Ctx) (ub rq : Bool) (st : St) (c : Combination) (st' : St),
      generateValidCombination ctx ub rq st = (Except.ok c, st') → c ≠ [] →
      ∀ r ∈ ctx.traitExclusionRules,
        exRuleCheck ctx extractProperty c r = Except.ok true) ∧
    (∀ (ctx : Ctx) (bs : Nat) (signal : Nat → Bool) (st : St)
      (out : List Combination) (st' : St),
      generateBatchCombinations ctx bs true signal st = (Except.ok out, st') →
      ∀ c ∈ out, ∀ r ∈ ctx.traitExclusionRules,
        exRuleCheck ctx extractProperty c r = Except.ok true) := by
  constructor
  · intro ctx ub rq st c st' h hne r hr
    rcases generateValidCombination_ok h with hc | hc
    · exact absurd hc hne
    · exact (exRulesGo_ok_true_iff ctx extractProperty c
        ctx.traitExclusionRules).mp hc.1 r hr
  · intro ctx bs signal st out st' h c hc r hr
    refine generateBatchCombinations_pred
      (fun c2 => ∀ r2 ∈ ctx.traitExclusionRules,
        exRuleCheck ctx extractProperty c2 r2 = Except.ok true) ?_ h c hc r hr
    intro st2 c2 st2' hg hne2 r2 hr2
    rcases generateValidCombination_ok hg with hc2 | hc2
    · exact absurd hc2 hne2
    · exact (exRulesGo_ok_true_iff ctx extractProperty c2
        ctx.traitExclusionRules).mp hc2.1 r2 hr2

/-- C1 witness: on the two-layer catalog with the harmless pair exclusion,
the generator returns the only combination and the claim theorem yields the
rule check passing on it. -/
theorem exclusions_hold_witness :
    exRuleCheck ctxC1w extractProperty [(1, 1), (2, 2)] ruleC1w = Except.ok true :=
  exclusions_hold_for_rule_checked_output.1 ctxC1w false false st0 [(1, 1), (2, 2)]
    (generateValidCombination ctxC1w false false st0).2 (pair_eq (by decide))
    (by decide) ruleC1w (by decide)

/-- C1 counterexample: with useRules false, the batch loop pushes a
combination that violates the stored pair exclusion. -/
theorem batch_without_rules_skips_exclusions :
    (generateBatchCombinations ctxC1 1 false (fun _ => false) st0).1 =
      Except.ok [[(1, 1), (2, 2)]] ∧
    respectsExclusionsE ctxC1 [(1, 1), (2, 2)] = Except.ok false :=
  ⟨by decide, by decide⟩

/-- C2: across one run of generateBatchCombinations from a state with
nonnegative quotas, for an exact-count layer with distinct layer ids the
number of accepted combinations selecting a given item never exceeds that
item's starting quota, and every quota stays nonnegative and monotonically
non-increasing. -/
theorem batch_quota_conservation (ctx : Ctx) (bs : Nat) (ur : Bool)
    (signal : Nat → Bool) (st : St) (out : List Combination) (st' : St)
    (L : Layer) (I : Nat) (hnodup : (ctx.layers.map Layer.id).Nodup)
    (hL : L ∈ ctx.layers) (hex : L.exactCountMode = true)
    (hnn : ∀ k, 0 ≤ st.quotas k)
    (h : generateBatchCombinations ctx bs ur signal st = (Except.ok out, st')) :
    countSel out L.id I ≤ (st.quotas (quotaKey L.id I)).toNat ∧
    (∀ k, 0 ≤ st'.quotas k ∧ st'.quotas k ≤ st.quotas k) :=
  have h2 := generateBatchCombinations_quota hnodup hL hex hnn h
  ⟨h2.2, h2.1⟩

/-- C2 witness: one batch on the exact-count catalog with one unit of quota
accepts the single combination without exceeding the quota. -/
theorem batch_quota_conservation_witness :
    countSel [[(1, 1)]] layerC2.id 1 ≤ (stq1.quotas (quotaKey layerC2.id 1)).toNat ∧
    (∀ k, 0 ≤ ((generateBatchCombinations ctxC2 1 false (fun _ => false)
        stq1).2).quotas k ∧
      ((generateBatchCombinations ctxC2 1 false (fun _ => false)
        stq1).2).quotas k ≤ stq1.quotas k) :=
  batch_quota_conservation ctxC2 1 false (fun _ => false) stq1 [[(1, 1)]]
    (generateBatchCombinations ctxC2 1 false (fun _ => false) stq1).2 layerC2 1
    (by decide) (by decide) rfl (fun _ => Int.one_nonneg) (pair_eq (by decide))

/-- C3: the hashes of the combinations accepted across two consecutive runs
of generateBatchCombinations are pairwise distinct and avoid every hash
already in the generated set at the start. -/
theorem batch_hashes_unique (ctx : Ctx) (bs1 bs2 : Nat) (ur1 ur2 : Bool)
    (sig1 sig2 : Nat → Bool) (st : St) (out1 : List Combination) (st1 : St)
    (out2 : List Combination) (st2 : St)
    (h1 : generateBatchCombinations ctx bs1 ur1 sig1 st = (Except.ok out1, st1))
    (h2 : generateBatchCombinations ctx bs2 ur2 sig2 st1 = (Except.ok out2, st2)) :
    ((out1 ++ out2).map createCombinationHash).Nodup ∧
    ∀ x ∈ (out1 ++ out2).map createCombinationHash, x ∉ st.generated := by
  obtain ⟨nd1, mem1, gen1⟩ := generateBatchCombinations_hashes h1
  obtain ⟨nd2, mem2, gen2⟩ := generateBatchCombinations_hashes h2
  rw [List.map_append]
  constructor
  · rw [List.nodup_append]
    refine ⟨nd1, nd2, ?_⟩
    intro x hx1 hx2
    exact mem2 x hx2 (by rw [gen1]; exact List.mem_append_right _ hx1)
  · intro x hx
    rcases List.mem_append.mp hx with hx | hx
    · exact mem1 x hx
    · intro hg
      exact mem2 x hx (by rw [gen1]; exact List.mem_append_left _ hg)

/-- C3 witness: a first batch accepts the single quota-backed combination, a
second batch from the resulting state accepts nothing, and the combined hash
list is duplicate free. -/
theorem batch_hashes_unique_witness :
    (([[(1, 1)]] ++ ([] : List Combination)).map createCombinationHash).Nodup ∧
    ∀ x ∈ ([[(1, 1)]] ++ ([] : List Combination)).map createCombinationHash,
      x ∉ st0.generated := by
  refine batch_hashes_unique ctxC2 1 1 false false (fun _ => false) (fun _ => false)
    stq1 [[(1, 1)]] (generateBatchCombinations ctxC2 1 false (fun _ => false) stq1).2
    [] (generateBatchCombinations ctxC2 1 false (fun _ => false)
      (generateBatchCombinations ctxC2 1 false (fun _ => false) stq1).2).2
    (pair_eq (by decide)) (pair_eq (by decide))

/-- C4 (amended): the current generateValidCombination returns the empty
combination when its retry budget is exhausted, and a non-empty result
always passes the exclusion rules, head and body coherence, and (when
quotas are enforced, for well-formed catalogs) the quota check; the legacy
file instead falls back to an unvalidated random combination (see the
counterexample). -/
theorem exhaustion_returns_empty_or_valid (ctx : Ctx) (ub rq : Bool) (st : St) :
    genLoop ctx ub rq 0 st = (Except.ok [], st) ∧
    ∀ (c : Combination) (st' : St),
      generateValidCombination ctx ub rq st = (Except.ok c, st') →
      c = [] ∨
        (respectsExclusionsE ctx c = Except.ok true ∧
         isHeadBodyCoherent ctx c = true ∧
         (rq = true → (∀ l ∈ ctx.layers, ∀ i ∈ l.items, i.id ≠ 0) →
           (ctx.layers.map Layer.id).Nodup →
           combinationRespectsQuotas ctx st.quotas c = true)) :=
  ⟨rfl, fun _ _ h => generateValidCombination_ok h⟩

/-- C4 witness: on the head and body catalog the generator succeeds and the
claim theorem certifies the result empty or valid. -/
theorem exhaustion_returns_empty_or_valid_witness :
    [(1, 1), (2, 2)] = ([] : Combination) ∨
      (respectsExclusionsE ctxC5 [(1, 1), (2, 2)] = Except.ok true ∧
       isHeadBodyCoherent ctxC5 [(1, 1), (2, 2)] = true ∧
       (false = true → (∀ l ∈ ctxC5.layers, ∀ i ∈ l.items, i.id ≠ 0) →
         (ctxC5.layers.map Layer.id).Nodup →
         combinationRespectsQuotas ctxC5 st0.quotas [(1, 1), (2, 2)] = true)) :=
  (exhaustion_returns_empty_or_valid ctxC5 false false st0).2 [(1, 1), (2, 2)]
    (generateValidCombination ctxC5 false false st0).2 (pair_eq (by decide))

/-- C4 counterexample: the legacy generateValidCombination of
src/unnamed/part_000 exhausts its 200 attempts on the always-excluded
catalog and returns a non-empty combination violating the exclusion rule
instead of the empty combination. -/
theorem legacy_exhaustion_returns_random_combination :
    (generateValidCombinationLegacy ctxC1 false st0).1 =
      Except.ok [(1, 1), (2, 2)] ∧
    exRulesGo ctxC1 extractPropertyLegacy [(1, 1), (2, 2)]
      ctxC1.traitExclusionRules = Except.ok false :=
  ⟨by decide, by decide⟩

/-- C5: in every non-empty combination returned by generateValidCombination,
when the head and body layers exist and both carry a (truthy) selection
whose items resolve to color families, the two families agree. -/
theorem head_body_families_agree (ctx : Ctx) (ub rq : Bool) (st : St)
    (c : Combination) (st' : St)
    (h : generateValidCombination ctx ub rq st = (Except.ok c, st'))
    (hne : c ≠ [])
    (headLayer bodyLayer : Layer)
    (hhb : getHeadBodyLayers ctx = (some headLayer, some bodyLayer))
    (headId bodyId : Nat)
    (hh : getSel c headLayer.id = some headId) (hh0 : headId ≠ 0)
    (hb : getSel c bodyLayer.id = some bodyId) (hb0 : bodyId ≠ 0)
    (headItem bodyItem : LayerItem)
    (hfh : headLayer.items.find? (fun i => i.id == headId) = some headItem)
    (hfb : bodyLayer.items.find? (fun i => i.id == bodyId) = some bodyItem)
    (hf bf : Str)
    (hcf : colorFamilyFromName headItem.name = some hf)
    (hcb : colorFamilyFromName bodyItem.name = some bf) : hf = bf := by
  rcases generateValidCombination_ok h with hc | hc
  · exact absurd hc hne
  · have hth : truthyId (getSel c headLayer.id) = some headId := by
      rw [hh]
      simp [truthyId, hh0]
    have htb : truthyId (getSel c bodyLayer.id) = some bodyId := by
      rw [hb]
      simp [truthyId, hb0]
    exact isHeadBodyCoherent_families hc.2.1 hhb hth htb hfh hfb hcf hcb

/-- C5 witness: the generated combination of the red head and body catalog
has both families equal to red. -/
theorem head_body_families_agree_witness : "red".data = "red".data :=
  head_body_families_agree ctxC5 false false st0 [(1, 1), (2, 2)]
    (generateValidCombination ctxC5 false false st0).2 (pair_eq (by decide))
    (by decide) layerC5h layerC5b (by decide) 1 2 (by decide) (by decide)
    (by decide) (by decide) itemC5h itemC5b (by decide) (by decide)
    ("red".data) ("red".data) (by decide) (by decide)

/-- C6 (amended): when the counts have nonzero denominators, are nonnegative
and have a positive sum, scaleCountsToTotal returns integers summing to the
requested total with every entry nonnegative; a zero sum instead yields the
all-zero list whose sum misses the target (see the counterexample). -/
theorem scaleCountsToTotal_sums_to_total (counts : List JsNum) (T : Nat)
    (hden : ∀ c ∈ counts, c.den ≠ 0) (hnn : ∀ c ∈ counts, 0 ≤ qVal c)
    (hpos : qVal (counts.foldl qAdd qZero) ≠ 0) :
    (scaleCountsToTotal counts (qNat T)).sum = (T : Int) ∧
    ∀ x ∈ scaleCountsToTotal counts (qNat T), 0 ≤ x :=
  scaleCountsToTotal_spec counts T hden hnn hpos

/-- C6 witness: counts one and two rescaled to the total four sum to four
and stay nonnegative. -/
theorem scaleCountsToTotal_sums_to_total_witness :
    (scaleCountsToTotal [qNat 1, qNat 2] (qNat 4)).sum = (4 : Int) ∧
    ∀ x ∈ scaleCountsToTotal [qNat 1, qNat 2] (qNat 4), 0 ≤ x :=
  scaleCountsToTotal_sums_to_total [qNat 1, qNat 2] 4 (by decide)
    (by intro c hc; fin_cases hc <;> norm_num [qVal, qNat])
    (by norm_num [qVal, qAdd, qZero, qNat, List.foldl])

/-- C6 counterexample: two zero counts are nonnegative yet the rescaled
output sums to zero, not the requested total of five. -/
theorem scaleCountsToTotal_zero_sum_counterexample :
    (∀ x ∈ [qZero, qZero], 0 ≤ x.num) ∧
    (scaleCountsToTotal [qZero, qZero] (qNat 5)).sum = 0 ∧ (0 : Int) ≠ 5 :=
  ⟨by decide, by decide, by decide⟩

/-- C7: createCombinationHash is canonical and injective: it is invariant
under permutation of a duplicate-free entry list, and equal hashes force
equal selections on every layer. -/
theorem createCombinationHash_canonical_injective :
    (∀ (c1 c2 : Combination), c1.Perm c2 → (c1.map Prod.fst).Nodup →
      createCombinationHash c1 = createCombinationHash c2) ∧
    (∀ (c1 c2 : Combination),
      createCombinationHash c1 = createCombinationHash c2 →
      ∀ k, getSel c1 k = getSel c2 k) :=
  ⟨fun _ _ hp hnd => createCombinationHash_perm hp hnd,
   fun _ _ h => createCombinationHash_inj h⟩

/-- C7 witness: the hash of a two-entry combination is unchanged by swapping
the entries. -/
theorem createCombinationHash_canonical_witness :
    createCombinationHash [(1, 2), (3, 4)] = createCombinationHash [(3, 4), (1, 2)] :=
  createCombinationHash_canonical_injective.1 [(1, 2), (3, 4)] [(3, 4), (1, 2)]
    (by decide) (by decide)

/-- C8 (amended): the first-listed manual mapping that fires (source item
selected, target layer unassigned, quota available) and whose insertion
passes the exclusion rules has its target item selected after
applyAllMatching; a firing mapping whose insertion fails the exclusion
check is skipped, leaving the fold as if the mapping were absent.  A later
mapping with the same fired source is not applied (see the
counterexample). -/
theorem manual_mapping_first_applies :
    (∀ (ctx : Ctx) (rq : Bool) (c : Combination) (st : St) (chg : Bool)
       (c' : Combination) (st' : St) (m : ManualMapping)
       (pre post : List ManualMapping),
       ctx.manualMappings = pre ++ m :: post →
       (∀ m2 ∈ pre, ¬firesOn ctx rq st c m2) →
       getSel c m.sourceLayerId = some m.sourceItemId →
       getSel c m.targetLayerId = none →
       quotaCond ctx rq st m = true →
       respectsExclusionsE ctx (insertSel c m.targetLayerId m.targetItemId) =
         Except.ok true →
       applyAllMatching ctx c rq st = (Except.ok (chg, c'), st') →
       getSel c' m.targetLayerId = some m.targetItemId) ∧
    (∀ (ctx : Ctx) (rq : Bool) (m : ManualMapping)
       (pre post : List ManualMapping) (c : Combination) (ch : Bool) (st : St),
       (∀ m2 ∈ pre, ¬firesOn ctx rq st c m2) →
       getSel c m.sourceLayerId = some m.sourceItemId →
       getSel c m.targetLayerId = none →
       quotaCond ctx rq st m = true →
       respectsExclusionsE ctx (insertSel c m.targetLayerId m.targetItemId) =
         Except.ok false →
       manualFold ctx rq (pre ++ m :: post) c ch st =
         manualFold ctx rq post c ch st) :=
  ⟨fun _ _ _ _ _ _ _ m pre post h1 h2 h3 h4 h5 h6 h7 =>
     applyAllMatching_manual_first m pre post h1 h2 h3 h4 h5 h6 h7,
   fun _ _ m pre post c ch st h1 h2 h3 h4 h5 =>
     manualFold_skips m pre post c ch st h1 h2 h3 h4 h5⟩

/-- C8 witness: on the two-mapping catalog the first mapping's target item
is selected after resolution. -/
theorem manual_mapping_first_applies_witness :
    getSel [(1, 1), (2, 2)] mapC8a.targetLayerId = some mapC8a.targetItemId :=
  manual_mapping_first_applies.1 ctxC8 false [(1, 1)] st0 true [(1, 1), (2, 2)]
    (applyAllMatching ctxC8 [(1, 1)] false st0).2 mapC8a [] [mapC8b] rfl
    (fun m2 hm2 => absurd hm2 (List.not_mem_nil m2)) (by decide) (by decide)
    (by decide) (by decide) (pair_eq (by decide))

/-- C8 counterexample: the second manual mapping also fires before
resolution, violates no quota or exclusion, yet its target item is not
selected after resolution because the first mapping already filled the
target layer. -/
theorem manual_mapping_second_not_applied :
    (applyAllMatching ctxC8 [(1, 1)] false st0).1 =
      Except.ok (true, [(1, 1), (2, 2)]) ∧
    getSel [(1, 1)] mapC8b.sourceLayerId = some mapC8b.sourceItemId ∧
    getSel [(1, 1)] mapC8b.targetLayerId = none ∧
    quotaCond ctxC8 false st0 mapC8b = true ∧
    respectsExclusionsE ctxC8
      (insertSel [(1, 1)] mapC8b.targetLayerId mapC8b.targetItemId) =
      Except.ok true ∧
    getSel [(1, 1), (2, 2)] mapC8b.targetLayerId ≠ some mapC8b.targetItemId :=
  ⟨by decide, by decide, by decide, by decide, by decide, by decide⟩

/-- C9 (amended): a live persisted session is restored with a generating
status replaced by paused, and every other status (including downloading)
restored unchanged; the claim's wider reading that every in-progress status
becomes paused fails on downloading (see the counterexample). -/
theorem session_restore_generating_paused (session : ExportSession) (now : Int)
    (httl : now - session.timestamp < 24 * 60 * 60 * 1000) :
    restoreSessionStatus (some session) now =
      some (restoredBatchStatus session.status) ∧
    (session.status = ExportStatus.generating →
      restoredBatchStatus session.status = ExportStatus.paused) ∧
    (session.status ≠ ExportStatus.generating →
      restoredBatchStatus session.status = session.status) := by
  refine ⟨?_, ?_, ?_⟩
  · simp only [restoreSessionStatus, loadExportSession]
    rw [if_pos (by omega)]
    rfl
  · intro hg
    simp [restoredBatchStatus, hg]
  · intro hg
    simp [restoredBatchStatus, hg]

/-- C9 witness: a generating session under the TTL is restored as paused. -/
theorem session_restore_generating_paused_witness :
    restoreSessionStatus (some sessionGenerating) 0 =
      some (restoredBatchStatus sessionGenerating.status) ∧
    (sessionGenerating.status = ExportStatus.generating →
      restoredBatchStatus sessionGenerating.status = ExportStatus.paused) ∧
    (sessionGenerating.status ≠ ExportStatus.generating →
      restoredBatchStatus sessionGenerating.status = sessionGenerating.status) :=
  session_restore_generating_paused sessionGenerating 0 (by decide)

/-- C9 counterexample: a downloading session is restored as downloading, not
paused. -/
theorem session_restore_downloading_unchanged :
    restoreSessionStatus (some sessionDownloading) 0 =
      some ExportStatus.downloading ∧
    ExportStatus.downloading ≠ ExportStatus.paused :=
  ⟨by decide, by decide⟩

/-- C10: a name tokenising to no words makes extractProperty return
undefined for every property, the toLowerCase call on that result throws,
and an exclusion-rule check reaching the property comparison over such a
source item ends in the thrown error, so the property comparison is not
total over item names. -/
theorem extractProperty_wordless_undefined (itemName p : Str)
    (hw : jsWords itemName = []) :
    extractProperty itemName p = none ∧
    lowerOrThrow (extractProperty itemName p) = Except.error () ∧
    (∀ (ctx : Ctx) (c : Combination) (rule : TraitExclusionRule) (sId tId : Nat)
       (sLayer tLayer : Layer) (sItem tItem : LayerItem),
       truthyId (getSel c rule.sourceLayerId) = some sId →
       truthyId (getSel c rule.targetLayerId) = some tId →
       truthyId rule.sourceItemId = none →
       truthyStr rule.property = some p →
       ctx.layers.find? (fun l => l.id == rule.sourceLayerId) = some sLayer →
       ctx.layers.find? (fun l => l.id == rule.targetLayerId) = some tLayer →
       sLayer.items.find? (fun i => i.id == sId) = some sItem →
       tLayer.items.find? (fun i => i.id == tId) = some tItem →
       sItem.name = itemName →
       exRuleCheck ctx extractProperty c rule = Except.error ()) := by
  have he := extractProperty_of_no_words p hw
  refine ⟨he, by rw [he]; rfl, ?_⟩
  intro ctx c rule sId tId sLayer tLayer sItem tItem h1 h2 h3 h4 h5 h6 h7 h8 h9
  exact exRuleCheck_error_of_no_words h1 h2 h3 h4 h5 h6 h7 h8 (by rw [h9]; exact hw)

/-- C10 witness: the separator-only item name makes the color exclusion
check of the concrete catalog throw. -/
theorem extractProperty_wordless_undefined_witness :
    exRuleCheck ctxC10 extractProperty [(1, 1), (2, 2)] ruleC10 =
      Except.error () :=
  (extractProperty_wordless_undefined ("_-_".data) ("color".data)
      (by decide)).2.2
    ctxC10 [(1, 1), (2, 2)] ruleC10 1 2 layerC10a layerC10b itemBad itemC10b
    (by decide) (by decide) (by decide) (by decide) (by decide) (by decide)
    (by decide) (by decide) rfl

end NftGen
